import Mathlib

open scoped List

/-!
Verification development for the structured-diff and merge engine of the
AIResumeAnalyzer repository.

The embedded code comes from two places in the repository:
* `frontend/src/App.jsx` — word-level diff (`diffWords`), change-set
  extraction (`buildChangeItems`), selective merge (`buildUpdatedResumeData`)
  and their helpers;
* the backend server file — the normalizer (`normalizeResumeJson` and its
  helpers) and the JSON `resumeSchema`.

JavaScript values are modelled by the inductive type `JSValue`.  Strict
equality (`===`) is modelled as structural equality (the code only compares
strings and primitive ids, where this coincides with JavaScript).  HTML
rendering of the diff is presentation-only and is modelled by the tagged
operation list plus the two filtered views.
-/

/-! ### Word-level diff engine (`diffWords`, App.jsx lines 101–164) -/

/-- Tag of one diff operation: the source uses the strings
`'equal' | 'remove' | 'add'`. -/
inductive DiffTag where
  | equal
  | remove
  | add
deriving DecidableEq, Repr

/-- One entry of the `operations` array built during backtracking. -/
structure DiffOp where
  tag : DiffTag
  value : String
deriving DecidableEq, Repr

/-- Split a character list at every whitespace character (the pieces
between occurrences, possibly empty). -/
def splitWhitespace : List Char → List (List Char)
  | [] => [[]]
  | c :: rest =>
    let gs := splitWhitespace rest
    if c.isWhitespace then [] :: gs
    else
      match gs with
      | [] => [[c]]
      | g :: gs' => (c :: g) :: gs'

/-- `text.split(/\s+/).filter(Boolean)`: split on whitespace and drop empty
tokens (splitting at every whitespace character and filtering is the same
as splitting on runs).  `Char.isWhitespace` stands for the regexp class
`\s`; the split is written on the character list so that it evaluates in
the kernel. -/
def tokenize (s : String) : List String :=
  ((splitWhitespace s.data).map (fun cs => String.mk cs)).filter (fun t => t ≠ "")

/-- One row step of the LCS dynamic-programming table: given row `i`
(`prev`), compute row `i+1` at column `j`.  Out-of-range reads return `""`,
matching that the source only indexes within bounds. -/
def dpRow (bs as : List String) (i : Nat) (prev : Nat → Nat) : Nat → Nat
  | 0 => 0
  | j + 1 =>
    if bs.getD i "" = as.getD j "" then prev j + 1
    else max (prev (j + 1)) (dpRow bs as i prev j)

/-- `dp[i][j]` of the source: the `(m+1)×(n+1)` LCS length table. -/
def dp (bs as : List String) : Nat → Nat → Nat
  | 0, _ => 0
  | i + 1, j => dpRow bs as i (dp bs as i) j

/-- Backtracking when `i = 0`: the drain loop `while (j > 0)` emitting
`add` operations (prepended with `unshift`, hence appended here). -/
def btZero (as : List String) : Nat → List DiffOp
  | 0 => []
  | j + 1 => btZero as j ++ [⟨DiffTag.add, as.getD j ""⟩]

/-- Backtracking at row `i+1` (source cell indices `i+1, j+1`): the main
`while (i > 0 && j > 0)` loop plus the `while (i > 0)` drain, with the
source's tie-break `dp[i-1][j] >= dp[i][j-1]` preferring `remove`. -/
def btRow (bs as : List String) (i : Nat) (prev : Nat → List DiffOp) :
    Nat → List DiffOp
  | 0 => prev 0 ++ [⟨DiffTag.remove, bs.getD i ""⟩]
  | j + 1 =>
    if bs.getD i "" = as.getD j "" then
      prev j ++ [⟨DiffTag.equal, bs.getD i ""⟩]
    else if dp bs as i (j + 1) ≥ dp bs as (i + 1) j then
      prev (j + 1) ++ [⟨DiffTag.remove, bs.getD i ""⟩]
    else
      btRow bs as i prev j ++ [⟨DiffTag.add, as.getD j ""⟩]

/-- The backtracking pass of `diffWords`, producing the `operations` list
in source order (each `unshift` prepends, so the operation for the current
cell ends up after those of the remaining prefix). -/
def backtrack (bs as : List String) : Nat → Nat → List DiffOp
  | 0, j => btZero as j
  | i + 1, j => btRow bs as i (backtrack bs as i) j

/-- `diffWords(beforeText, afterText)`: tokenize both texts and backtrack
the full DP table.  The source then renders two HTML strings from this
operation list; the rendering is presentation-only and is modelled by
`diffBeforeView` / `diffAfterView` below. -/
def diffWords (beforeText afterText : String) : List DiffOp :=
  let beforeWords := tokenize beforeText
  let afterWords := tokenize afterText
  backtrack beforeWords afterWords beforeWords.length afterWords.length

/-- The "before" view: `operations.filter((op) => op.type !== 'add')`. -/
def diffBeforeView (ops : List DiffOp) : List DiffOp :=
  ops.filter (fun op => op.tag ≠ DiffTag.add)

/-- The "after" view: `operations.filter((op) => op.type !== 'remove')`. -/
def diffAfterView (ops : List DiffOp) : List DiffOp :=
  ops.filter (fun op => op.tag ≠ DiffTag.remove)

/-- Number of `equal`-tagged operations. -/
def equalCount (ops : List DiffOp) : Nat :=
  (ops.filter (fun op => op.tag = DiffTag.equal)).length

/-- The token values carried by the `equal`-tagged operations, in order. -/
def equalTokens (ops : List DiffOp) : List String :=
  (ops.filter (fun op => op.tag = DiffTag.equal)).map (fun op => op.value)

/-! ### JavaScript value model

Documents, change items and the normalizer operate on untyped JSON-like
values.  `JSValue` models them; `vundef` models `undefined` (absent
properties, out-of-range indexing). -/

inductive JSValue where
  | vundef
  | vnull
  | vbool (b : Bool)
  | vnum (n : Int)
  | vstr (s : String)
  | varr (elems : List JSValue)
  | vobj (kvs : List (String × JSValue))

/-- Decidable structural equality on `JSValue` (written by hand: the
nested occurrence of `List` defeats the deriving handler). -/
def jsDecEq : (a b : JSValue) → Decidable (a = b)
  | .vundef, .vundef => isTrue rfl
  | .vundef, .vnull => isFalse (by simp)
  | .vundef, .vbool _ => isFalse (by simp)
  | .vundef, .vnum _ => isFalse (by simp)
  | .vundef, .vstr _ => isFalse (by simp)
  | .vundef, .varr _ => isFalse (by simp)
  | .vundef, .vobj _ => isFalse (by simp)
  | .vnull, .vundef => isFalse (by simp)
  | .vnull, .vnull => isTrue rfl
  | .vnull, .vbool _ => isFalse (by simp)
  | .vnull, .vnum _ => isFalse (by simp)
  | .vnull, .vstr _ => isFalse (by simp)
  | .vnull, .varr _ => isFalse (by simp)
  | .vnull, .vobj _ => isFalse (by simp)
  | .vbool _, .vundef => isFalse (by simp)
  | .vbool _, .vnull => isFalse (by simp)
  | .vbool x, .vbool y =>
    if h : x = y then isTrue (by rw [h]) else isFalse (by simp [h])
  | .vbool _, .vnum _ => isFalse (by simp)
  | .vbool _, .vstr _ => isFalse (by simp)
  | .vbool _, .varr _ => isFalse (by simp)
  | .vbool _, .vobj _ => isFalse (by simp)
  | .vnum _, .vundef => isFalse (by simp)
  | .vnum _, .vnull => isFalse (by simp)
  | .vnum _, .vbool _ => isFalse (by simp)
  | .vnum x, .vnum y =>
    if h : x = y then isTrue (by rw [h]) else isFalse (by simp [h])
  | .vnum _, .vstr _ => isFalse (by simp)
  | .vnum _, .varr _ => isFalse (by simp)
  | .vnum _, .vobj _ => isFalse (by simp)
  | .vstr _, .vundef => isFalse (by simp)
  | .vstr _, .vnull => isFalse (by simp)
  | .vstr _, .vbool _ => isFalse (by simp)
  | .vstr _, .vnum _ => isFalse (by simp)
  | .vstr x, .vstr y =>
    if h : x = y then isTrue (by rw [h]) else isFalse (by simp [h])
  | .vstr _, .varr _ => isFalse (by simp)
  | .vstr _, .vobj _ => isFalse (by simp)
  | .varr _, .vundef => isFalse (by simp)
  | .varr _, .vnull => isFalse (by simp)
  | .varr _, .vbool _ => isFalse (by simp)
  | .varr _, .vnum _ => isFalse (by simp)
  | .varr _, .vstr _ => isFalse (by simp)
  | .varr xs, .varr ys =>
    match goList xs ys with
    | isTrue h => isTrue (by rw [h])
    | isFalse h => isFalse (by simp [h])
  | .varr _, .vobj _ => isFalse (by simp)
  | .vobj _, .vundef => isFalse (by simp)
  | .vobj _, .vnull => isFalse (by simp)
  | .vobj _, .vbool _ => isFalse (by simp)
  | .vobj _, .vnum _ => isFalse (by simp)
  | .vobj _, .vstr _ => isFalse (by simp)
  | .vobj _, .varr _ => isFalse (by simp)
  | .vobj xs, .vobj ys =>
    match goPairs xs ys with
    | isTrue h => isTrue (by rw [h])
    | isFalse h => isFalse (by simp [h])
where
  goList : (xs ys : List JSValue) → Decidable (xs = ys)
    | [], [] => isTrue rfl
    | [], _ :: _ => isFalse (by simp)
    | _ :: _, [] => isFalse (by simp)
    | x :: xs, y :: ys =>
      match jsDecEq x y, goList xs ys with
      | isTrue h1, isTrue h2 => isTrue (by rw [h1, h2])
      | isFalse h1, _ => isFalse (by simp [h1])
      | _, isFalse h2 => isFalse (by simp [h2])
  goPairs : (xs ys : List (String × JSValue)) → Decidable (xs = ys)
    | [], [] => isTrue rfl
    | [], _ :: _ => isFalse (by simp)
    | _ :: _, [] => isFalse (by simp)
    | (k, v) :: xs, (k', v') :: ys =>
      match String.decEq k k', jsDecEq v v', goPairs xs ys with
      | isTrue h1, isTrue h2, isTrue h3 =>
        isTrue (by rw [h1, h2, h3])
      | isFalse h1, _, _ => isFalse (by simp [h1])
      | _, isFalse h2, _ => isFalse (by simp [h2])
      | _, _, isFalse h3 => isFalse (by simp [h3])

instance : DecidableEq JSValue := jsDecEq

/-- JavaScript truthiness (`!!v`).  `NaN` is not modelled. -/
def truthy : JSValue → Bool
  | .vundef => false
  | .vnull => false
  | .vbool b => b
  | .vnum n => n ≠ 0
  | .vstr s => s ≠ ""
  | .varr _ => true
  | .vobj _ => true

/-- The guard `v && typeof v === 'object'` (arrays pass, `null` fails on
truthiness). -/
def isObjLike : JSValue → Bool
  | .varr _ => true
  | .vobj _ => true
  | _ => false

/-- `typeof v === 'string'`. -/
def isStrB : JSValue → Bool
  | .vstr _ => true
  | _ => false

/-- `typeof value === 'string' ? value : ''`. -/
def strOrEmpty : JSValue → String
  | .vstr s => s
  | _ => ""

/-- `a || b`. -/
def jsOr (a b : JSValue) : JSValue := if truthy a then a else b

/-- Property access `v[k]` / `v?.[k]`: first binding of an object,
canonical-index element or `length` of an array, `undefined` otherwise
(also on `null`/`undefined`/primitives, as `?.` yields). -/
def getProp (v : JSValue) (k : String) : JSValue :=
  match v with
  | .vobj kvs =>
    match kvs.find? (fun kv => kv.1 = k) with
    | some kv => kv.2
    | none => .vundef
  | .varr xs =>
    if k = "length" then .vnum xs.length
    else
      match xs.enum.find? (fun p => toString p.1 = k) with
      | some p => p.2
      | none => .vundef
  | _ => JSValue.vundef

/-- Property assignment on an association list: replace the first binding
in place (JavaScript keeps the original key position) or append. -/
def objSet : List (String × JSValue) → String → JSValue → List (String × JSValue)
  | [], k, v => [(k, v)]
  | (k', v') :: rest, k, v =>
    if k' = k then (k, v) :: rest else (k', v') :: objSet rest k v

/-- `obj.k = x` (no-op on non-objects; such assignments are unreachable in
the embedded code paths). -/
def setProp (v : JSValue) (k : String) (x : JSValue) : JSValue :=
  match v with
  | .vobj kvs => .vobj (objSet kvs k x)
  | _ => v

/-- The enumerable own pairs contributed by `...v` in an object literal:
an object's bindings, an array's indexed elements, nothing for primitives.
(String spreading to character keys is unreachable in the embedded paths.) -/
def rawPairs (v : JSValue) : List (String × JSValue) :=
  match v with
  | .vobj kvs => kvs
  | .varr xs => xs.enum.map (fun p => (toString p.1, p.2))
  | _ => []

/-- Spread `v`'s pairs over an existing literal body. -/
def mergeSpread (base : List (String × JSValue)) (v : JSValue) : List (String × JSValue) :=
  (rawPairs v).foldl (fun acc kv => objSet acc kv.1 kv.2) base

/-- `{ ...v }`. -/
def spreadIntoObj (v : JSValue) : List (String × JSValue) :=
  mergeSpread [] v

/-- `Object.keys(v)` (enumerable own keys; index strings for arrays). -/
def objKeys (v : JSValue) : List String :=
  (rawPairs v).map (fun kv => kv.1)

/-- `Array.isArray(v) ? v : []`, as a Lean list. -/
def toArrD (v : JSValue) : List JSValue :=
  match v with
  | .varr xs => xs
  | _ => []

/-- String coercion (template literals / `String(v)`): arrays join their
elements with `","`, with `null`/`undefined` elements contributing `""`. -/
def jsToString : JSValue → String
  | .vstr s => s
  | .vnum n => toString n
  | .vbool true => "true"
  | .vbool false => "false"
  | .vnull => "null"
  | .vundef => "undefined"
  | .vobj _ => "[object Object]"
  | .varr xs => String.intercalate "," (goElems xs)
where
  goElems : List JSValue → List String
    | [] => []
    | .vnull :: xs => "" :: goElems xs
    | .vundef :: xs => "" :: goElems xs
    | x :: xs => jsToString x :: goElems xs

/-! ### Association-list model of `Map` (insertion order, `set` keeps the
original position of an existing key) -/

def jsMapSet {κ α : Type} [DecidableEq κ] : List (κ × α) → κ → α → List (κ × α)
  | [], k, v => [(k, v)]
  | (k', v') :: rest, k, v =>
    if k' = k then (k, v) :: rest else (k', v') :: jsMapSet rest k v

def jsMapGet {κ α : Type} [DecidableEq κ] (m : List (κ × α)) (k : κ) : Option α :=
  (m.find? (fun p => p.1 = k)).map (fun p => p.2)

def jsMapHas {κ α : Type} [DecidableEq κ] (m : List (κ × α)) (k : κ) : Bool :=
  m.any (fun p => p.1 = k)

/-- `[...rm.keys(), ...[...am.keys()].filter((id) => !rm.has(id))]`. -/
def unionKeys {κ α : Type} [DecidableEq κ] (rm am : List (κ × α)) : List κ :=
  rm.map Prod.fst ++ (am.map Prod.fst).filter (fun k => ¬ jsMapHas rm k)

/-! ### Document helpers (App.jsx lines 42–99) -/

/-- `extractSkillLabelValue` (App.jsx line 42): explicit `label`/`value`
pair, else the first non-`id` key. -/
def extractSkillLabelValue (entry : JSValue) : String × String :=
  if ¬ isObjLike entry then ("", "")
  else if isStrB (getProp entry "label") ∨ isStrB (getProp entry "value") then
    (strOrEmpty (getProp entry "label"), strOrEmpty (getProp entry "value"))
  else
    let keys := (objKeys entry).filter (fun k => k ≠ "id")
    let label :=
      match keys.head? with
      | some k => k
      | none => ""
    let value := if label ≠ "" then getProp entry label else .vstr ""
    (label, strOrEmpty value)

/-- `skillEntryToText` (App.jsx line 59): the `label: value` projection. -/
def skillEntryToText (entry : JSValue) : String :=
  let lv := extractSkillLabelValue entry
  if lv.1 = "" ∧ lv.2 = "" then ""
  else if lv.2 ≠ "" then lv.1 ++ ": " ++ lv.2
  else lv.1

/-- `skillEntryLabel` (App.jsx line 65). -/
def skillEntryLabel (entry : JSValue) : String :=
  (extractSkillLabelValue entry).1

/-- `getSummaryText` (App.jsx line 76): `typeof summary === 'string' ?
summary : summary?.text || ''`.  The result is a `JSValue` because the
`||` chain can keep a truthy non-string `text`. -/
def getSummaryText (summary : JSValue) : JSValue :=
  match summary with
  | .vstr _ => summary
  | _ => jsOr (getProp summary "text") (.vstr "")

/-- `getSummaryId` (App.jsx line 77). -/
def getSummaryId (summary : JSValue) : JSValue :=
  if isObjLike summary ∧ truthy (getProp summary "id") then getProp summary "id"
  else .vstr "summary-1"

/-- `getPointText` (App.jsx line 79; the backend has an identical copy). -/
def getPointText (point : JSValue) : String :=
  match point with
  | .vstr s => s
  | _ =>
    if isObjLike point then
      match getProp point "text" with
      | .vstr t => t
      | _ =>
        match getProp point "value" with
        | .vstr v => v
        | _ => ""
    else ""

/-- `getPointId` (App.jsx line 88): a non-empty string `id`, else the
caller's fallback. -/
def getPointId (point : JSValue) (fallbackId : String) : String :=
  if isObjLike point then
    match getProp point "id" with
    | .vstr s => if s ≠ "" then s else fallbackId
    | _ => fallbackId
  else fallbackId

/-! ### Change items and the change-set extractor
(`buildChangeItems`, App.jsx lines 166–306) -/

inductive ChangeType where
  | summary
  | skill
  | experience
  | project
deriving DecidableEq, Repr

/-- One change item.  `idx` stands for the source's `jobIndex` /
`projectIndex` field; unused fields keep their defaults per category. -/
structure ChangeItem where
  cid : String
  ctype : ChangeType
  title : String := ""
  group : String := ""
  summaryId : JSValue := .vundef
  skillId : JSValue := .vundef
  idx : Nat := 0
  pointId : String := ""
  before : JSValue := .vundef
  after : JSValue := .vundef
deriving DecidableEq

/-- Skill map key: `(entry && entry.id) || 'skill-' + (index + 1)`. -/
def skillKeyOf (entry : JSValue) (index : Nat) : JSValue :=
  jsOr (if truthy entry then getProp entry "id" else entry)
    (.vstr ("skill-" ++ toString (index + 1)))

/-- `skills.forEach((entry, index) => map.set(id, { entry, index }))`. -/
def buildSkillMap (xs : List JSValue) : List (JSValue × (JSValue × Nat)) :=
  xs.enum.foldl (fun m p => jsMapSet m (skillKeyOf p.2 p.1) (p.2, p.1)) []

/-- `map.get(skillId)?.entry || null`. -/
def skillEntryAt (m : List (JSValue × (JSValue × Nat))) (k : JSValue) : JSValue :=
  match jsMapGet m k with
  | some e => jsOr e.1 .vnull
  | none => .vnull

/-- The summary comparison (App.jsx lines 171–183). -/
def summaryItems (resumeJson analysisJson : JSValue) : List ChangeItem :=
  let summaryBefore := getSummaryText (getProp resumeJson "summary")
  let summaryAfter := getSummaryText (getProp analysisJson "summary")
  if truthy summaryAfter ∧ summaryAfter ≠ summaryBefore then
    let summaryId := jsOr (getSummaryId (getProp analysisJson "summary"))
      (getSummaryId (getProp resumeJson "summary"))
    [{ cid := "summary:" ++ jsToString summaryId, ctype := .summary,
       title := "Summary", summaryId := summaryId,
       before := summaryBefore, after := summaryAfter }]
  else []

/-- The skills comparison (App.jsx lines 185–218). -/
def skillItems (resumeJson analysisJson : JSValue) : List ChangeItem :=
  let resumeSkills := toArrD (getProp resumeJson "skills")
  let analysisSkills := toArrD (getProp analysisJson "skills")
  let resumeSkillMap := buildSkillMap resumeSkills
  let analysisSkillMap := buildSkillMap analysisSkills
  (unionKeys resumeSkillMap analysisSkillMap).enum.filterMap (fun p =>
    let idx := p.1
    let skillId := p.2
    let beforeEntry := skillEntryAt resumeSkillMap skillId
    let afterEntry := skillEntryAt analysisSkillMap skillId
    let beforeText := skillEntryToText beforeEntry
    let afterText := skillEntryToText afterEntry
    if beforeText = "" ∧ afterText = "" then none
    else if beforeText = afterText then none
    else
      let label :=
        if skillEntryLabel afterEntry ≠ "" then skillEntryLabel afterEntry
        else if skillEntryLabel beforeEntry ≠ "" then skillEntryLabel beforeEntry
        else "Skill " ++ toString (idx + 1)
      some { cid := "skill:" ++ jsToString skillId, ctype := .skill,
             title := label, skillId := skillId,
             before := .vstr beforeText, after := .vstr afterText })

/-- Point map key fallback ids: `exp-<jobIndex+1>-<index+1>` /
`proj-<projectIndex+1>-<index+1>`. -/
def expFallbackId (jobIndex i : Nat) : String :=
  "exp-" ++ toString (jobIndex + 1) ++ "-" ++ toString (i + 1)

def projFallbackId (projectIndex i : Nat) : String :=
  "proj-" ++ toString (projectIndex + 1) ++ "-" ++ toString (i + 1)

/-- `points.forEach((point, index) => map.set(getPointId(point, fb), { point, index }))`. -/
def buildPointMap (pts : List JSValue) (fb : Nat → String) : List (String × (JSValue × Nat)) :=
  pts.enum.foldl (fun m p => jsMapSet m (getPointId p.2 (fb p.1)) (p.2, p.1)) []

/-- `map.get(pointId)?.point` (`undefined` when missing). -/
def pointAt (m : List (String × (JSValue × Nat))) (k : String) : JSValue :=
  match jsMapGet m k with
  | some e => e.1
  | none => JSValue.vundef

/-- Group label of a job: `[role, company]` with candidate-over-original
fallback, joined, else `Experience <n+1>`. -/
def jobGroupLabel (resumeJob analysisJob : JSValue) (jobIndex : Nat) : String :=
  let parts := [jsOr (getProp analysisJob "role") (getProp resumeJob "role"),
                jsOr (getProp analysisJob "company") (getProp resumeJob "company")]
  let s := String.intercalate " · " ((parts.filter truthy).map jsToString)
  if s = "" then "Experience " ++ toString (jobIndex + 1) else s

/-- The per-job experience-point comparison (App.jsx lines 223–262). -/
def expJobItems (resumeExperience analysisExperience : List JSValue)
    (jobIndex : Nat) : List ChangeItem :=
  let resumeJob := jsOr (resumeExperience.getD jobIndex .vundef) (.vobj [])
  let analysisJob := jsOr (analysisExperience.getD jobIndex .vundef) (.vobj [])
  let group := jobGroupLabel resumeJob analysisJob jobIndex
  let resumePoints := toArrD (getProp resumeJob "points")
  let analysisPoints := toArrD (getProp analysisJob "points")
  let resumePointMap := buildPointMap resumePoints (expFallbackId jobIndex)
  let analysisPointMap := buildPointMap analysisPoints (expFallbackId jobIndex)
  (unionKeys resumePointMap analysisPointMap).filterMap (fun pointId =>
    let beforeT := getPointText (pointAt resumePointMap pointId)
    let afterT := getPointText (pointAt analysisPointMap pointId)
    if beforeT = "" ∧ afterT = "" then none
    else if beforeT = afterT then none
    else some { cid := "exp:" ++ toString jobIndex ++ ":" ++ pointId,
                ctype := .experience, group := group, idx := jobIndex,
                pointId := pointId,
                before := .vstr beforeT, after := .vstr afterT })

/-- All experience items.  `x || []` then `.length`: a truthy non-array
has `length` `undefined`, giving a `NaN` bound and zero loop iterations,
modelled by the empty list. -/
def expItems (resumeJson analysisJson : JSValue) : List ChangeItem :=
  let resumeExperience := toArrD (jsOr (getProp resumeJson "experience") (.varr []))
  let analysisExperience := toArrD (jsOr (getProp analysisJson "experience") (.varr []))
  (List.range (max resumeExperience.length analysisExperience.length)).flatMap
    (expJobItems resumeExperience analysisExperience)

/-- Group label of a project: `analysisProject.name || resumeProject.name
|| 'Project <n+1>'` (truthy non-string names are coerced to strings here;
the field is display-only). -/
def projGroupLabel (resumeProject analysisProject : JSValue) (projectIndex : Nat) : String :=
  let n := jsOr (getProp analysisProject "name") (getProp resumeProject "name")
  if truthy n then jsToString n else "Project " ++ toString (projectIndex + 1)

/-- The per-project point comparison (App.jsx lines 267–303). -/
def projJobItems (resumeProjects analysisProjects : List JSValue)
    (projectIndex : Nat) : List ChangeItem :=
  let resumeProject := jsOr (resumeProjects.getD projectIndex .vundef) (.vobj [])
  let analysisProject := jsOr (analysisProjects.getD projectIndex .vundef) (.vobj [])
  let group := projGroupLabel resumeProject analysisProject projectIndex
  let resumePoints := toArrD (getProp resumeProject "points")
  let analysisPoints := toArrD (getProp analysisProject "points")
  let resumePointMap := buildPointMap resumePoints (projFallbackId projectIndex)
  let analysisPointMap := buildPointMap analysisPoints (projFallbackId projectIndex)
  (unionKeys resumePointMap analysisPointMap).filterMap (fun pointId =>
    let beforeT := getPointText (pointAt resumePointMap pointId)
    let afterT := getPointText (pointAt analysisPointMap pointId)
    if beforeT = "" ∧ afterT = "" then none
    else if beforeT = afterT then none
    else some { cid := "proj:" ++ toString projectIndex ++ ":" ++ pointId,
                ctype := .project, group := group, idx := projectIndex,
                pointId := pointId,
                before := .vstr beforeT, after := .vstr afterT })

/-- All project items. -/
def projItems (resumeJson analysisJson : JSValue) : List ChangeItem :=
  let resumeProjects := toArrD (jsOr (getProp resumeJson "projects") (.varr []))
  let analysisProjects := toArrD (jsOr (getProp analysisJson "projects") (.varr []))
  (List.range (max resumeProjects.length analysisProjects.length)).flatMap
    (projJobItems resumeProjects analysisProjects)

/-- `buildChangeItems(resumeJson, analysisJson)` (App.jsx line 166): the
sections are pushed into one array in this fixed order. -/
def buildChangeItems (resumeJson analysisJson : JSValue) : List ChangeItem :=
  if ¬ truthy resumeJson ∨ ¬ truthy analysisJson then []
  else
    summaryItems resumeJson analysisJson ++ skillItems resumeJson analysisJson ++
    expItems resumeJson analysisJson ++ projItems resumeJson analysisJson

/-! ### Selective merge engine
(`buildUpdatedResumeData`, App.jsx lines 314–408) -/

/-- `clonePoints` (App.jsx line 317). -/
def clonePoints (v : JSValue) : List JSValue :=
  match v with
  | .varr xs => xs.map (fun p => if isObjLike p then .vobj (spreadIntoObj p) else p)
  | _ => []

/-- `cloneJobs` (App.jsx line 321): `{ ...item, points: clonePoints(item.points) }`. -/
def cloneJobs (v : JSValue) : List JSValue :=
  match v with
  | .varr xs =>
    xs.map (fun item =>
      .vobj (objSet (spreadIntoObj item) "points"
        (.varr (clonePoints (getProp item "points")))))
  | _ => []

/-- `items.map((item) => ({ ...item }))` over education / certificates. -/
def cloneFlat (v : JSValue) : List JSValue :=
  match v with
  | .varr xs => xs.map (fun item => .vobj (spreadIntoObj item))
  | _ => []

/-- The working copy `updated` (App.jsx lines 324–335). -/
def cloneResume (resumeJson : JSValue) : JSValue :=
  let base := spreadIntoObj resumeJson
  let base := objSet base "basics"
    (.vobj (spreadIntoObj (jsOr (getProp resumeJson "basics") (.vobj []))))
  let s := getProp resumeJson "summary"
  let base := objSet base "summary" (if isObjLike s then .vobj (spreadIntoObj s) else s)
  let base := objSet base "skills"
    (match getProp resumeJson "skills" with
     | .varr xs => .varr xs
     | _ => .varr [])
  let base := objSet base "experience" (.varr (cloneJobs (getProp resumeJson "experience")))
  let base := objSet base "projects" (.varr (cloneJobs (getProp resumeJson "projects")))
  let base := objSet base "education" (.varr (cloneFlat (getProp resumeJson "education")))
  let base := objSet base "certificates" (.varr (cloneFlat (getProp resumeJson "certificates")))
  .vobj base

/-- `(entry?.id || '')`, the lookup expression used by the merge engine. -/
def skillIdExpr (entry : JSValue) : JSValue :=
  jsOr (getProp entry "id") (.vstr "")

/-- The final skills filter (App.jsx line 405):
`entry && typeof entry === 'object' && Object.keys(entry).length`. -/
def skillKeep (entry : JSValue) : Bool :=
  isObjLike entry && !(objKeys entry).isEmpty

/-- The `experience` / `project` branches of the decision loop (App.jsx
lines 364–402); the two blocks are verbatim-identical up to the section
field (`experience` / `projects`) and index field, so they are embedded
once, parameterized by the section key. -/
def applyPointChange (analysisJson : JSValue) (sectionKey : String)
    (doc : JSValue) (item : ChangeItem) : JSValue :=
  let analysisJob := getProp (getProp analysisJson sectionKey) (toString item.idx)
  if ¬ truthy analysisJob then doc
  else
    let jobs := toArrD (getProp doc sectionKey)
    let synth := JSValue.vobj (objSet (spreadIntoObj analysisJob) "points" (.varr []))
    let jobs := jobs ++ List.replicate (item.idx + 1 - jobs.length) synth
    let job := jobs.getD item.idx .vundef
    let pts := toArrD (getProp job "points")
    let job := setProp job "points" (.varr pts)
    let jobs := jobs.set item.idx job
    let analysisPoints := toArrD (getProp analysisJob "points")
    match analysisPoints.find? (fun p => getPointId p "" = item.pointId) with
    | none => setProp doc sectionKey (.varr jobs)
    | some analysisPoint =>
      let nextPoint := JSValue.vobj
        [("id", .vstr (getPointId analysisPoint item.pointId)),
         ("text", .vstr (getPointText analysisPoint))]
      let newPts :=
        match pts.findIdx? (fun p => getPointId p "" = item.pointId) with
        | some k => pts.set k nextPoint
        | none => pts ++ [nextPoint]
      setProp doc sectionKey (.varr (jobs.set item.idx (setProp job "points" (.varr newPts))))

/-- One iteration of `changeItems.forEach` (App.jsx lines 339–403). -/
def applyChange (analysisJson : JSValue) (changeState : String → Bool)
    (doc : JSValue) (item : ChangeItem) : JSValue :=
  if ¬ changeState item.cid then doc
  else
    match item.ctype with
    | .summary =>
      let s := getProp analysisJson "summary"
      setProp doc "summary"
        (if isObjLike s then .vobj (spreadIntoObj s) else jsOr s (getProp doc "summary"))
    | .skill =>
      let analysisSkill :=
        match getProp analysisJson "skills" with
        | .varr xs => xs.find? (fun e => skillIdExpr e = item.skillId)
        | _ => none
      let curSkills := toArrD (getProp doc "skills")
      let existingIndex := curSkills.findIdx? (fun e => skillIdExpr e = item.skillId)
      match analysisSkill with
      | some sk =>
        if isObjLike sk ∧ (objKeys sk).isEmpty = false then
          match existingIndex with
          | some k => setProp doc "skills" (.varr (curSkills.set k sk))
          | none => setProp doc "skills" (.varr (curSkills ++ [sk]))
        else
          match existingIndex with
          | some k => setProp doc "skills" (.varr (curSkills.eraseIdx k))
          | none => doc
      | none =>
        match existingIndex with
        | some k => setProp doc "skills" (.varr (curSkills.eraseIdx k))
        | none => doc
    | .experience => applyPointChange analysisJson "experience" doc item
    | .project => applyPointChange analysisJson "projects" doc item

/-- `buildUpdatedResumeData(resumeJson, analysisJson, changeItems,
changeState)` (App.jsx line 314). -/
def buildUpdatedResumeData (resumeJson analysisJson : JSValue)
    (changeItems : List ChangeItem) (changeState : String → Bool) : JSValue :=
  if ¬ truthy resumeJson then .vnull
  else
    let updated := cloneResume resumeJson
    if ¬ truthy analysisJson then updated
    else
      let merged := changeItems.foldl (applyChange analysisJson changeState) updated
      setProp merged "skills" (.varr ((toArrD (getProp merged "skills")).filter skillKeep))

/-! ### Document normalizer (backend server file)

`normalizeResumeJson` and helpers coerce arbitrary input into the canonical
resume shape, backfilling ids.  The optional `resume*` fallback arguments
are passed as `vundef` by `normalizeResumeJson` (they are used only by
`normalizeAnalysisJson`, which no claim needs). -/

/-- `String.prototype.trim()`, modelled on the character list (the
built-in `String.trim` is positional and does not reduce in the kernel). -/
def jsTrim (s : String) : String :=
  String.mk (((s.data.dropWhile Char.isWhitespace).reverse.dropWhile
    Char.isWhitespace).reverse)

def basicsTemplate : List (String × JSValue) :=
  [("name", .vstr ""), ("email", .vstr ""), ("phone", .vstr ""),
   ("location", .vstr ""), ("linkedin", .vstr ""), ("github", .vstr ""),
   ("portfolio", .vstr "")]

def experienceTemplate : List (String × JSValue) :=
  [("company", .vstr ""), ("role", .vstr ""), ("location", .vstr ""),
   ("startDate", .vstr ""), ("endDate", .vstr ""), ("isCurrent", .vstr ""),
   ("points", .varr [])]

def projectTemplate : List (String × JSValue) :=
  [("name", .vstr ""), ("technologies", .vstr ""), ("link", .vstr ""),
   ("points", .varr [])]

def educationTemplate : List (String × JSValue) :=
  [("institution", .vstr ""), ("degree", .vstr ""), ("field", .vstr ""),
   ("startDate", .vstr ""), ("endDate", .vstr "")]

def certificateTemplate : List (String × JSValue) :=
  [("name", .vstr ""), ("issuer", .vstr ""), ("year", .vstr "")]

def emptyResumeJson : JSValue :=
  .vobj [("basics", .vobj basicsTemplate),
         ("summary", .vobj [("id", .vstr "summary-1"), ("text", .vstr "")]),
         ("skills", .varr []), ("experience", .varr []), ("projects", .varr []),
         ("education", .varr []), ("certificates", .varr [])]

/-- `normalizeSummaryValue(summary, fallbackId = 'summary-1')`. -/
def normalizeSummaryValue (summary : JSValue) (fallbackId : String) : JSValue :=
  if isObjLike summary then
    .vobj [("id", .vstr
        (match getProp summary "id" with
         | .vstr s => if jsTrim s ≠ "" then jsTrim s else fallbackId
         | _ => fallbackId)),
      ("text", .vstr (strOrEmpty (getProp summary "text")))]
  else
    match summary with
    | .vstr s => .vobj [("id", .vstr fallbackId), ("text", .vstr s)]
    | _ => .vobj [("id", .vstr fallbackId), ("text", .vstr "")]

/-- `normalizeSkillEntry(entry, index, fallbackId)`; returns `none` for the
source's `null`. -/
def normalizeSkillEntry (entry : JSValue) (index : Nat) (fallbackId : String) :
    Option JSValue :=
  if ¬ isObjLike entry then none
  else
    let normalized := spreadIntoObj entry
    let idValue :=
      match getProp (.vobj normalized) "id" with
      | .vstr s =>
        if jsTrim s ≠ "" then jsTrim s
        else if fallbackId ≠ "" then fallbackId
        else "skill-" ++ toString (index + 1)
      | _ =>
        if fallbackId ≠ "" then fallbackId
        else "skill-" ++ toString (index + 1)
    some (.vobj (objSet normalized "id" (.vstr idValue)))

/-- `normalizeSkillsList(skills, resumeSkills)`: the `for` loop with
`continue`-and-conditional-push is a `filterMap` over the index range. -/
def normalizeSkillsList (skills resumeSkills : JSValue) : List JSValue :=
  let list := toArrD skills
  let fallback := toArrD resumeSkills
  (List.range (max list.length fallback.length)).filterMap (fun i =>
    let entry := list.getD i .vundef
    let fallbackEntry := fallback.getD i .vundef
    if ¬ truthy entry ∧ ¬ truthy fallbackEntry then none
    else
      let fallbackId :=
        if isObjLike fallbackEntry ∧ isStrB (getProp fallbackEntry "id") then
          strOrEmpty (getProp fallbackEntry "id")
        else "skill-" ++ toString (i + 1)
      normalizeSkillEntry (jsOr entry fallbackEntry) i fallbackId)

/-- The value of `point && typeof point === 'object' && typeof point.id ===
'string' && point.id.trim()` as a string (`""` means falsy). -/
def pointTrimmedId (point : JSValue) : String :=
  if isObjLike point then
    match getProp point "id" with
    | .vstr s => jsTrim s
    | _ => ""
  else ""

/-- `normalizePointsList(points, resumePoints, prefix)`. -/
def normalizePointsList (points resumePoints : JSValue) (pref : String) :
    List JSValue :=
  let list := toArrD points
  let fallback := toArrD resumePoints
  (List.range (max list.length fallback.length)).filterMap (fun i =>
    let point := list.getD i .vundef
    let fallbackPoint := fallback.getD i .vundef
    if ¬ truthy point ∧ ¬ truthy fallbackPoint then none
    else
      let idValue :=
        if pointTrimmedId point ≠ "" then pointTrimmedId point
        else if pointTrimmedId fallbackPoint ≠ "" then pointTrimmedId fallbackPoint
        else pref ++ "-" ++ toString (i + 1)
      some (.vobj [("id", .vstr idValue),
                   ("text", .vstr (getPointText (jsOr point fallbackPoint)))]))

/-- `x && typeof x === 'object' ? x : {}`. -/
def objGuard (v : JSValue) : JSValue := if isObjLike v then v else .vobj []

/-- `normalizeArrayObjects(list, template, fallbackList)`. -/
def normalizeArrayObjects (list : JSValue) (template : List (String × JSValue))
    (fallbackList : JSValue) : List JSValue :=
  let items := toArrD list
  let fallback := toArrD fallbackList
  (List.range (max items.length fallback.length)).filterMap (fun i =>
    let item := items.getD i .vundef
    let fallbackItem := fallback.getD i .vundef
    if ¬ truthy item ∧ ¬ truthy fallbackItem then none
    else some (.vobj (mergeSpread (mergeSpread template (objGuard fallbackItem))
      (objGuard item))))

/-- `normalizeExperienceList(list, resumeList)`. -/
def normalizeExperienceList (list resumeList : JSValue) : List JSValue :=
  let items := toArrD list
  let fallback := toArrD resumeList
  (List.range (max items.length fallback.length)).filterMap (fun i =>
    let item := items.getD i .vundef
    let fallbackItem := fallback.getD i .vundef
    if ¬ truthy item ∧ ¬ truthy fallbackItem then none
    else some (.vobj (objSet
      (mergeSpread (mergeSpread experienceTemplate (objGuard fallbackItem))
        (objGuard item))
      "points"
      (.varr (normalizePointsList (getProp item "points")
        (getProp fallbackItem "points") ("exp-" ++ toString (i + 1)))))))

/-- `normalizeProjectList(list, resumeList)`. -/
def normalizeProjectList (list resumeList : JSValue) : List JSValue :=
  let items := toArrD list
  let fallback := toArrD resumeList
  (List.range (max items.length fallback.length)).filterMap (fun i =>
    let item := items.getD i .vundef
    let fallbackItem := fallback.getD i .vundef
    if ¬ truthy item ∧ ¬ truthy fallbackItem then none
    else some (.vobj (objSet
      (mergeSpread (mergeSpread projectTemplate (objGuard fallbackItem))
        (objGuard item))
      "points"
      (.varr (normalizePointsList (getProp item "points")
        (getProp fallbackItem "points") ("proj-" ++ toString (i + 1)))))))

/-- `normalizeResumeJson(input)`: merge over the empty template; the seven
field assignments keep the template's key order. -/
def normalizeResumeJson (input : JSValue) : JSValue :=
  if isObjLike input then
    .vobj
      [("basics", .vobj (mergeSpread basicsTemplate
          (jsOr (getProp input "basics") (.vobj [])))),
       ("summary", normalizeSummaryValue (getProp input "summary") "summary-1"),
       ("skills", .varr (normalizeSkillsList (getProp input "skills") .vundef)),
       ("experience", .varr (normalizeExperienceList (getProp input "experience") .vundef)),
       ("projects", .varr (normalizeProjectList (getProp input "projects") .vundef)),
       ("education", .varr (normalizeArrayObjects (getProp input "education")
          educationTemplate .vundef)),
       ("certificates", .varr (normalizeArrayObjects (getProp input "certificates")
          certificateTemplate .vundef))]
  else emptyResumeJson

/-! ### The `resumeSchema` JSON schema (backend server file), as a checker -/

/-- A flat object sub-schema: `type: 'object'`, `additionalProperties:
false`, all the given properties required and of `type: 'string'`. -/
def schemaFlatObject (v : JSValue) (req : List String) : Bool :=
  match v with
  | .vobj kvs =>
    req.all (fun k => (kvs.map Prod.fst).contains k) &&
    kvs.all (fun kv => req.contains kv.1 && isStrB kv.2)
  | _ => false

/-- Skill entry sub-schema: `properties: { id: string }`,
`additionalProperties: { type: 'string' }` — every value is a string. -/
def schemaSkillEntry (v : JSValue) : Bool :=
  match v with
  | .vobj kvs => kvs.all (fun kv => isStrB kv.2)
  | _ => false

def schemaPointKeys : List String := ["id", "text"]

def schemaExperienceKeys : List String :=
  ["company", "role", "location", "startDate", "endDate", "isCurrent", "points"]

def schemaProjectKeys : List String := ["name", "technologies", "link", "points"]

/-- An experience / project item: required scalar string fields plus a
`points` array of `{id, text}` objects. -/
def schemaSectionItem (v : JSValue) (req : List String) : Bool :=
  match v with
  | .vobj kvs =>
    req.all (fun k => (kvs.map Prod.fst).contains k) &&
    kvs.all (fun kv =>
      req.contains kv.1 &&
      (if kv.1 = "points" then
        match kv.2 with
        | .varr pts => pts.all (fun p => schemaFlatObject p schemaPointKeys)
        | _ => false
      else isStrB kv.2))
  | _ => false

def schemaTopKeys : List String :=
  ["basics", "summary", "skills", "experience", "projects", "education",
   "certificates"]

def schemaBasicsKeys : List String :=
  ["name", "email", "phone", "location", "linkedin", "github", "portfolio"]

def schemaEducationKeys : List String :=
  ["institution", "degree", "field", "startDate", "endDate"]

def schemaCertificateKeys : List String := ["name", "issuer", "year"]

/-- The whole `resumeSchema`, as a decidable checker. -/
def resumeSchemaAccepts (v : JSValue) : Bool :=
  match v with
  | .vobj kvs =>
    schemaTopKeys.all (fun k => (kvs.map Prod.fst).contains k) &&
    kvs.all (fun kv =>
      schemaTopKeys.contains kv.1 &&
      (if kv.1 = "basics" then schemaFlatObject kv.2 schemaBasicsKeys
       else if kv.1 = "summary" then schemaFlatObject kv.2 schemaPointKeys
       else if kv.1 = "skills" then
         match kv.2 with
         | .varr xs => xs.all schemaSkillEntry
         | _ => false
       else if kv.1 = "experience" then
         match kv.2 with
         | .varr xs => xs.all (fun e => schemaSectionItem e schemaExperienceKeys)
         | _ => false
       else if kv.1 = "projects" then
         match kv.2 with
         | .varr xs => xs.all (fun e => schemaSectionItem e schemaProjectKeys)
         | _ => false
       else if kv.1 = "education" then
         match kv.2 with
         | .varr xs => xs.all (fun e => schemaFlatObject e schemaEducationKeys)
         | _ => false
       else
         match kv.2 with
         | .varr xs => xs.all (fun e => schemaFlatObject e schemaCertificateKeys)
         | _ => false))
  | _ => false

/-! ### Structural shape actually guaranteed by the normalizer -/

/-- A normalized point: exactly `{ id, text }` with string values. -/
def shapedPoint (p : JSValue) : Bool :=
  match p with
  | .vobj [("id", .vstr _), ("text", .vstr _)] => true
  | _ => false

/-- A normalized skill entry: an object carrying a non-empty string `id`. -/
def shapedSkillEntry (e : JSValue) : Bool :=
  match e with
  | .vobj _ =>
    match getProp e "id" with
    | .vstr s => s ≠ ""
    | _ => false
  | _ => false

/-- An object whose keys include the given template keys. -/
def shapedFlat (v : JSValue) (req : List String) : Bool :=
  match v with
  | .vobj kvs => req.all (fun k => (kvs.map Prod.fst).contains k)
  | _ => false

/-- A normalized job / project: template keys present and `points` an array
of normalized points. -/
def shapedSection (v : JSValue) (req : List String) : Bool :=
  shapedFlat v req &&
  (match getProp v "points" with
   | .varr pts => pts.all shapedPoint
   | _ => false)

/-- The structural guarantee the normalizer actually provides: the seven
top-level fields in canonical order; `basics` an object containing the
template keys; `summary` exactly `{ id, text }` with a non-empty string
id; `skills` an array of objects with non-empty string ids; `experience` /
`projects` arrays of objects with template keys and normalized point
lists; `education` / `certificates` arrays of objects with template keys.
Scalar leaf values inherited from the input may have arbitrary types. -/
def structurallyShaped (d : JSValue) : Bool :=
  match d with
  | .vobj kvs =>
    (kvs.map Prod.fst = schemaTopKeys : Bool) &&
    shapedFlat (getProp d "basics") schemaBasicsKeys &&
    (match getProp d "summary" with
     | .vobj [("id", .vstr s), ("text", .vstr _)] => s ≠ ""
     | _ => false) &&
    (match getProp d "skills" with
     | .varr xs => xs.all shapedSkillEntry
     | _ => false) &&
    (match getProp d "experience" with
     | .varr xs => xs.all (fun j => shapedSection j schemaExperienceKeys)
     | _ => false) &&
    (match getProp d "projects" with
     | .varr xs => xs.all (fun j => shapedSection j schemaProjectKeys)
     | _ => false) &&
    (match getProp d "education" with
     | .varr xs => xs.all (fun e => shapedFlat e schemaEducationKeys)
     | _ => false) &&
    (match getProp d "certificates" with
     | .varr xs => xs.all (fun e => shapedFlat e schemaCertificateKeys)
     | _ => false)
  | _ => false

/-- A value carrying a non-empty string `id` property. -/
def nonEmptyStrId (p : JSValue) : Prop :=
  ∃ s, getProp p "id" = .vstr s ∧ s ≠ ""

/-! ### Candidate lookups and section projections used by the merge engine -/

/-- `Array.isArray(analysisJson.skills) ? analysisJson.skills.find((entry) =>
(entry?.id || '') === item.skillId) : null` (App.jsx lines 350–352). -/
def analysisSkillAt (analysisJson skillId : JSValue) : Option JSValue :=
  match getProp analysisJson "skills" with
  | .varr xs => xs.find? (fun v => skillIdExpr v = skillId)
  | _ => none

/-- `analysisPoints.find((point) => getPointId(point, '') === item.pointId)`
over the candidate job at a section index (App.jsx lines 368–374). -/
def analysisPointAt (analysisJson : JSValue) (sectionKey : String) (jobIndex : Nat)
    (pointId : String) : Option JSValue :=
  (toArrD (getProp (getProp (getProp analysisJson sectionKey) (toString jobIndex))
    "points")).find? (fun p => getPointId p "" = pointId)

/-- The job slot the merge engine reads at a section index, and its point
list (observables for stating merge results). -/
def sectionJob (doc : JSValue) (sectionKey : String) (jobIndex : Nat) : JSValue :=
  (toArrD (getProp doc sectionKey)).getD jobIndex .vundef

def sectionPoints (doc : JSValue) (sectionKey : String) (jobIndex : Nat) : List JSValue :=
  toArrD (getProp (sectionJob doc sectionKey jobIndex) "points")

/-- `nextPoint = { id: getPointId(analysisPoint, item.pointId), text:
getPointText(analysisPoint) }` (App.jsx line 376). -/
def nextPointOf (analysisPoint : JSValue) (pointId : String) : JSValue :=
  .vobj [("id", .vstr (getPointId analysisPoint pointId)),
    ("text", .vstr (getPointText analysisPoint))]

/-! ### Diff engine lemmas -/

theorem dp_succ_succ (bs as : List String) (i j : Nat) :
    dp bs as (i + 1) (j + 1) =
      if bs.getD i "" = as.getD j "" then dp bs as i j + 1
      else max (dp bs as i (j + 1)) (dp bs as (i + 1) j) := rfl

theorem backtrack_succ_succ (bs as : List String) (i j : Nat) :
    backtrack bs as (i + 1) (j + 1) =
      if bs.getD i "" = as.getD j "" then
        backtrack bs as i j ++ [⟨DiffTag.equal, bs.getD i ""⟩]
      else if dp bs as i (j + 1) ≥ dp bs as (i + 1) j then
        backtrack bs as i (j + 1) ++ [⟨DiffTag.remove, bs.getD i ""⟩]
      else
        backtrack bs as (i + 1) j ++ [⟨DiffTag.add, as.getD j ""⟩] := rfl

theorem equalCount_append (l r : List DiffOp) :
    equalCount (l ++ r) = equalCount l + equalCount r := by
  simp [equalCount, List.filter_append]

theorem equalCount_single_ne (op : DiffOp) (h : op.tag ≠ DiffTag.equal) :
    equalCount [op] = 0 := by
  simp [equalCount, List.filter, h]

theorem equalTokens_append (l r : List DiffOp) :
    equalTokens (l ++ r) = equalTokens l ++ equalTokens r := by
  simp [equalTokens, List.filter_append]

theorem btZero_equalCount (as : List String) (j : Nat) :
    equalCount (btZero as j) = 0 := by
  induction j with
  | zero => rfl
  | succ j ih =>
    simp [btZero, equalCount_append, ih, equalCount_single_ne]

theorem btZero_equalTokens (as : List String) (j : Nat) :
    equalTokens (btZero as j) = [] := by
  induction j with
  | zero => rfl
  | succ j ih =>
    show equalTokens (btZero as j ++ [⟨DiffTag.add, as.getD j ""⟩]) = []
    rw [equalTokens_append, ih]
    rfl

theorem dp_zero_right (bs as : List String) (i : Nat) : dp bs as i 0 = 0 := by
  cases i <;> rfl

/-- The number of `equal` operations emitted by the backtracking pass is
exactly the DP table entry. -/
theorem equalCount_backtrack (bs as : List String) :
    ∀ i j, equalCount (backtrack bs as i j) = dp bs as i j := by
  intro i
  induction i with
  | zero => intro j; simpa [backtrack] using btZero_equalCount as j
  | succ i ih =>
    intro j
    induction j with
    | zero =>
      show equalCount (backtrack bs as i 0 ++ [⟨DiffTag.remove, bs.getD i ""⟩]) = _
      rw [equalCount_append, ih 0, equalCount_single_ne _ (by simp),
        dp_zero_right, dp_zero_right]
    | succ j ihj =>
      rw [backtrack_succ_succ, dp_succ_succ]
      by_cases heq : bs.getD i "" = as.getD j ""
      · rw [if_pos heq, if_pos heq, equalCount_append, ih j,
          show equalCount [(⟨DiffTag.equal, bs.getD i ""⟩ : DiffOp)] = 1 from rfl]
      · rw [if_neg heq, if_neg heq]
        by_cases hge : dp bs as i (j + 1) ≥ dp bs as (i + 1) j
        · rw [if_pos hge, equalCount_append, ih (j + 1),
            equalCount_single_ne _ (by simp), Nat.max_eq_left hge, Nat.add_zero]
        · rw [if_neg hge, equalCount_append, ihj,
            equalCount_single_ne _ (by simp),
            Nat.max_eq_right (Nat.le_of_lt (Nat.lt_of_not_le hge)), Nat.add_zero]

theorem take_succ_of_lt {α : Type} (l : List α) (i : Nat) (h : i < l.length) (d : α) :
    l.take (i + 1) = l.take i ++ [l.getD i d] := by
  rw [List.take_succ, List.getElem?_eq_getElem h]
  simp [List.getD_eq_getElem?_getD, List.getElem?_eq_getElem h]

/-- The `equal` tokens of the backtracking output form a common subsequence
of the two take-prefixes. -/
theorem equalTokens_sublist (bs as : List String) :
    ∀ i j, i ≤ bs.length → j ≤ as.length →
      equalTokens (backtrack bs as i j) <+ bs.take i ∧
      equalTokens (backtrack bs as i j) <+ as.take j := by
  intro i
  induction i with
  | zero =>
    intro j _ _
    constructor <;> simp [backtrack, btZero_equalTokens]
  | succ i ih =>
    intro j hi hj
    induction j with
    | zero =>
      have hunf : backtrack bs as (i + 1) 0 =
          backtrack bs as i 0 ++ [⟨DiffTag.remove, bs.getD i ""⟩] := rfl
      have h0 := ih 0 (Nat.le_of_succ_le hi) (Nat.zero_le _)
      have hnil : equalTokens [(⟨DiffTag.remove, bs.getD i ""⟩ : DiffOp)] = [] := rfl
      rw [hunf, equalTokens_append, hnil, List.append_nil]
      refine ⟨h0.1.trans ?_, h0.2⟩
      rw [take_succ_of_lt bs i hi ""]
      exact List.sublist_append_left _ _
    | succ j ihj =>
      have hi' : i ≤ bs.length := Nat.le_of_succ_le hi
      have hj' : j ≤ as.length := Nat.le_of_succ_le hj
      have hbs : bs.take (i + 1) = bs.take i ++ [bs.getD i ""] := take_succ_of_lt bs i hi ""
      have has : as.take (j + 1) = as.take j ++ [as.getD j ""] := take_succ_of_lt as j hj ""
      rw [backtrack_succ_succ]
      by_cases heq : bs.getD i "" = as.getD j ""
      · rw [if_pos heq, equalTokens_append]
        have h0 := ih j hi' hj'
        have hone : equalTokens [(⟨DiffTag.equal, bs.getD i ""⟩ : DiffOp)] = [bs.getD i ""] := rfl
        constructor
        · rw [hone, hbs]; exact h0.1.append (List.Sublist.refl _)
        · rw [hone, has, heq]; exact h0.2.append (List.Sublist.refl _)
      · rw [if_neg heq]
        by_cases hge : dp bs as i (j + 1) ≥ dp bs as (i + 1) j
        · rw [if_pos hge, equalTokens_append]
          have h0 := ih (j + 1) hi' hj
          have hnil : equalTokens [(⟨DiffTag.remove, bs.getD i ""⟩ : DiffOp)] = [] := rfl
          rw [hnil, List.append_nil]
          exact ⟨h0.1.trans (by rw [hbs]; exact List.sublist_append_left _ _), h0.2⟩
        · rw [if_neg hge, equalTokens_append]
          have h0 := ihj hj'
          have hnil : equalTokens [(⟨DiffTag.add, as.getD j ""⟩ : DiffOp)] = [] := rfl
          rw [hnil, List.append_nil]
          exact ⟨h0.1, h0.2.trans (by rw [has]; exact List.sublist_append_left _ _)⟩

theorem sublist_singleton_cases {α : Type} {l : List α} {x : α} (h : l <+ [x]) :
    l = [] ∨ l = [x] := by
  rcases List.sublist_cons_iff.1 h with h' | ⟨r, hr, hr'⟩
  · left; exact List.eq_nil_of_sublist_nil h'
  · right; rw [hr, List.eq_nil_of_sublist_nil hr']

/-- Decompose a sublist of `u ++ [x]`. -/
theorem sublist_concat_cases {α : Type} {l u : List α} {x : α} (h : l <+ u ++ [x]) :
    l <+ u ∨ ∃ l', l = l' ++ [x] ∧ l' <+ u := by
  rcases List.sublist_append_iff.1 h with ⟨l₁, l₂, rfl, h₁, h₂⟩
  rcases sublist_singleton_cases h₂ with rfl | rfl
  · left; simpa using h₁
  · right; exact ⟨l₁, rfl, h₁⟩

/-- The DP table dominates the length of every common subsequence of the
corresponding prefixes. -/
theorem dp_upper_bound (bs as : List String) :
    ∀ i j, i ≤ bs.length → j ≤ as.length →
      ∀ l : List String, l <+ bs.take i → l <+ as.take j → l.length ≤ dp bs as i j := by
  intro i
  induction i with
  | zero =>
    intro j _ _ l hl _
    simp only [List.take_zero, List.sublist_nil] at hl
    simp [hl, dp]
  | succ i ih =>
    intro j hi hj
    induction j with
    | zero =>
      intro l _ hl
      simp only [List.take_zero, List.sublist_nil] at hl
      simp [hl]
    | succ j ihj =>
      intro l hlb hla
      have hi' : i ≤ bs.length := Nat.le_of_succ_le hi
      have hj' : j ≤ as.length := Nat.le_of_succ_le hj
      have hbs : bs.take (i + 1) = bs.take i ++ [bs.getD i ""] := take_succ_of_lt bs i hi ""
      have has : as.take (j + 1) = as.take j ++ [as.getD j ""] := take_succ_of_lt as j hj ""
      rw [hbs] at hlb
      rw [dp_succ_succ]
      by_cases heq : bs.getD i "" = as.getD j ""
      · rw [if_pos heq]
        rcases sublist_concat_cases hlb with hl | ⟨l', rfl, hl'⟩
        · -- `l` avoids the last token of the `before` prefix
          rw [has] at hla
          rcases sublist_concat_cases hla with hla' | ⟨m, rfl, hm⟩
          · exact Nat.le_succ_of_le (ih j hi' hj' l hl hla')
          · -- `l = m ++ [y]`, and `m <+ l <+ take i bs`
            have hmb : m <+ bs.take i :=
              (List.sublist_append_left m [as.getD j ""]).trans hl
            have := ih j hi' hj' m hmb hm
            simpa using Nat.succ_le_succ this
        · -- `l = l' ++ [x]`
          rw [has] at hla
          rcases sublist_concat_cases hla with hla' | ⟨m, hml, hm⟩
          · have hl'a : l' <+ as.take j :=
              (List.sublist_append_left l' [bs.getD i ""]).trans hla'
            have := ih j hi' hj' l' hl' hl'a
            simpa using Nat.succ_le_succ this
          · -- both end in the (equal) last tokens: strip them
            have hxy : l' = m := by
              have := List.append_inj_left' hml.symm (by simp)
              exact this.symm
            subst hxy
            have := ih j hi' hj' l' hl' hm
            simpa using Nat.succ_le_succ this
      · rw [if_neg heq]
        rcases sublist_concat_cases hlb with hl | ⟨l', rfl, hl'⟩
        · -- common subsequence of `take i bs` and `take (j+1) as`
          exact Nat.le_trans (ih (j + 1) hi' hj l hl hla) (Nat.le_max_left _ _)
        · -- `l` ends with `x`; it cannot also end with `y`, so it avoids `y`
          rw [has] at hla
          rcases sublist_concat_cases hla with hla' | ⟨m, hml, hm⟩
          · have hb' : l' ++ [bs.getD i ""] <+ bs.take (i + 1) := by rw [hbs]; exact hlb
            exact Nat.le_trans (ihj hj' _ hb' hla') (Nat.le_max_right _ _)
          · exfalso
            have : bs.getD i "" = as.getD j "" := by
              have h1 : (l' ++ [bs.getD i ""]).getLast? = some (bs.getD i "") := by
                simp
              have h2 : (m ++ [as.getD j ""]).getLast? = some (as.getD j "") := by
                simp
              rw [hml] at h1
              rw [h1] at h2
              exact Option.some.inj h2
            exact heq this

theorem length_equalTokens (ops : List DiffOp) :
    (equalTokens ops).length = equalCount ops := by
  simp [equalTokens, equalCount]

/-- Self-diff at equal index produces only `equal` operations. -/
theorem backtrack_self_all_equal (bs : List String) :
    ∀ i, ∀ op ∈ backtrack bs bs i i, op.tag = DiffTag.equal := by
  intro i
  induction i with
  | zero => intro op h; simp [backtrack, btZero] at h
  | succ i ih =>
    intro op h
    rw [backtrack_succ_succ, if_pos rfl] at h
    rcases List.mem_append.1 h with h' | h'
    · exact ih op h'
    · simp at h'; rw [h']

/-- C1.  For every pair of input strings, the number of `equal`-tagged
operations produced by `diffWords` equals the length of a longest common
subsequence of the two whitespace-split token sequences (stated as: the
count is achieved by a common subsequence and bounds every common
subsequence), and `diffWords(A, A)` produces only `equal`-tagged tokens. -/
theorem diffWords_equal_count_is_lcs (A B : String) :
    (∃ l : List String, l <+ tokenize A ∧ l <+ tokenize B ∧
      l.length = equalCount (diffWords A B)) ∧
    (∀ l : List String, l <+ tokenize A → l <+ tokenize B →
      l.length ≤ equalCount (diffWords A B)) ∧
    (∀ op ∈ diffWords A A, op.tag = DiffTag.equal) := by
  set bs := tokenize A with hbs
  set as := tokenize B with has
  have htakeb : bs.take bs.length = bs := List.take_length bs
  have htakea : as.take as.length = as := List.take_length as
  refine ⟨?_, ?_, ?_⟩
  · refine ⟨equalTokens (diffWords A B), ?_, ?_, ?_⟩
    · have := (equalTokens_sublist bs as bs.length as.length le_rfl le_rfl).1
      rw [htakeb] at this
      exact this
    · have := (equalTokens_sublist bs as bs.length as.length le_rfl le_rfl).2
      rw [htakea] at this
      exact this
    · exact length_equalTokens _
  · intro l hl₁ hl₂
    have := dp_upper_bound bs as bs.length as.length le_rfl le_rfl l
      (by rw [htakeb]; exact hl₁) (by rw [htakea]; exact hl₂)
    rw [show equalCount (diffWords A B) = dp bs as bs.length as.length from
      equalCount_backtrack bs as bs.length as.length]
    exact this
  · intro op h
    exact backtrack_self_all_equal bs bs.length op h

/-- C5.  In the LCS backtracking, when the vertical and horizontal DP moves
yield equal LCS length at a (mismatching) cell, the current before-token is
emitted as `remove` rather than emitting the after-token as `add`. -/
theorem backtrack_tie_break_removes (bs as : List String) (i j : Nat)
    (hne : bs.getD i "" ≠ as.getD j "")
    (htie : dp bs as i (j + 1) = dp bs as (i + 1) j) :
    backtrack bs as (i + 1) (j + 1) =
      backtrack bs as i (j + 1) ++ [⟨DiffTag.remove, bs.getD i ""⟩] := by
  rw [backtrack_succ_succ, if_neg hne, if_pos (ge_of_eq htie)]

/-- Witness for C5 at a concrete tie: diffing token `"x"` against `"y"`. -/
theorem backtrack_tie_break_removes_witness :
    (["x"].getD 0 "" ≠ ["y"].getD 0 "") ∧
    dp ["x"] ["y"] 0 1 = dp ["x"] ["y"] 1 0 ∧
    backtrack ["x"] ["y"] 1 1 =
      backtrack ["x"] ["y"] 0 1 ++ [⟨DiffTag.remove, ["x"].getD 0 ""⟩] :=
  ⟨by decide, by decide,
    backtrack_tie_break_removes ["x"] ["y"] 0 0 (by decide) (by decide)⟩

/-! ### Object model lemmas -/

theorem find?_objSet_self (kvs : List (String × JSValue)) (k : String) (v : JSValue) :
    (objSet kvs k v).find? (fun kv => kv.1 = k) = some (k, v) := by
  induction kvs with
  | nil => simp [objSet, List.find?]
  | cons kv rest ih =>
    rcases kv with ⟨k0, v0⟩
    by_cases h : k0 = k
    · simp [objSet, h, List.find?]
    · simp only [objSet, if_neg h]
      rw [List.find?_cons_of_neg _ (by simp [h])]
      exact ih

theorem find?_objSet_ne (kvs : List (String × JSValue)) (k k' : String) (v : JSValue)
    (h : k' ≠ k) :
    (objSet kvs k v).find? (fun kv => kv.1 = k') = kvs.find? (fun kv => kv.1 = k') := by
  induction kvs with
  | nil =>
    simp only [objSet]
    rw [List.find?_cons_of_neg _ (by simp [Ne.symm h])]
  | cons kv rest ih =>
    rcases kv with ⟨k0, v0⟩
    by_cases hk : k0 = k
    · simp only [objSet, if_pos hk]
      rw [List.find?_cons_of_neg _ (by simp [Ne.symm h]),
        List.find?_cons_of_neg _ (by simp [hk, Ne.symm h])]
    · simp only [objSet, if_neg hk]
      by_cases hk' : k0 = k'
      · rw [List.find?_cons_of_pos _ (by simp [hk']),
          List.find?_cons_of_pos _ (by simp [hk'])]
      · rw [List.find?_cons_of_neg _ (by simp [hk']),
          List.find?_cons_of_neg _ (by simp [hk'])]
        exact ih

theorem getProp_vobj (kvs : List (String × JSValue)) (k : String) :
    getProp (.vobj kvs) k =
      match kvs.find? (fun kv => kv.1 = k) with
      | some kv => kv.2
      | none => .vundef := rfl

theorem getProp_objSet_self (kvs : List (String × JSValue)) (k : String) (v : JSValue) :
    getProp (.vobj (objSet kvs k v)) k = v := by
  rw [getProp_vobj, find?_objSet_self]

theorem getProp_objSet_ne (kvs : List (String × JSValue)) (k k' : String) (v : JSValue)
    (h : k' ≠ k) :
    getProp (.vobj (objSet kvs k v)) k' = getProp (.vobj kvs) k' := by
  rw [getProp_vobj, getProp_vobj, find?_objSet_ne kvs k k' v h]

theorem setProp_vobj (kvs : List (String × JSValue)) (k : String) (x : JSValue) :
    setProp (.vobj kvs) k x = .vobj (objSet kvs k x) := rfl

theorem getProp_setProp_ne (d : JSValue) (k k' : String) (x : JSValue) (h : k' ≠ k) :
    getProp (setProp d k x) k' = getProp d k' := by
  cases d <;> first
    | rfl
    | exact getProp_objSet_ne _ k k' x h

theorem objSet_cons_pos (k0 : String) (v0 : JSValue) (rest : List (String × JSValue))
    (k : String) (v : JSValue) (hk : k0 = k) :
    objSet ((k0, v0) :: rest) k v = (k, v) :: rest := by
  simp [objSet, hk]

theorem objSet_cons_neg (k0 : String) (v0 : JSValue) (rest : List (String × JSValue))
    (k : String) (v : JSValue) (hk : ¬ k0 = k) :
    objSet ((k0, v0) :: rest) k v = (k0, v0) :: objSet rest k v := by
  simp [objSet, hk]

theorem mem_map_fst_objSet (kvs : List (String × JSValue)) (k k' : String) (v : JSValue)
    (h : k' ∈ kvs.map Prod.fst) : k' ∈ (objSet kvs k v).map Prod.fst := by
  induction kvs with
  | nil => simp at h
  | cons kv rest ih =>
    rcases kv with ⟨k0, v0⟩
    rw [List.map_cons] at h
    rcases List.mem_cons.1 h with h' | h'
    · by_cases hk : k0 = k
      · rw [objSet_cons_pos k0 v0 rest k v hk, List.map_cons]
        exact List.mem_cons.2 (Or.inl (h'.trans hk))
      · rw [objSet_cons_neg k0 v0 rest k v hk, List.map_cons]
        exact List.mem_cons.2 (Or.inl h')
    · by_cases hk : k0 = k
      · rw [objSet_cons_pos k0 v0 rest k v hk, List.map_cons]
        exact List.mem_cons.2 (Or.inr h')
      · rw [objSet_cons_neg k0 v0 rest k v hk, List.map_cons]
        exact List.mem_cons.2 (Or.inr (ih h'))

theorem mem_map_fst_objSet_self (kvs : List (String × JSValue)) (k : String) (v : JSValue) :
    k ∈ (objSet kvs k v).map Prod.fst := by
  induction kvs with
  | nil => simp [objSet]
  | cons kv rest ih =>
    rcases kv with ⟨k0, v0⟩
    by_cases hk : k0 = k
    · simp [objSet, hk]
    · simp only [objSet, if_neg hk, List.map_cons, List.mem_cons]
      exact Or.inr ih

theorem mem_map_fst_mergeSpread (base : List (String × JSValue)) (v : JSValue)
    (k : String) (h : k ∈ base.map Prod.fst) : k ∈ (mergeSpread base v).map Prod.fst := by
  rw [mergeSpread]
  generalize rawPairs v = ps
  induction ps generalizing base with
  | nil => simpa using h
  | cons p rest ih =>
    simp only [List.foldl_cons]
    exact ih _ (mem_map_fst_objSet _ _ _ _ h)

/-! ### C6: absent documents -/

/-- C6.  If either document argument is absent (falsy), `buildChangeItems`
returns the empty sequence; if the candidate is absent (and the original
present), the merge engine returns the deep working copy of the original,
untouched by any change item. -/
theorem absent_documents_degrade :
    (∀ r a : JSValue, truthy r = false ∨ truthy a = false →
      buildChangeItems r a = []) ∧
    (∀ (r a : JSValue) (items : List ChangeItem) (st : String → Bool),
      truthy r = true → truthy a = false →
      buildUpdatedResumeData r a items st = cloneResume r) := by
  constructor
  · intro r a h
    have hc : ¬ truthy r ∨ ¬ truthy a := by
      rcases h with h | h
      · exact Or.inl (by simp [h])
      · exact Or.inr (by simp [h])
    rw [buildChangeItems, if_pos hc]
  · intro r a items st hr ha
    rw [buildUpdatedResumeData, if_neg (by simp [hr]), if_pos (by simp [ha])]

/-- Witness for C6 at concrete inputs. -/
theorem absent_documents_degrade_witness :
    buildChangeItems .vnull (.vobj []) = [] ∧
    buildUpdatedResumeData (.vobj [("summary", .vstr "s")]) .vnull [] (fun _ => false) =
      cloneResume (.vobj [("summary", .vstr "s")]) :=
  ⟨absent_documents_degrade.1 .vnull (.vobj []) (Or.inl rfl),
   absent_documents_degrade.2 (.vobj [("summary", .vstr "s")]) .vnull [] (fun _ => false)
     rfl rfl⟩

/-! ### C7: skills filtering after merge -/

theorem cloneResume_vobj (r : JSValue) : ∃ kvs, cloneResume r = .vobj kvs :=
  ⟨_, rfl⟩

theorem applyPointChange_vobj (a : JSValue) (sk : String)
    (kvs : List (String × JSValue)) (it : ChangeItem) :
    ∃ kvs', applyPointChange a sk (.vobj kvs) it = .vobj kvs' := by
  rw [applyPointChange]
  split
  · exact ⟨kvs, rfl⟩
  · dsimp only
    split
    · exact ⟨_, rfl⟩
    · exact ⟨_, rfl⟩

theorem applyChange_vobj (a : JSValue) (st : String → Bool)
    (kvs : List (String × JSValue)) (it : ChangeItem) :
    ∃ kvs', applyChange a st (.vobj kvs) it = .vobj kvs' := by
  by_cases hst : ¬ st it.cid
  · rw [applyChange, if_pos hst]
    exact ⟨kvs, rfl⟩
  · rw [applyChange, if_neg hst]
    cases hct : it.ctype
    · exact ⟨_, rfl⟩
    · dsimp only
      split
      · split
        · split
          · exact ⟨_, rfl⟩
          · exact ⟨_, rfl⟩
        · split
          · exact ⟨_, rfl⟩
          · exact ⟨kvs, rfl⟩
      · split
        · exact ⟨_, rfl⟩
        · exact ⟨kvs, rfl⟩
    · exact applyPointChange_vobj a "experience" kvs it
    · exact applyPointChange_vobj a "projects" kvs it

theorem foldl_applyChange_vobj (a : JSValue) (st : String → Bool)
    (items : List ChangeItem) :
    ∀ kvs, ∃ kvs', items.foldl (applyChange a st) (.vobj kvs) = .vobj kvs' := by
  induction items with
  | nil => exact fun kvs => ⟨kvs, rfl⟩
  | cons it rest ih =>
    intro kvs
    obtain ⟨kvs1, h1⟩ := applyChange_vobj a st kvs it
    rw [List.foldl_cons, h1]
    exact ih kvs1

/-- Shape of the merge result when both documents are present. -/
theorem buildUpdatedResumeData_eq (o c : JSValue) (items : List ChangeItem)
    (st : String → Bool) (ho : truthy o = true) (hc : truthy c = true) :
    buildUpdatedResumeData o c items st =
      setProp (items.foldl (applyChange c st) (cloneResume o)) "skills"
        (.varr ((toArrD (getProp (items.foldl (applyChange c st) (cloneResume o))
          "skills")).filter skillKeep)) := by
  simp [buildUpdatedResumeData, ho, hc]

/-- C7 (amended).  With both documents present, every skill entry of the
merged document is a truthy object with at least one key (the filter the
code actually applies).  The claim's stronger property — that no entry has
an empty `label: value` projection — fails; see the counterexample. -/
theorem merged_skills_pass_key_filter (o c : JSValue) (items : List ChangeItem)
    (st : String → Bool) (ho : truthy o = true) (hc : truthy c = true) :
    ∀ e ∈ toArrD (getProp (buildUpdatedResumeData o c items st) "skills"),
      skillKeep e = true := by
  intro e he
  rw [buildUpdatedResumeData_eq o c items st ho hc] at he
  obtain ⟨kvs0, h0⟩ := cloneResume_vobj o
  rw [h0] at he
  obtain ⟨kvs1, h1⟩ := foldl_applyChange_vobj c st items kvs0
  rw [h1, setProp_vobj, getProp_objSet_self] at he
  exact (List.mem_filter.1 (by simpa [toArrD] using he)).2

/-- Counterexample to C7 as stated: a skill entry whose only key is `id`
survives the merge (it has a key), yet its `label: value` projection is
structurally empty. -/
theorem merged_skills_structural_empty_counterexample :
    ((.vobj [("id", .vstr "skill-1")] : JSValue) ∈
      toArrD (getProp (buildUpdatedResumeData
        (.vobj [("skills", .varr [.vobj [("id", .vstr "skill-1")]])])
        (.vobj [("x", .vstr "y")]) [] (fun _ => false)) "skills")) ∧
    extractSkillLabelValue (.vobj [("id", .vstr "skill-1")]) = ("", "") ∧
    skillEntryToText (.vobj [("id", .vstr "skill-1")]) = "" := by
  decide

/-- Witness for C7's amended theorem at a concrete merge. -/
theorem merged_skills_pass_key_filter_witness :
    skillKeep (.vobj [("id", .vstr "skill-1")]) = true :=
  merged_skills_pass_key_filter
    (.vobj [("skills", .varr [.vobj [("id", .vstr "skill-1")]])])
    (.vobj [("x", .vstr "y")]) [] (fun _ => false) rfl rfl
    (.vobj [("id", .vstr "skill-1")]) (by decide)

/-! ### C4: normalizer totality and shape -/

theorem append_ne_empty_left (s t : String) (h : s ≠ "") : s ++ t ≠ "" := by
  intro he
  apply h
  have hd : s.data ++ t.data = [] := by
    have := congrArg String.data he
    simpa using this
  exact String.ext (List.append_eq_nil.1 hd).1

theorem shapedFlat_mergeSpread (base : List (String × JSValue)) (v : JSValue)
    (req : List String) (h : ∀ k ∈ req, k ∈ base.map Prod.fst) :
    shapedFlat (.vobj (mergeSpread base v)) req = true := by
  simp only [shapedFlat, List.all_eq_true]
  intro k hk
  simpa using mem_map_fst_mergeSpread base v k (h k hk)

theorem normalizeSummaryValue_shape (sm : JSValue) (fid : String) (hf : fid ≠ "") :
    ∃ s t, normalizeSummaryValue sm fid = .vobj [("id", .vstr s), ("text", .vstr t)] ∧
      s ≠ "" := by
  rw [normalizeSummaryValue.eq_def]
  split
  · refine ⟨_, _, rfl, ?_⟩
    split
    · split
      · assumption
      · exact hf
    · exact hf
  · split
    · exact ⟨fid, _, rfl, hf⟩
    · exact ⟨fid, "", rfl, hf⟩

theorem normalizeSkillEntry_shape (entry : JSValue) (i : Nat) (fid : String)
    (e : JSValue) (h : normalizeSkillEntry entry i fid = some e) :
    shapedSkillEntry e = true := by
  rw [normalizeSkillEntry] at h
  split at h
  · exact absurd h (by simp)
  · dsimp only at h
    have he := Option.some.inj h
    subst he
    simp only [shapedSkillEntry, getProp_objSet_self]
    split
    · split
      · exact decide_eq_true (by assumption)
      · split
        · exact decide_eq_true (by assumption)
        · exact decide_eq_true (append_ne_empty_left "skill-" _ (by decide))
    · split
      · exact decide_eq_true (by assumption)
      · exact decide_eq_true (append_ne_empty_left "skill-" _ (by decide))

theorem normalizePointsList_shaped (points resumePoints : JSValue) (pref : String) :
    ∀ p ∈ normalizePointsList points resumePoints pref, shapedPoint p = true := by
  intro p hp
  rw [normalizePointsList] at hp
  rcases List.mem_filterMap.1 hp with ⟨i, _, hi⟩
  dsimp only at hi
  split at hi
  · exact absurd hi (by simp)
  · exact (Option.some.inj hi) ▸ rfl

theorem normalizeExperienceList_shaped (list resumeList : JSValue) :
    ∀ j ∈ normalizeExperienceList list resumeList,
      shapedSection j schemaExperienceKeys = true := by
  intro j hj
  rw [normalizeExperienceList] at hj
  rcases List.mem_filterMap.1 hj with ⟨i, _, hi⟩
  dsimp only at hi
  split at hi
  · exact absurd hi (by simp)
  · have hj' := Option.some.inj hi
    subst hj'
    simp only [shapedSection, shapedFlat, getProp_objSet_self, Bool.and_eq_true,
      List.all_eq_true]
    refine ⟨fun k hk => ?_, ?_⟩
    · have hbase : k ∈ experienceTemplate.map Prod.fst := by
        fin_cases hk <;> decide
      simpa using mem_map_fst_objSet _ _ _ _
        (mem_map_fst_mergeSpread _ _ k (mem_map_fst_mergeSpread _ _ k hbase))
    · exact fun p hp => normalizePointsList_shaped _ _ _ p hp
theorem normalizeProjectList_shaped (list resumeList : JSValue) :
    ∀ j ∈ normalizeProjectList list resumeList,
      shapedSection j schemaProjectKeys = true := by
  intro j hj
  rw [normalizeProjectList] at hj
  rcases List.mem_filterMap.1 hj with ⟨i, _, hi⟩
  dsimp only at hi
  split at hi
  · exact absurd hi (by simp)
  · have hj' := Option.some.inj hi
    subst hj'
    simp only [shapedSection, shapedFlat, getProp_objSet_self, Bool.and_eq_true,
      List.all_eq_true]
    refine ⟨fun k hk => ?_, ?_⟩
    · have hbase : k ∈ projectTemplate.map Prod.fst := by
        fin_cases hk <;> decide
      simpa using mem_map_fst_objSet _ _ _ _
        (mem_map_fst_mergeSpread _ _ k (mem_map_fst_mergeSpread _ _ k hbase))
    · exact fun p hp => normalizePointsList_shaped _ _ _ p hp
theorem normalizeArrayObjects_shaped (list : JSValue) (template : List (String × JSValue))
    (fallbackList : JSValue) (req : List String)
    (hreq : ∀ k ∈ req, k ∈ template.map Prod.fst) :
    ∀ e ∈ normalizeArrayObjects list template fallbackList, shapedFlat e req = true := by
  intro e he
  rw [normalizeArrayObjects] at he
  rcases List.mem_filterMap.1 he with ⟨i, _, hi⟩
  dsimp only at hi
  split at hi
  · exact absurd hi (by simp)
  · have he' := Option.some.inj hi
    subst he'
    exact shapedFlat_mergeSpread _ _ req
      (fun k hk => mem_map_fst_mergeSpread _ _ k (hreq k hk))

theorem normalizeSkillsList_shaped (skills resumeSkills : JSValue) :
    ∀ e ∈ normalizeSkillsList skills resumeSkills, shapedSkillEntry e = true := by
  intro e he
  rw [normalizeSkillsList] at he
  rcases List.mem_filterMap.1 he with ⟨i, _, hi⟩
  dsimp only at hi
  split at hi
  · exact absurd hi (by simp)
  · exact normalizeSkillEntry_shape _ _ _ _ hi

theorem getProp_cons (k0 : String) (v0 : JSValue) (rest : List (String × JSValue))
    (k : String) :
    getProp (.vobj ((k0, v0) :: rest)) k =
      if k0 = k then v0 else getProp (.vobj rest) k := by
  by_cases h : k0 = k
  · simp [getProp, List.find?, h]
  · simp only [getProp]
    rw [List.find?_cons_of_neg _ (by simp [h]), if_neg h]

/-- C4 (amended).  `normalizeResumeJson` is total (a Lean function) and its
output always carries the seven canonical top-level fields with the
documented container shapes: `basics` an object with the template keys,
`summary` exactly `{id, text}` with a non-empty string id, `skills` an
array of objects with non-empty string ids, `experience` / `projects`
arrays of objects carrying the template keys and `{id, text}` point lists,
`education` / `certificates` arrays of objects with the template keys.
Wrong-typed scalar leaves from the input are kept, not degraded — see the
counterexample against the claim's full-schema reading. -/
theorem normalizeResumeJson_structurally_shaped (input : JSValue) :
    structurallyShaped (normalizeResumeJson input) = true := by
  rw [normalizeResumeJson]
  split
  · obtain ⟨s, t, hsum, hs⟩ :=
      normalizeSummaryValue_shape (getProp input "summary") "summary-1" (by decide)
    rw [hsum]
    simp only [structurallyShaped, getProp_cons, String.reduceEq, reduceIte,
      Bool.and_eq_true, List.all_eq_true]
    repeat' apply And.intro
    all_goals first
      | rfl
      | exact decide_eq_true hs
      | exact shapedFlat_mergeSpread _ _ _ (by decide)
      | (intro e he; exact normalizeSkillsList_shaped _ _ e he)
      | (intro j hj; exact normalizeExperienceList_shaped _ _ j hj)
      | (intro j hj; exact normalizeProjectList_shaped _ _ j hj)
      | (intro e he; exact normalizeArrayObjects_shaped _ _ _ _ (by decide) e he)
  · decide

/-- Witness for C1's bound at concrete strings and a concrete common
subsequence. -/
theorem diffWords_equal_count_is_lcs_witness :
    (["b"] : List String) <+ tokenize "a b" ∧ (["b"] : List String) <+ tokenize "b c" ∧
    (["b"] : List String).length ≤ equalCount (diffWords "a b" "b c") ∧
    (∀ op ∈ diffWords "x y" "x y", op.tag = DiffTag.equal) :=
  ⟨by decide, by decide,
    (diffWords_equal_count_is_lcs "a b" "b c").2.1 ["b"] (by decide) (by decide),
    (diffWords_equal_count_is_lcs "x y" "irrelevant").2.2⟩

/-- Counterexample to C4 as stated: a wrong-typed `basics.name` leaf is
kept (not degraded to an empty string), and the normalized document fails
the repository's own `resumeSchema`. -/
theorem normalizeResumeJson_full_schema_counterexample :
    getProp (getProp (normalizeResumeJson
        (.vobj [("basics", .vobj [("name", .vnum 5)])])) "basics") "name" = .vnum 5 ∧
    resumeSchemaAccepts (normalizeResumeJson
        (.vobj [("basics", .vobj [("name", .vnum 5)])])) = false := by
  decide

/-! ### C8: stable id assignment by the normalizer -/

theorem append_ne_empty_right (s t : String) (h : t ≠ "") : s ++ t ≠ "" := by
  intro he
  apply h
  have hd : s.data ++ t.data = [] := by
    have := congrArg String.data he
    simpa using this
  exact String.ext (List.append_eq_nil.1 hd).2

theorem objSet_eq_append_of_not_mem (acc : List (String × JSValue)) (k : String)
    (v : JSValue) (h : k ∉ acc.map Prod.fst) : objSet acc k v = acc ++ [(k, v)] := by
  induction acc with
  | nil => rfl
  | cons kv rest ih =>
    rcases kv with ⟨k0, v0⟩
    rw [List.map_cons] at h
    have hk : ¬ k0 = k := fun hk => h (List.mem_cons.2 (Or.inl hk.symm))
    rw [objSet_cons_neg k0 v0 rest k v hk, List.cons_append,
      ih (fun hm => h (List.mem_cons.2 (Or.inr hm)))]

theorem foldl_objSet_eq_append (ps : List (String × JSValue)) :
    ∀ acc : List (String × JSValue),
      (∀ k ∈ ps.map Prod.fst, k ∉ acc.map Prod.fst) → (ps.map Prod.fst).Nodup →
      ps.foldl (fun a kv => objSet a kv.1 kv.2) acc = acc ++ ps := by
  induction ps with
  | nil => intro acc _ _; simp
  | cons p rest ih =>
    intro acc hdisj hnd
    rcases p with ⟨k0, v0⟩
    rw [List.map_cons] at hnd
    simp only [List.foldl_cons]
    rw [objSet_eq_append_of_not_mem acc k0 v0
      (hdisj k0 (by simp))]
    rw [ih (acc ++ [(k0, v0)]) ?_ (List.Nodup.of_cons hnd)]
    · simp
    · intro k hk
      rw [List.map_append]
      intro hmem
      rcases List.mem_append.1 hmem with hmem | hmem
      · exact hdisj k (by simp [hk]) hmem
      · simp only [List.map_cons, List.map_nil, List.mem_singleton] at hmem
        subst hmem
        exact (List.nodup_cons.1 hnd).1 hk

theorem spreadIntoObj_vobj_nodup (kvs : List (String × JSValue))
    (h : (kvs.map Prod.fst).Nodup) : spreadIntoObj (.vobj kvs) = kvs := by
  rw [spreadIntoObj, mergeSpread]
  simpa using foldl_objSet_eq_append kvs [] (by simp) h

theorem getSummaryProp_normalize (v : JSValue) :
    getProp (normalizeResumeJson v) "summary" =
      normalizeSummaryValue (getProp v "summary") "summary-1" := by
  by_cases h : isObjLike v
  · rw [normalizeResumeJson, if_pos h]
    simp only [getProp_cons, String.reduceEq, reduceIte]
  · rw [normalizeResumeJson, if_neg h]
    have hv : getProp v "summary" = .vundef := by
      cases v <;> first | rfl | (exact absurd rfl h)
    rw [hv]
    rfl

theorem getSkillsProp_normalize (v : JSValue) :
    getProp (normalizeResumeJson v) "skills" =
      .varr (normalizeSkillsList (getProp v "skills") .vundef) := by
  by_cases h : isObjLike v
  · rw [normalizeResumeJson, if_pos h]
    simp only [getProp_cons, String.reduceEq, reduceIte]
  · rw [normalizeResumeJson, if_neg h]
    have hv : getProp v "skills" = .vundef := by
      cases v <;> first | rfl | (exact absurd rfl h)
    rw [hv]
    rfl

theorem getExperienceProp_normalize (v : JSValue) :
    getProp (normalizeResumeJson v) "experience" =
      .varr (normalizeExperienceList (getProp v "experience") .vundef) := by
  by_cases h : isObjLike v
  · rw [normalizeResumeJson, if_pos h]
    simp only [getProp_cons, String.reduceEq, reduceIte]
  · rw [normalizeResumeJson, if_neg h]
    have hv : getProp v "experience" = .vundef := by
      cases v <;> first | rfl | (exact absurd rfl h)
    rw [hv]
    rfl

theorem getProjectsProp_normalize (v : JSValue) :
    getProp (normalizeResumeJson v) "projects" =
      .varr (normalizeProjectList (getProp v "projects") .vundef) := by
  by_cases h : isObjLike v
  · rw [normalizeResumeJson, if_pos h]
    simp only [getProp_cons, String.reduceEq, reduceIte]
  · rw [normalizeResumeJson, if_neg h]
    have hv : getProp v "projects" = .vundef := by
      cases v <;> first | rfl | (exact absurd rfl h)
    rw [hv]
    rfl

theorem shapedSkillEntry_spec (e : JSValue) (h : shapedSkillEntry e = true) :
    nonEmptyStrId e := by
  rw [shapedSkillEntry.eq_def] at h
  split at h
  · split at h
    · rename_i s heq
      exact ⟨s, heq, of_decide_eq_true h⟩
    · exact absurd h (by simp)
  · exact absurd h (by simp)

theorem normalizePointsList_ids (points resumePoints : JSValue) (pref : String) :
    ∀ p ∈ normalizePointsList points resumePoints pref, nonEmptyStrId p := by
  intro p hp
  rw [normalizePointsList] at hp
  rcases List.mem_filterMap.1 hp with ⟨i, _, hi⟩
  dsimp only at hi
  split at hi
  · exact absurd hi (by simp)
  · have hp' := Option.some.inj hi
    subst hp'
    refine ⟨_, by rw [getProp_cons, if_pos rfl], ?_⟩
    split
    · assumption
    · split
      · assumption
      · exact append_ne_empty_left (pref ++ "-") _
          (append_ne_empty_right pref "-" (by decide))

theorem normalizeExperienceList_point_ids (list resumeList : JSValue) :
    ∀ jv ∈ normalizeExperienceList list resumeList,
      ∀ p ∈ toArrD (getProp jv "points"), nonEmptyStrId p := by
  intro jv hj
  rw [normalizeExperienceList] at hj
  rcases List.mem_filterMap.1 hj with ⟨i, _, hi⟩
  dsimp only at hi
  split at hi
  · exact absurd hi (by simp)
  · have hj' := Option.some.inj hi
    subst hj'
    rw [getProp_objSet_self]
    intro p hp
    exact normalizePointsList_ids _ _ _ p (by simpa [toArrD] using hp)

theorem normalizeProjectList_point_ids (list resumeList : JSValue) :
    ∀ jv ∈ normalizeProjectList list resumeList,
      ∀ p ∈ toArrD (getProp jv "points"), nonEmptyStrId p := by
  intro jv hj
  rw [normalizeProjectList] at hj
  rcases List.mem_filterMap.1 hj with ⟨i, _, hi⟩
  dsimp only at hi
  split at hi
  · exact absurd hi (by simp)
  · have hj' := Option.some.inj hi
    subst hj'
    rw [getProp_objSet_self]
    intro p hp
    exact normalizePointsList_ids _ _ _ p (by simpa [toArrD] using hp)

theorem normalizeSkillEntry_scheme (ekvs : List (String × JSValue)) (i : Nat)
    (hnd : (ekvs.map Prod.fst).Nodup)
    (hid : pointTrimmedId (.vobj ekvs) = "") :
    normalizeSkillEntry (.vobj ekvs) i ("skill-" ++ toString (i + 1)) =
      some (.vobj (objSet ekvs "id" (.vstr ("skill-" ++ toString (i + 1))))) := by
  rw [normalizeSkillEntry, if_neg (by simp [isObjLike])]
  dsimp only
  rw [spreadIntoObj_vobj_nodup ekvs hnd]
  rw [pointTrimmedId, if_pos (by rfl)] at hid
  have hfid : ("skill-" ++ toString (i + 1)) ≠ "" :=
    append_ne_empty_left "skill-" _ (by decide)
  cases hg : getProp (.vobj ekvs) "id"
  case vstr s =>
    rw [hg] at hid
    dsimp only at hid ⊢
    rw [if_neg (by simpa using hid), if_pos hfid]
  all_goals
    dsimp only
    rw [if_pos hfid]

theorem normalizeSkillsList_scheme (skills : JSValue) (i : Nat)
    (ekvs : List (String × JSValue))
    (hget : (toArrD skills).getD i .vundef = .vobj ekvs)
    (hnd : (ekvs.map Prod.fst).Nodup)
    (hlen : i < (toArrD skills).length)
    (hid : pointTrimmedId (.vobj ekvs) = "") :
    (.vobj (objSet ekvs "id" (.vstr ("skill-" ++ toString (i + 1))))) ∈
      normalizeSkillsList skills .vundef := by
  rw [normalizeSkillsList]
  refine List.mem_filterMap.2 ⟨i,
    List.mem_range.2 (lt_of_lt_of_le hlen (Nat.le_max_left _ _)), ?_⟩
  dsimp only
  rw [hget, if_neg (fun hc => hc.1 rfl)]
  simp only [toArrD, List.getD_nil]
  rw [if_neg (by simp [isObjLike])]
  rw [show jsOr (.vobj ekvs) (.vundef) = .vobj ekvs from rfl]
  exact normalizeSkillEntry_scheme ekvs i hnd hid

theorem normalizePointsList_scheme (points : JSValue) (i : Nat) (pref : String)
    (hp : truthy ((toArrD points).getD i .vundef) = true)
    (hl : i < (toArrD points).length)
    (hid : pointTrimmedId ((toArrD points).getD i .vundef) = "") :
    (.vobj [("id", .vstr (pref ++ "-" ++ toString (i + 1))),
            ("text", .vstr (getPointText ((toArrD points).getD i .vundef)))]) ∈
      normalizePointsList points .vundef pref := by
  rw [normalizePointsList]
  refine List.mem_filterMap.2 ⟨i,
    List.mem_range.2 (lt_of_lt_of_le hl (Nat.le_max_left _ _)), ?_⟩
  dsimp only
  rw [if_neg (fun hc => hc.1 hp)]
  rw [if_neg (fun hc => hc hid)]
  rw [if_neg (fun hc => hc rfl)]
  rw [show jsOr ((toArrD points).getD i .vundef) ((toArrD JSValue.vundef).getD i .vundef) =
      (toArrD points).getD i .vundef from by rw [jsOr, if_pos hp]]

theorem normalizeExperienceList_scheme (list : JSValue) (j : Nat)
    (hj : truthy ((toArrD list).getD j .vundef) = true)
    (hjl : j < (toArrD list).length) :
    ∃ jv ∈ normalizeExperienceList list .vundef,
      getProp jv "points" = .varr (normalizePointsList
        (getProp ((toArrD list).getD j .vundef) "points") .vundef
        ("exp-" ++ toString (j + 1))) := by
  refine ⟨.vobj (objSet
      (mergeSpread (mergeSpread experienceTemplate (objGuard .vundef))
        (objGuard ((toArrD list).getD j .vundef)))
      "points"
      (.varr (normalizePointsList (getProp ((toArrD list).getD j .vundef) "points")
        (getProp (.vundef : JSValue) "points") ("exp-" ++ toString (j + 1))))),
    ?_, ?_⟩
  · rw [normalizeExperienceList]
    refine List.mem_filterMap.2 ⟨j,
      List.mem_range.2 (lt_of_lt_of_le hjl (Nat.le_max_left _ _)), ?_⟩
    dsimp only
    rw [if_neg (fun hc => hc.1 hj)]
    rfl
  · rw [getProp_objSet_self]
    rfl

theorem normalizeProjectList_scheme (list : JSValue) (j : Nat)
    (hj : truthy ((toArrD list).getD j .vundef) = true)
    (hjl : j < (toArrD list).length) :
    ∃ jv ∈ normalizeProjectList list .vundef,
      getProp jv "points" = .varr (normalizePointsList
        (getProp ((toArrD list).getD j .vundef) "points") .vundef
        ("proj-" ++ toString (j + 1))) := by
  refine ⟨.vobj (objSet
      (mergeSpread (mergeSpread projectTemplate (objGuard .vundef))
        (objGuard ((toArrD list).getD j .vundef)))
      "points"
      (.varr (normalizePointsList (getProp ((toArrD list).getD j .vundef) "points")
        (getProp (.vundef : JSValue) "points") ("proj-" ++ toString (j + 1))))),
    ?_, ?_⟩
  · rw [normalizeProjectList]
    refine List.mem_filterMap.2 ⟨j,
      List.mem_range.2 (lt_of_lt_of_le hjl (Nat.le_max_left _ _)), ?_⟩
    dsimp only
    rw [if_neg (fun hc => hc.1 hj)]
    rfl
  · rw [getProp_objSet_self]
    rfl

theorem normalizeSummaryValue_fallback (sm : JSValue) (fid : String)
    (hid : pointTrimmedId sm = "") :
    getProp (normalizeSummaryValue sm fid) "id" = .vstr fid := by
  rw [normalizeSummaryValue.eq_def]
  split
  · rw [getProp_cons, if_pos rfl]
    rw [pointTrimmedId, if_pos (by assumption)] at hid
    congr 1
    cases hg : getProp sm "id"
    case vstr s =>
      rw [hg] at hid
      dsimp only at hid ⊢
      rw [if_neg (by simpa using hid)]
    all_goals rfl
  · split
    · rw [getProp_cons, if_pos rfl]
    · rw [getProp_cons, if_pos rfl]

/-- C8.  In every normalizer output: the summary, every skill entry, and
every experience / project point carries a non-empty string id; and where
the input lacks a usable (trimmed non-empty string) id, the assigned id
follows the deterministic 1-based scheme `summary-1`, `skill-<n>`,
`exp-<job>-<point>`, `proj-<project>-<point>`. -/
theorem normalizer_assigns_stable_ids (v : JSValue) :
    nonEmptyStrId (getProp (normalizeResumeJson v) "summary") ∧
    (∀ e ∈ toArrD (getProp (normalizeResumeJson v) "skills"), nonEmptyStrId e) ∧
    (∀ jv ∈ toArrD (getProp (normalizeResumeJson v) "experience"),
      ∀ p ∈ toArrD (getProp jv "points"), nonEmptyStrId p) ∧
    (∀ jv ∈ toArrD (getProp (normalizeResumeJson v) "projects"),
      ∀ p ∈ toArrD (getProp jv "points"), nonEmptyStrId p) ∧
    (pointTrimmedId (getProp v "summary") = "" →
      getProp (getProp (normalizeResumeJson v) "summary") "id" = .vstr "summary-1") ∧
    (∀ (i : Nat) (ekvs : List (String × JSValue)),
      (toArrD (getProp v "skills")).getD i .vundef = .vobj ekvs →
      (ekvs.map Prod.fst).Nodup →
      i < (toArrD (getProp v "skills")).length →
      pointTrimmedId (.vobj ekvs) = "" →
      (.vobj (objSet ekvs "id" (.vstr ("skill-" ++ toString (i + 1))))) ∈
        toArrD (getProp (normalizeResumeJson v) "skills")) ∧
    (∀ j i : Nat,
      truthy ((toArrD (getProp v "experience")).getD j .vundef) = true →
      j < (toArrD (getProp v "experience")).length →
      truthy ((toArrD (getProp ((toArrD (getProp v "experience")).getD j .vundef)
        "points")).getD i .vundef) = true →
      i < (toArrD (getProp ((toArrD (getProp v "experience")).getD j .vundef)
        "points")).length →
      pointTrimmedId ((toArrD (getProp ((toArrD (getProp v "experience")).getD j .vundef)
        "points")).getD i .vundef) = "" →
      ∃ jv ∈ toArrD (getProp (normalizeResumeJson v) "experience"),
        (.vobj [("id", .vstr ("exp-" ++ toString (j + 1) ++ "-" ++ toString (i + 1))),
          ("text", .vstr (getPointText ((toArrD (getProp ((toArrD
            (getProp v "experience")).getD j .vundef) "points")).getD i .vundef)))]) ∈
          toArrD (getProp jv "points")) ∧
    (∀ j i : Nat,
      truthy ((toArrD (getProp v "projects")).getD j .vundef) = true →
      j < (toArrD (getProp v "projects")).length →
      truthy ((toArrD (getProp ((toArrD (getProp v "projects")).getD j .vundef)
        "points")).getD i .vundef) = true →
      i < (toArrD (getProp ((toArrD (getProp v "projects")).getD j .vundef)
        "points")).length →
      pointTrimmedId ((toArrD (getProp ((toArrD (getProp v "projects")).getD j .vundef)
        "points")).getD i .vundef) = "" →
      ∃ jv ∈ toArrD (getProp (normalizeResumeJson v) "projects"),
        (.vobj [("id", .vstr ("proj-" ++ toString (j + 1) ++ "-" ++ toString (i + 1))),
          ("text", .vstr (getPointText ((toArrD (getProp ((toArrD
            (getProp v "projects")).getD j .vundef) "points")).getD i .vundef)))]) ∈
          toArrD (getProp jv "points")) := by
  refine ⟨?_, ?_, ?_, ?_, ?_, ?_, ?_, ?_⟩
  · rw [getSummaryProp_normalize]
    obtain ⟨s, t, heq, hs⟩ :=
      normalizeSummaryValue_shape (getProp v "summary") "summary-1" (by decide)
    rw [heq]
    exact ⟨s, by rw [getProp_cons, if_pos rfl], hs⟩
  · rw [getSkillsProp_normalize]
    intro e he
    exact shapedSkillEntry_spec e
      (normalizeSkillsList_shaped _ _ e (by simpa [toArrD] using he))
  · rw [getExperienceProp_normalize]
    intro jv hj
    exact normalizeExperienceList_point_ids _ _ jv (by simpa [toArrD] using hj)
  · rw [getProjectsProp_normalize]
    intro jv hj
    exact normalizeProjectList_point_ids _ _ jv (by simpa [toArrD] using hj)
  · intro hid
    rw [getSummaryProp_normalize]
    exact normalizeSummaryValue_fallback _ _ hid
  · intro i ekvs hget hnd hlen hid
    rw [getSkillsProp_normalize]
    simpa [toArrD] using normalizeSkillsList_scheme (getProp v "skills") i ekvs hget hnd hlen hid
  · intro j i hj hjl hp hpl hid
    rw [getExperienceProp_normalize]
    obtain ⟨jv, hjv, hpts⟩ :=
      normalizeExperienceList_scheme (getProp v "experience") j hj hjl
    refine ⟨jv, by simpa [toArrD] using hjv, ?_⟩
    rw [hpts]
    simpa [toArrD] using
      normalizePointsList_scheme (getProp ((toArrD (getProp v "experience")).getD j .vundef)
        "points") i ("exp-" ++ toString (j + 1)) hp hpl hid
  · intro j i hj hjl hp hpl hid
    rw [getProjectsProp_normalize]
    obtain ⟨jv, hjv, hpts⟩ :=
      normalizeProjectList_scheme (getProp v "projects") j hj hjl
    refine ⟨jv, by simpa [toArrD] using hjv, ?_⟩
    rw [hpts]
    simpa [toArrD] using
      normalizePointsList_scheme (getProp ((toArrD (getProp v "projects")).getD j .vundef)
        "points") i ("proj-" ++ toString (j + 1)) hp hpl hid

/-- Witness for C8 at a concrete partially-id-less document. -/
theorem normalizer_assigns_stable_ids_witness :
    nonEmptyStrId (getProp (normalizeResumeJson (.vobj [("summary", .vstr "hello"),
      ("skills", .varr [.vobj [("Languages", .vstr "py")]]),
      ("experience", .varr [.vobj [("points", .varr [.vstr "did x"])]])])) "summary") ∧
    getProp (getProp (normalizeResumeJson (.vobj [("summary", .vstr "hello"),
      ("skills", .varr [.vobj [("Languages", .vstr "py")]]),
      ("experience", .varr [.vobj [("points", .varr [.vstr "did x"])]])])) "summary") "id" =
        .vstr "summary-1" ∧
    (.vobj (objSet [("Languages", .vstr "py")] "id" (.vstr ("skill-" ++ toString (0 + 1))))) ∈
      toArrD (getProp (normalizeResumeJson (.vobj [("summary", .vstr "hello"),
        ("skills", .varr [.vobj [("Languages", .vstr "py")]]),
        ("experience", .varr [.vobj [("points", .varr [.vstr "did x"])]])])) "skills") ∧
    (∃ jv ∈ toArrD (getProp (normalizeResumeJson (.vobj [("summary", .vstr "hello"),
        ("skills", .varr [.vobj [("Languages", .vstr "py")]]),
        ("experience", .varr [.vobj [("points", .varr [.vstr "did x"])]])])) "experience"),
      (.vobj [("id", .vstr ("exp-" ++ toString (0 + 1) ++ "-" ++ toString (0 + 1))),
        ("text", .vstr (getPointText ((toArrD (getProp ((toArrD (getProp
          (.vobj [("summary", .vstr "hello"),
            ("skills", .varr [.vobj [("Languages", .vstr "py")]]),
            ("experience", .varr [.vobj [("points", .varr [.vstr "did x"])]])])
          "experience")).getD 0 .vundef) "points")).getD 0 .vundef)))]) ∈
        toArrD (getProp jv "points")) :=
  ⟨(normalizer_assigns_stable_ids _).1,
   (normalizer_assigns_stable_ids _).2.2.2.2.1 (by decide),
   (normalizer_assigns_stable_ids _).2.2.2.2.2.1 0 [("Languages", .vstr "py")]
     (by decide) (by decide) (by decide) (by decide),
   (normalizer_assigns_stable_ids _).2.2.2.2.2.2.1 0 0
     (by decide) (by decide) (by decide) (by decide) (by decide)⟩

/-! ### C10: structurally empty skill entries -/

theorem skillEntryToText_trivial (e : JSValue)
    (h : isObjLike e = false ∨ objKeys e = ["id"]) : skillEntryToText e = "" := by
  rcases h with h | h
  · cases e <;> first
      | rfl
      | exact absurd h (by simp [isObjLike])
  · cases e with
    | vundef => simp [objKeys, rawPairs] at h
    | vnull => simp [objKeys, rawPairs] at h
    | vbool b => simp [objKeys, rawPairs] at h
    | vnum n => simp [objKeys, rawPairs] at h
    | vstr s => simp [objKeys, rawPairs] at h
    | varr xs =>
      exfalso
      cases xs with
      | nil => simp [objKeys, rawPairs] at h
      | cons x xs' =>
        simp [objKeys, rawPairs, List.enum_cons] at h
        exact absurd h.1 (by decide)
    | vobj kvs =>
      cases kvs with
      | nil => simp [objKeys, rawPairs] at h
      | cons kv rest =>
        simp only [objKeys, rawPairs, List.map_cons, List.cons.injEq] at h
        obtain ⟨hk, hrest⟩ := h
        rw [List.map_eq_nil_iff] at hrest
        subst hrest
        obtain ⟨k, v⟩ := kv
        dsimp only at hk
        subst hk
        rfl

theorem summaryItems_ctype (r a : JSValue) :
    ∀ it ∈ summaryItems r a, it.ctype = ChangeType.summary := by
  intro it hit
  simp only [summaryItems] at hit
  split at hit
  · simp only [List.mem_singleton] at hit
    subst hit
    rfl
  · simp at hit

theorem expItems_ctype (r a : JSValue) :
    ∀ it ∈ expItems r a, it.ctype = ChangeType.experience := by
  intro it hit
  simp only [expItems, List.mem_flatMap] at hit
  obtain ⟨j, _, hit⟩ := hit
  simp only [expJobItems, List.mem_filterMap] at hit
  obtain ⟨pid, _, heq⟩ := hit
  split at heq
  · exact Option.noConfusion heq
  · split at heq
    · exact Option.noConfusion heq
    · rw [Option.some.injEq] at heq
      subst heq
      rfl

theorem projItems_ctype (r a : JSValue) :
    ∀ it ∈ projItems r a, it.ctype = ChangeType.project := by
  intro it hit
  simp only [projItems, List.mem_flatMap] at hit
  obtain ⟨j, _, hit⟩ := hit
  simp only [projJobItems, List.mem_filterMap] at hit
  obtain ⟨pid, _, heq⟩ := hit
  split at heq
  · exact Option.noConfusion heq
  · split at heq
    · exact Option.noConfusion heq
    · rw [Option.some.injEq] at heq
      subst heq
      rfl

theorem skillItems_no_item_at (r a X : JSValue)
    (h1 : skillEntryToText (skillEntryAt (buildSkillMap (toArrD (getProp r "skills"))) X) = "")
    (h2 : skillEntryToText (skillEntryAt (buildSkillMap (toArrD (getProp a "skills"))) X) = "") :
    ∀ it ∈ skillItems r a, it.skillId ≠ X := by
  intro it hit hX
  simp only [skillItems, List.mem_filterMap] at hit
  obtain ⟨p, hp, heq⟩ := hit
  split at heq
  · exact Option.noConfusion heq
  · rename_i hne
    split at heq
    · exact Option.noConfusion heq
    · rw [Option.some.injEq] at heq
      subst heq
      dsimp only at hX
      rw [hX] at hne
      exact hne ⟨h1, h2⟩

/-- C10.  A skill entry that is not a (truthy) object, or whose only key
is `id`, projects to the empty string under the `label: value` projection;
consequently, when the entries resolved at one id in both documents are of
that form, `buildChangeItems` emits no skill change item for that id. -/
theorem empty_skill_projection_emits_no_item (r a X : JSValue)
    (hb : isObjLike (skillEntryAt (buildSkillMap (toArrD (getProp r "skills"))) X) = false ∨
      objKeys (skillEntryAt (buildSkillMap (toArrD (getProp r "skills"))) X) = ["id"])
    (ha : isObjLike (skillEntryAt (buildSkillMap (toArrD (getProp a "skills"))) X) = false ∨
      objKeys (skillEntryAt (buildSkillMap (toArrD (getProp a "skills"))) X) = ["id"]) :
    (∀ e : JSValue, (isObjLike e = false ∨ objKeys e = ["id"]) → skillEntryToText e = "") ∧
    ∀ it ∈ buildChangeItems r a, ¬ (it.ctype = ChangeType.skill ∧ it.skillId = X) := by
  refine ⟨skillEntryToText_trivial, ?_⟩
  rintro it hit ⟨hty, hid⟩
  rw [buildChangeItems] at hit
  split at hit
  · simp at hit
  · simp only [List.mem_append] at hit
    rcases hit with ((hit | hit) | hit) | hit
    · rw [summaryItems_ctype r a it hit] at hty
      exact ChangeType.noConfusion hty
    · exact skillItems_no_item_at r a X
        (skillEntryToText_trivial _ hb) (skillEntryToText_trivial _ ha) it hit hid
    · rw [expItems_ctype r a it hit] at hty
      exact ChangeType.noConfusion hty
    · rw [projItems_ctype r a it hit] at hty
      exact ChangeType.noConfusion hty

/-- Witness for C10: an `{id: "skill-1"}`-only entry present in both
documents yields no skill item for id `skill-1` (the second, labelled
candidate entry is unaffected). -/
theorem empty_skill_projection_emits_no_item_witness :
    (isObjLike (skillEntryAt (buildSkillMap (toArrD (getProp
        (.vobj [("skills", .varr [.vobj [("id", .vstr "skill-1")]])]) "skills")))
        (.vstr "skill-1")) = false ∨
      objKeys (skillEntryAt (buildSkillMap (toArrD (getProp
        (.vobj [("skills", .varr [.vobj [("id", .vstr "skill-1")]])]) "skills")))
        (.vstr "skill-1")) = ["id"]) ∧
    ∀ it ∈ buildChangeItems
        (.vobj [("skills", .varr [.vobj [("id", .vstr "skill-1")]])])
        (.vobj [("skills", .varr [.vobj [("id", .vstr "skill-1")],
          .vobj [("Languages", .vstr "py")]])]),
      ¬ (it.ctype = ChangeType.skill ∧ it.skillId = .vstr "skill-1") :=
  ⟨Or.inr (by decide),
   (empty_skill_projection_emits_no_item
     (.vobj [("skills", .varr [.vobj [("id", .vstr "skill-1")]])])
     (.vobj [("skills", .varr [.vobj [("id", .vstr "skill-1")],
       .vobj [("Languages", .vstr "py")]])])
     (.vstr "skill-1") (Or.inr (by decide)) (Or.inr (by decide))).2⟩

/-! ### C3: id-based alignment of experience points -/

theorem jsMapSet_map_fst {κ α : Type} [DecidableEq κ] (m : List (κ × α)) (k : κ) (v : α) :
    (jsMapSet m k v).map Prod.fst =
      if k ∈ m.map Prod.fst then m.map Prod.fst else m.map Prod.fst ++ [k] := by
  induction m with
  | nil => simp [jsMapSet]
  | cons kv rest ih =>
    obtain ⟨k', v'⟩ := kv
    by_cases hk : k' = k
    · subst hk
      simp [jsMapSet]
    · simp only [jsMapSet, if_neg hk, List.map_cons, ih]
      by_cases hmem : k ∈ rest.map Prod.fst
      · rw [if_pos hmem, if_pos (List.mem_cons_of_mem _ hmem)]
      · have hnc : k ∉ (k' :: rest.map Prod.fst) := by
          intro hc
          rcases List.mem_cons.mp hc with h | h
          · exact hk h.symm
          · exact hmem h
        rw [if_neg hmem, if_neg hnc, List.cons_append]

theorem jsMapSet_nodup {κ α : Type} [DecidableEq κ] (m : List (κ × α)) (k : κ) (v : α)
    (h : (m.map Prod.fst).Nodup) : ((jsMapSet m k v).map Prod.fst).Nodup := by
  rw [jsMapSet_map_fst]
  by_cases hmem : k ∈ m.map Prod.fst
  · rwa [if_pos hmem]
  · rw [if_neg hmem, List.nodup_append]
    exact ⟨h, List.nodup_singleton _, fun x hx hxk =>
      hmem ((List.mem_singleton.mp hxk) ▸ hx)⟩

theorem foldl_jsMapSet_nodup {κ α β : Type} [DecidableEq κ] (key : β → κ) (val : β → α)
    (ps : List β) (acc : List (κ × α)) (h : (acc.map Prod.fst).Nodup) :
    ((ps.foldl (fun m p => jsMapSet m (key p) (val p)) acc).map Prod.fst).Nodup := by
  induction ps generalizing acc with
  | nil => exact h
  | cons p ps ih => exact ih _ (jsMapSet_nodup _ _ _ h)

theorem buildPointMap_nodup (pts : List JSValue) (fb : Nat → String) :
    ((buildPointMap pts fb).map Prod.fst).Nodup :=
  foldl_jsMapSet_nodup (fun p => getPointId p.2 (fb p.1)) (fun p => (p.2, p.1))
    pts.enum [] List.nodup_nil

theorem jsMapHas_iff_mem {κ α : Type} [DecidableEq κ] (m : List (κ × α)) (k : κ) :
    jsMapHas m k = true ↔ k ∈ m.map Prod.fst := by
  simp [jsMapHas, List.any_eq_true, List.mem_map]

theorem unionKeys_nodup {κ α : Type} [DecidableEq κ] (rm am : List (κ × α))
    (h1 : (rm.map Prod.fst).Nodup) (h2 : (am.map Prod.fst).Nodup) :
    (unionKeys rm am).Nodup := by
  rw [unionKeys, List.nodup_append]
  refine ⟨h1, h2.filter _, ?_⟩
  intro k hk hkf
  have hpred := List.of_mem_filter hkf
  rw [decide_eq_true_eq] at hpred
  exact hpred ((jsMapHas_iff_mem rm k).mpr hk)

theorem jsMapGet_mem_keys {κ α : Type} [DecidableEq κ] (m : List (κ × α)) (k : κ) (e : α)
    (h : jsMapGet m k = some e) : k ∈ m.map Prod.fst := by
  rw [jsMapGet] at h
  rcases ho : m.find? (fun p => p.1 = k) with _ | p
  · rw [ho] at h
    exact Option.noConfusion h
  · have hp := List.find?_some ho
    rw [decide_eq_true_eq] at hp
    exact hp ▸ List.mem_map_of_mem Prod.fst (List.mem_of_find?_eq_some ho)

theorem filter_flatMap {α β : Type} (l : List α) (f : α → List β) (p : β → Bool) :
    (l.flatMap f).filter p = l.flatMap (fun x => (f x).filter p) := by
  induction l with
  | nil => rfl
  | cons x l ih => simp only [List.flatMap_cons, List.filter_append, ih]

theorem flatMap_eq_nil_all {α β : Type} (l : List α) (g : α → List β)
    (h : ∀ x ∈ l, g x = []) : l.flatMap g = [] := by
  induction l with
  | nil => rfl
  | cons x l ih =>
    rw [List.flatMap_cons, h x (List.mem_cons_self x l), List.nil_append]
    exact ih (fun y hy => h y (List.mem_cons_of_mem x hy))

theorem flatMap_single {α β : Type} [DecidableEq α] (l : List α) (g : α → List β)
    (j : α) (res : List β) (hnd : l.Nodup) (hj : j ∈ l)
    (h : ∀ x ∈ l, g x = if x = j then res else []) : l.flatMap g = res := by
  induction l with
  | nil => cases hj
  | cons x l ih =>
    rw [List.flatMap_cons]
    rcases List.mem_cons.mp hj with he | hm
    · subst he
      rw [h j (List.mem_cons_self j l), if_pos rfl]
      have hrest : l.flatMap g = [] := flatMap_eq_nil_all l g (fun y hy => by
        rw [h y (List.mem_cons_of_mem j hy),
          if_neg (fun hyj : y = j => (List.nodup_cons.mp hnd).1 (hyj ▸ hy))])
      rw [hrest, List.append_nil]
    · have hx : ¬ (x = j) := fun hxj => (List.nodup_cons.mp hnd).1 (hxj ▸ hm)
      rw [h x (List.mem_cons_self x l), if_neg hx, List.nil_append]
      exact ih (List.nodup_cons.mp hnd).2 hm (fun y hy => h y (List.mem_cons_of_mem x hy))

theorem filter_filterMap_key {α β : Type} (F : α → Option β) (p : β → Bool) (q : α → Bool)
    (h : ∀ k it, F k = some it → p it = q k) (ks : List α) :
    (ks.filterMap F).filter p = (ks.filter q).filterMap F := by
  induction ks with
  | nil => rfl
  | cons k ks ih =>
    rcases hF : F k with _ | it
    · rw [List.filterMap_cons_none hF, ih, List.filter_cons]
      by_cases hq : q k = true
      · rw [if_pos hq, List.filterMap_cons_none hF]
      · rw [if_neg hq]
    · rw [List.filterMap_cons_some hF, List.filter_cons, List.filter_cons, h k it hF]
      by_cases hq : q k = true
      · rw [if_pos hq, if_pos hq, List.filterMap_cons_some hF, ih]
      · rw [if_neg hq, if_neg hq, ih]

theorem filter_eq_singleton_of_nodup {α : Type} [DecidableEq α] (l : List α) (X : α)
    (hnd : l.Nodup) (hm : X ∈ l) : l.filter (fun y => y = X) = [X] := by
  induction l with
  | nil => cases hm
  | cons a l ih =>
    rw [List.filter_cons]
    rcases List.mem_cons.mp hm with he | hm'
    · subst he
      rw [if_pos (by simp)]
      have hnil : l.filter (fun y => decide (y = X)) = [] :=
        List.filter_eq_nil_iff.mpr (fun b hb => by
          simp only [decide_eq_true_eq]
          exact fun hbX => (List.nodup_cons.mp hnd).1 (hbX ▸ hb))
      rw [hnil]
    · have ha : ¬ (a = X) := fun haX => (List.nodup_cons.mp hnd).1 (haX ▸ hm')
      rw [if_neg (by simp only [decide_eq_true_eq]; exact ha)]
      exact ih (List.nodup_cons.mp hnd).2 hm'

theorem skillItems_ctype (r a : JSValue) :
    ∀ it ∈ skillItems r a, it.ctype = ChangeType.skill := by
  intro it hit
  simp only [skillItems, List.mem_filterMap] at hit
  obtain ⟨p, hp, heq⟩ := hit
  split at heq
  · exact Option.noConfusion heq
  · split at heq
    · exact Option.noConfusion heq
    · rw [Option.some.injEq] at heq
      subst heq
      rfl

theorem expJobItems_fields (RE AE : List JSValue) (j : Nat) :
    ∀ it ∈ expJobItems RE AE j, it.ctype = ChangeType.experience ∧ it.idx = j := by
  intro it hit
  simp only [expJobItems, List.mem_filterMap] at hit
  obtain ⟨pid, hp, heq⟩ := hit
  split at heq
  · exact Option.noConfusion heq
  · split at heq
    · exact Option.noConfusion heq
    · rw [Option.some.injEq] at heq
      subst heq
      exact ⟨rfl, rfl⟩

/-- C3.  If the point maps built for job `j` resolve the same id `X` in
both documents, the change set contains exactly one experience item for
`(j, X)` — none when the two points' texts agree, one carrying those two
texts otherwise — independently of the points' list positions. -/
theorem same_id_points_align_once (r a : JSValue) (j : Nat) (X : String)
    (pb pc : JSValue) (ib ic : Nat)
    (htr : truthy r = true) (hta : truthy a = true)
    (hres : jsMapGet (buildPointMap (toArrD (getProp (jsOr ((toArrD (jsOr
        (getProp r "experience") (.varr []))).getD j .vundef) (.vobj [])) "points"))
      (expFallbackId j)) X = some (pb, ib))
    (hcand : jsMapGet (buildPointMap (toArrD (getProp (jsOr ((toArrD (jsOr
        (getProp a "experience") (.varr []))).getD j .vundef) (.vobj [])) "points"))
      (expFallbackId j)) X = some (pc, ic)) :
    ((buildChangeItems r a).filter (fun it =>
      decide (it.ctype = ChangeType.experience ∧ it.idx = j ∧ it.pointId = X))).map
      (fun it => (it.before, it.after)) =
    if getPointText pb = getPointText pc then []
    else [(JSValue.vstr (getPointText pb), JSValue.vstr (getPointText pc))] := by
  set P : ChangeItem → Bool := fun it =>
    decide (it.ctype = ChangeType.experience ∧ it.idx = j ∧ it.pointId = X) with hP
  have hpb : pointAt (buildPointMap (toArrD (getProp (jsOr ((toArrD (jsOr
      (getProp r "experience") (.varr []))).getD j .vundef) (.vobj [])) "points"))
      (expFallbackId j)) X = pb := by
    unfold pointAt
    rw [hres]
  have hpc : pointAt (buildPointMap (toArrD (getProp (jsOr ((toArrD (jsOr
      (getProp a "experience") (.varr []))).getD j .vundef) (.vobj [])) "points"))
      (expFallbackId j)) X = pc := by
    unfold pointAt
    rw [hcand]
  have hjlt : j < (toArrD (jsOr (getProp r "experience") (.varr []))).length := by
    by_contra hge
    rw [not_lt] at hge
    rw [List.getD_eq_default _ _ hge] at hres
    simp [jsOr, truthy, getProp, toArrD, buildPointMap, jsMapGet] at hres
  rw [buildChangeItems, if_neg (by simp [htr, hta])]
  rw [List.filter_append, List.filter_append, List.filter_append]
  have hs : (summaryItems r a).filter P = [] := by
    refine List.filter_eq_nil_iff.mpr (fun it hit => ?_)
    rw [hP]
    simp only [decide_eq_true_eq]
    rw [summaryItems_ctype r a it hit]
    simp
  have hsk : (skillItems r a).filter P = [] := by
    refine List.filter_eq_nil_iff.mpr (fun it hit => ?_)
    rw [hP]
    simp only [decide_eq_true_eq]
    rw [skillItems_ctype r a it hit]
    simp
  have hpr : (projItems r a).filter P = [] := by
    refine List.filter_eq_nil_iff.mpr (fun it hit => ?_)
    rw [hP]
    simp only [decide_eq_true_eq]
    rw [projItems_ctype r a it hit]
    simp
  rw [hs, hsk, hpr, List.nil_append, List.append_nil]
  simp only [expItems]
  rw [filter_flatMap]
  have hsingle : (List.range (max
      (toArrD (jsOr (getProp r "experience") (.varr []))).length
      (toArrD (jsOr (getProp a "experience") (.varr []))).length)).flatMap
      (fun j' => (expJobItems (toArrD (jsOr (getProp r "experience") (.varr [])))
        (toArrD (jsOr (getProp a "experience") (.varr []))) j').filter P) =
      (expJobItems (toArrD (jsOr (getProp r "experience") (.varr [])))
        (toArrD (jsOr (getProp a "experience") (.varr []))) j).filter P := by
    refine flatMap_single _ _ j _ (List.nodup_range _)
      (List.mem_range.mpr (lt_of_lt_of_le hjlt (le_max_left _ _))) ?_
    intro x _
    by_cases hx : x = j
    · rw [hx, if_pos rfl]
    · rw [if_neg hx]
      refine List.filter_eq_nil_iff.mpr (fun it hit => ?_)
      rw [hP]
      simp only [decide_eq_true_eq]
      rw [(expJobItems_fields _ _ x it hit).2]
      rintro ⟨-, hxj, -⟩
      exact hx hxj
  rw [hsingle]
  simp only [expJobItems]
  refine Eq.trans (congrArg (List.map _) (filter_filterMap_key _ P
    (fun k => decide (k = X)) ?_ _)) ?_
  · intro k it hF
    split at hF
    · exact Option.noConfusion hF
    · split at hF
      · exact Option.noConfusion hF
      · rw [Option.some.injEq] at hF
        subst hF
        rw [hP]
        dsimp only
        rw [decide_eq_decide]
        simp
  · rw [filter_eq_singleton_of_nodup _ X
      (unionKeys_nodup _ _ (buildPointMap_nodup _ _) (buildPointMap_nodup _ _))
      (by unfold unionKeys
          exact List.mem_append_left _ (jsMapGet_mem_keys _ _ _ hres))]
    simp only [List.filterMap_cons, List.filterMap_nil]
    rw [hpb, hpc]
    by_cases h : getPointText pb = getPointText pc
    · by_cases hboth : getPointText pb = "" ∧ getPointText pc = ""
      · rw [if_pos hboth, if_pos h]
        rfl
      · rw [if_neg hboth, if_pos h, if_pos h]
        rfl
    · rw [if_neg (fun hc2 : _ ∧ _ => h (hc2.1.trans hc2.2.symm)), if_neg h, if_neg h]
      rfl

/-- Witness for C3: the shared id `P` sits at index 1 of the original's
points and index 0 of the candidate's, yet exactly one aligned item with
texts `old`/`new` results. -/
theorem same_id_points_align_once_witness :
    ((buildChangeItems
        (.vobj [("experience", .varr [.vobj [("points", .varr [.vstr "alpha", .vobj [("id", .vstr "P"), ("text", .vstr "old")]])]])])
        (.vobj [("experience", .varr [.vobj [("points", .varr [.vobj [("id", .vstr "P"), ("text", .vstr "new")], .vstr "alpha"])]])])).filter
        (fun it => decide (it.ctype = ChangeType.experience ∧ it.idx = 0 ∧
          it.pointId = "P"))).map (fun it => (it.before, it.after)) =
      [(JSValue.vstr "old", JSValue.vstr "new")] := by
  have h := same_id_points_align_once
    (.vobj [("experience", .varr [.vobj [("points", .varr [.vstr "alpha", .vobj [("id", .vstr "P"), ("text", .vstr "old")]])]])])
    (.vobj [("experience", .varr [.vobj [("points", .varr [.vobj [("id", .vstr "P"), ("text", .vstr "new")], .vstr "alpha"])]])])
    0 "P" (.vobj [("id", .vstr "P"), ("text", .vstr "old")])
    (.vobj [("id", .vstr "P"), ("text", .vstr "new")]) 1 0
    rfl rfl (by decide) (by decide)
  rw [h, if_neg (by decide)]
  rfl

/-! ### C9: shape of the point written by the merge engine -/

/-- C9.  When a point change is applied with the candidate job present and
the candidate point found by id, the merge rewrites the section as its
(possibly padded) clone with the target job's point list updated: the
written point is exactly the two-field object `{id, text}` — id from the
candidate point with the item's point id as fallback, text from the
candidate point's textual projection — replacing the matching point or
appended; every other point of the resulting list was already in the job's
point list, so any extra fields of the candidate's point object are
dropped. -/
theorem applied_point_is_two_field_object (a doc : JSValue) (sk : String)
    (item : ChangeItem) (analysisPoint : JSValue)
    (hjob : truthy (getProp (getProp a sk) (toString item.idx)) = true)
    (hfind : (toArrD (getProp (getProp (getProp a sk) (toString item.idx)) "points")).find?
      (fun p => getPointId p "" = item.pointId) = some analysisPoint) :
    ∃ (jobs pts newPts : List JSValue),
      jobs = toArrD (getProp doc sk) ++
        List.replicate (item.idx + 1 - (toArrD (getProp doc sk)).length)
          (JSValue.vobj (objSet (spreadIntoObj (getProp (getProp a sk) (toString item.idx)))
            "points" (.varr []))) ∧
      pts = toArrD (getProp (jobs.getD item.idx .vundef) "points") ∧
      applyPointChange a sk doc item = setProp doc sk (.varr ((jobs.set item.idx
          (setProp (jobs.getD item.idx .vundef) "points" (.varr pts))).set item.idx
        (setProp (setProp (jobs.getD item.idx .vundef) "points" (.varr pts))
          "points" (.varr newPts)))) ∧
      (.vobj [("id", .vstr (getPointId analysisPoint item.pointId)),
        ("text", .vstr (getPointText analysisPoint))]) ∈ newPts ∧
      (∀ p ∈ newPts, p ∈ pts ∨
        p = .vobj [("id", .vstr (getPointId analysisPoint item.pointId)),
          ("text", .vstr (getPointText analysisPoint))]) ∧
      objKeys (.vobj [("id", .vstr (getPointId analysisPoint item.pointId)),
        ("text", .vstr (getPointText analysisPoint))]) = ["id", "text"] := by
  rcases hIdx : ((toArrD (getProp ((toArrD (getProp doc sk) ++ List.replicate (item.idx + 1 - (toArrD (getProp doc sk)).length) (JSValue.vobj (objSet (spreadIntoObj (getProp (getProp a sk) (toString item.idx))) "points" (.varr [])))).getD item.idx .vundef) "points")).findIdx? (fun p => getPointId p "" = item.pointId)) with _ | k
  · refine ⟨_, _, (toArrD (getProp ((toArrD (getProp doc sk) ++ List.replicate (item.idx + 1 - (toArrD (getProp doc sk)).length) (JSValue.vobj (objSet (spreadIntoObj (getProp (getProp a sk) (toString item.idx))) "points" (.varr [])))).getD item.idx .vundef) "points")) ++
      [JSValue.vobj [("id", .vstr (getPointId analysisPoint item.pointId)),
        ("text", .vstr (getPointText analysisPoint))]], rfl, rfl, ?_, ?_, ?_, rfl⟩
    · simp only [applyPointChange]
      rw [if_neg (fun hc => hc hjob), hfind]
      dsimp only
      rw [hIdx]
    · exact List.mem_append_right _ (List.mem_singleton.mpr rfl)
    · intro p hp
      rcases List.mem_append.mp hp with h | h
      · exact Or.inl h
      · exact Or.inr (List.mem_singleton.mp h)
  · have hk : k < (toArrD (getProp ((toArrD (getProp doc sk) ++ List.replicate (item.idx + 1 - (toArrD (getProp doc sk)).length) (JSValue.vobj (objSet (spreadIntoObj (getProp (getProp a sk) (toString item.idx))) "points" (.varr [])))).getD item.idx .vundef) "points")).length :=
      (List.findIdx?_eq_some_iff_findIdx_eq.mp hIdx).1
    refine ⟨_, _, (toArrD (getProp ((toArrD (getProp doc sk) ++ List.replicate (item.idx + 1 - (toArrD (getProp doc sk)).length) (JSValue.vobj (objSet (spreadIntoObj (getProp (getProp a sk) (toString item.idx))) "points" (.varr [])))).getD item.idx .vundef) "points")).set k
      (JSValue.vobj [("id", .vstr (getPointId analysisPoint item.pointId)),
        ("text", .vstr (getPointText analysisPoint))]), rfl, rfl, ?_, ?_, ?_, rfl⟩
    · simp only [applyPointChange]
      rw [if_neg (fun hc => hc hjob), hfind]
      dsimp only
      rw [hIdx]
    · have hk2 : k < ((toArrD (getProp ((toArrD (getProp doc sk) ++ List.replicate (item.idx + 1 - (toArrD (getProp doc sk)).length) (JSValue.vobj (objSet (spreadIntoObj (getProp (getProp a sk) (toString item.idx))) "points" (.varr [])))).getD item.idx .vundef) "points")).set k
          (JSValue.vobj [("id", .vstr (getPointId analysisPoint item.pointId)),
            ("text", .vstr (getPointText analysisPoint))])).length := by
        rw [List.length_set]
        exact hk
      have hmem := List.getElem_mem hk2
      rwa [List.getElem_set_self hk2] at hmem
    · intro p hp
      exact List.mem_or_eq_of_mem_set hp

/-- Witness for C9 at a concrete candidate point carrying an extra
`note` field, which the written point drops. -/
theorem applied_point_is_two_field_object_witness :
    ∃ (jobs pts newPts : List JSValue),
      jobs = toArrD (getProp (.vobj [("experience", .varr [.vobj [("points", .varr [.vobj [("id", .vstr "P"), ("text", .vstr "old")]])]])]) "experience") ++
        List.replicate (({ cid := "exp:0:P", ctype := ChangeType.experience, pointId := "P" } : ChangeItem).idx + 1 - (toArrD (getProp (.vobj [("experience", .varr [.vobj [("points", .varr [.vobj [("id", .vstr "P"), ("text", .vstr "old")]])]])]) "experience")).length)
          (JSValue.vobj (objSet (spreadIntoObj (getProp (getProp (.vobj [("experience", .varr [.vobj [("points", .varr [.vobj [("id", .vstr "P"), ("text", .vstr "new"), ("note", .vstr "extra")]])]])]) "experience")
            (toString ({ cid := "exp:0:P", ctype := ChangeType.experience, pointId := "P" } : ChangeItem).idx))) "points" (.varr []))) ∧
      pts = toArrD (getProp (jobs.getD ({ cid := "exp:0:P", ctype := ChangeType.experience, pointId := "P" } : ChangeItem).idx .vundef) "points") ∧
      applyPointChange (.vobj [("experience", .varr [.vobj [("points", .varr [.vobj [("id", .vstr "P"), ("text", .vstr "new"), ("note", .vstr "extra")]])]])]) "experience" (.vobj [("experience", .varr [.vobj [("points", .varr [.vobj [("id", .vstr "P"), ("text", .vstr "old")]])]])]) ({ cid := "exp:0:P", ctype := ChangeType.experience, pointId := "P" } : ChangeItem) =
        setProp (.vobj [("experience", .varr [.vobj [("points", .varr [.vobj [("id", .vstr "P"), ("text", .vstr "old")]])]])]) "experience" (.varr ((jobs.set ({ cid := "exp:0:P", ctype := ChangeType.experience, pointId := "P" } : ChangeItem).idx
            (setProp (jobs.getD ({ cid := "exp:0:P", ctype := ChangeType.experience, pointId := "P" } : ChangeItem).idx .vundef) "points" (.varr pts))).set ({ cid := "exp:0:P", ctype := ChangeType.experience, pointId := "P" } : ChangeItem).idx
          (setProp (setProp (jobs.getD ({ cid := "exp:0:P", ctype := ChangeType.experience, pointId := "P" } : ChangeItem).idx .vundef) "points" (.varr pts))
            "points" (.varr newPts)))) ∧
      (.vobj [("id", .vstr (getPointId (.vobj [("id", JSValue.vstr "P"), ("text", JSValue.vstr "new"), ("note", JSValue.vstr "extra")] : JSValue) ({ cid := "exp:0:P", ctype := ChangeType.experience, pointId := "P" } : ChangeItem).pointId)),
        ("text", .vstr (getPointText (.vobj [("id", JSValue.vstr "P"), ("text", JSValue.vstr "new"), ("note", JSValue.vstr "extra")] : JSValue)))]) ∈ newPts ∧
      (∀ p ∈ newPts, p ∈ pts ∨
        p = .vobj [("id", .vstr (getPointId (.vobj [("id", JSValue.vstr "P"), ("text", JSValue.vstr "new"), ("note", JSValue.vstr "extra")] : JSValue) ({ cid := "exp:0:P", ctype := ChangeType.experience, pointId := "P" } : ChangeItem).pointId)),
          ("text", .vstr (getPointText (.vobj [("id", JSValue.vstr "P"), ("text", JSValue.vstr "new"), ("note", JSValue.vstr "extra")] : JSValue)))]) ∧
      objKeys (.vobj [("id", .vstr (getPointId (.vobj [("id", JSValue.vstr "P"), ("text", JSValue.vstr "new"), ("note", JSValue.vstr "extra")] : JSValue) ({ cid := "exp:0:P", ctype := ChangeType.experience, pointId := "P" } : ChangeItem).pointId)),
        ("text", .vstr (getPointText (.vobj [("id", JSValue.vstr "P"), ("text", JSValue.vstr "new"), ("note", JSValue.vstr "extra")] : JSValue)))]) = ["id", "text"] :=
  applied_point_is_two_field_object (.vobj [("experience", .varr [.vobj [("points", .varr [.vobj [("id", .vstr "P"), ("text", .vstr "new"), ("note", .vstr "extra")]])]])]) (.vobj [("experience", .varr [.vobj [("points", .varr [.vobj [("id", .vstr "P"), ("text", .vstr "old")]])]])]) "experience" ({ cid := "exp:0:P", ctype := ChangeType.experience, pointId := "P" } : ChangeItem) (.vobj [("id", JSValue.vstr "P"), ("text", JSValue.vstr "new"), ("note", JSValue.vstr "extra")] : JSValue)
    (by decide) (by decide)

/-! ### C2: the two decision extremes of the merge engine -/

theorem applyChange_false (a d : JSValue) (it : ChangeItem) :
    applyChange a (fun _ => false) d it = d := by
  rw [applyChange, if_pos (fun h => Bool.noConfusion h)]

theorem foldl_applyChange_false (a : JSValue) (items : List ChangeItem) :
    ∀ d : JSValue, items.foldl (applyChange a (fun _ => false)) d = d := by
  induction items with
  | nil => exact fun d => rfl
  | cons it rest ih =>
    intro d
    rw [List.foldl_cons, applyChange_false, ih]

/-- Counterexamples to C2 as stated.  All-false half: the merge returns the
skills-filtered structural clone of the original, never `normalize(original)`
— a string summary stays a string while the normalizer rebuilds a shaped
document.  All-true half: an accepted point deletion (the candidate job has
no point with the item's id) is a no-op — the merge equals the all-false
merge and the covered point keeps its original value instead of the
candidate's. -/
theorem merge_extremes_counterexample :
    (buildUpdatedResumeData (.vobj [("summary", .vstr "hello")]) (.vobj [])
        [] (fun _ => false) ≠
      normalizeResumeJson (.vobj [("summary", .vstr "hello")])) ∧
    (buildUpdatedResumeData
        (.vobj [("experience", .varr [.vobj [("points",
          .varr [.vobj [("id", .vstr "P"), ("text", .vstr "old")]])]])])
        (.vobj [("experience", .varr [.vobj [("points", .varr [])]])])
        [{ cid := "exp:0:P", ctype := ChangeType.experience, pointId := "P",
           before := .vstr "old", after := .vstr "" }]
        (fun _ => true) =
      buildUpdatedResumeData
        (.vobj [("experience", .varr [.vobj [("points",
          .varr [.vobj [("id", .vstr "P"), ("text", .vstr "old")]])]])])
        (.vobj [("experience", .varr [.vobj [("points", .varr [])]])])
        [{ cid := "exp:0:P", ctype := ChangeType.experience, pointId := "P",
           before := .vstr "old", after := .vstr "" }]
        (fun _ => false)) :=
  ⟨by decide, by decide⟩

theorem applyPointChange_frame (a : JSValue) (sk : String) (d : JSValue)
    (it : ChangeItem) (k : String) (hk : k ≠ sk) :
    getProp (applyPointChange a sk d it) k = getProp d k := by
  rw [applyPointChange]
  split
  · rfl
  · dsimp only
    split
    · exact getProp_setProp_ne d sk k _ hk
    · exact getProp_setProp_ne d sk k _ hk

theorem applyChange_frame (a : JSValue) (st : String → Bool) (d : JSValue)
    (it : ChangeItem) (k : String)
    (hsum : it.ctype = ChangeType.summary → k ≠ "summary")
    (hskill : it.ctype = ChangeType.skill → k ≠ "skills")
    (hexp : it.ctype = ChangeType.experience → k ≠ "experience")
    (hproj : it.ctype = ChangeType.project → k ≠ "projects") :
    getProp (applyChange a st d it) k = getProp d k := by
  by_cases hst : ¬ st it.cid
  · rw [applyChange, if_pos hst]
  · rw [applyChange, if_neg hst]
    cases hct : it.ctype
    · exact getProp_setProp_ne d _ k _ (hsum hct)
    · dsimp only
      split
      · split
        · split
          · exact getProp_setProp_ne d _ k _ (hskill hct)
          · exact getProp_setProp_ne d _ k _ (hskill hct)
        · split
          · exact getProp_setProp_ne d _ k _ (hskill hct)
          · rfl
      · split
        · exact getProp_setProp_ne d _ k _ (hskill hct)
        · rfl
    · exact applyPointChange_frame a "experience" d it k (hexp hct)
    · exact applyPointChange_frame a "projects" d it k (hproj hct)

theorem foldl_frame_summary (a : JSValue) (st : String → Bool)
    (items : List ChangeItem)
    (h : ∀ it ∈ items, it.ctype ≠ ChangeType.summary) :
    ∀ d : JSValue,
      getProp (items.foldl (applyChange a st) d) "summary" = getProp d "summary" := by
  induction items with
  | nil => exact fun d => rfl
  | cons it rest ih =>
    intro d
    rw [List.foldl_cons, ih (fun u hu => h u (List.mem_cons_of_mem _ hu)),
      applyChange_frame a st d it "summary"
        (fun hc => absurd hc (h it (List.mem_cons_self _ _)))
        (fun _ => by decide) (fun _ => by decide) (fun _ => by decide)]

theorem isObjLike_truthy (v : JSValue) (h : isObjLike v = true) : truthy v = true := by
  cases v <;> first | rfl | exact Bool.noConfusion h

/-- One accepted summary item writes the candidate summary: a clone of it
when it is an object, verbatim when it is a truthy non-object. -/
theorem applyChange_sets_summary (a : JSValue) (st : String → Bool)
    (kvs : List (String × JSValue)) (it : ChangeItem)
    (hit : it.ctype = ChangeType.summary) (hst : st it.cid = true)
    (htr : truthy (getProp a "summary") = true) :
    getProp (applyChange a st (.vobj kvs) it) "summary" =
      if isObjLike (getProp a "summary") then
        .vobj (spreadIntoObj (getProp a "summary"))
      else getProp a "summary" := by
  rw [applyChange, if_neg (fun hc => hc hst), hit]
  dsimp only
  by_cases hobj : isObjLike (getProp a "summary") = true
  · rw [if_pos hobj, if_pos hobj, setProp_vobj, getProp_objSet_self]
  · rw [if_neg hobj, if_neg hobj, setProp_vobj, getProp_objSet_self, jsOr, if_pos htr]

/-- An accepted summary item with a falsy candidate summary keeps the
document's summary. -/
theorem applyChange_summary_falsy (a : JSValue) (st : String → Bool)
    (kvs : List (String × JSValue)) (it : ChangeItem)
    (hfal : truthy (getProp a "summary") = false) :
    getProp (applyChange a st (.vobj kvs) it) "summary" =
      getProp (.vobj kvs) "summary" := by
  by_cases hst : ¬ st it.cid
  · rw [applyChange, if_pos hst]
  · rw [applyChange, if_neg hst]
    cases hct : it.ctype
    · dsimp only
      have hobj : isObjLike (getProp a "summary") = false := by
        cases ho : isObjLike (getProp a "summary")
        · rfl
        · rw [isObjLike_truthy _ ho] at hfal
          exact Bool.noConfusion hfal
      rw [if_neg (fun hc => Bool.noConfusion (hobj ▸ hc)), setProp_vobj,
        getProp_objSet_self, jsOr, if_neg (fun hc => Bool.noConfusion (hfal ▸ hc))]
    · dsimp only
      split
      · split
        · split
          · exact getProp_setProp_ne _ _ _ _ (by decide)
          · exact getProp_setProp_ne _ _ _ _ (by decide)
        · split
          · exact getProp_setProp_ne _ _ _ _ (by decide)
          · rfl
      · split
        · exact getProp_setProp_ne _ _ _ _ (by decide)
        · rfl
    · exact applyPointChange_frame a "experience" _ it _ (by decide)
    · exact applyPointChange_frame a "projects" _ it _ (by decide)

/-- All-true fold with some summary item and a truthy candidate summary:
the summary field is the candidate's value (cloned when an object). -/
theorem foldl_sets_summary (a : JSValue) (items : List ChangeItem)
    (htr : truthy (getProp a "summary") = true) :
    ∀ kvs : List (String × JSValue),
      (∃ it ∈ items, it.ctype = ChangeType.summary) →
      getProp (items.foldl (applyChange a (fun _ => true)) (.vobj kvs)) "summary" =
        if isObjLike (getProp a "summary") then
          .vobj (spreadIntoObj (getProp a "summary"))
        else getProp a "summary" := by
  induction items with
  | nil =>
    rintro kvs ⟨it, hmem, -⟩
    cases hmem
  | cons it rest ih =>
    rintro kvs ⟨it', hmem, hsum⟩
    rw [List.foldl_cons]
    obtain ⟨kvs1, h1⟩ := applyChange_vobj a (fun _ => true) kvs it
    by_cases hrest : ∃ u ∈ rest, u.ctype = ChangeType.summary
    · rw [h1]
      exact ih kvs1 hrest
    · have hit : it.ctype = ChangeType.summary := by
        rcases List.mem_cons.mp hmem with he | hm
        · rw [← he]
          exact hsum
        · exact absurd ⟨it', hm, hsum⟩ hrest
      have hfr : ∀ u ∈ rest, u.ctype ≠ ChangeType.summary :=
        fun u hu hc => hrest ⟨u, hu, hc⟩
      rw [h1, foldl_frame_summary a _ rest hfr (.vobj kvs1), ← h1,
        applyChange_sets_summary a _ kvs it hit rfl htr]

/-- With a falsy candidate summary, the fold keeps the working copy's
summary no matter the decisions. -/
theorem foldl_summary_falsy (a : JSValue) (items : List ChangeItem)
    (hfal : truthy (getProp a "summary") = false) :
    ∀ kvs : List (String × JSValue),
      getProp (items.foldl (applyChange a (fun _ => true)) (.vobj kvs)) "summary" =
        getProp (.vobj kvs) "summary" := by
  induction items with
  | nil => exact fun kvs => rfl
  | cons it rest ih =>
    intro kvs
    obtain ⟨kvs1, h1⟩ := applyChange_vobj a (fun _ => true) kvs it
    rw [List.foldl_cons, h1, ih kvs1, ← h1]
    exact applyChange_summary_falsy a _ kvs it hfal

theorem getD_set_ne {α : Type} (l : List α) (i j : Nat) (v d : α) (h : i ≠ j) :
    (l.set i v).getD j d = l.getD j d := by
  rw [List.getD_eq_getElem?_getD, List.getD_eq_getElem?_getD, List.getElem?_set_ne h]

theorem getD_set_self {α : Type} (l : List α) (i : Nat) (v d : α) (h : i < l.length) :
    (l.set i v).getD i d = v := by
  rw [List.getD_eq_getElem?_getD, List.getElem?_set_self h]
  rfl

theorem getD_mem {α : Type} (l : List α) (i : Nat) (d : α) (h : i < l.length) :
    l.getD i d ∈ l := by
  rw [List.getD_eq_getElem?_getD, List.getElem?_eq_getElem h]
  exact List.getElem_mem h

theorem pad_length {α : Type} (cur : List α) (j : Nat) (x : α) :
    j < (cur ++ List.replicate (j + 1 - cur.length) x).length := by
  rw [List.length_append, List.length_replicate]
  omega

theorem findIdx?_none_filter_nil {α : Type} (p : α → Bool) (l : List α)
    (h : l.findIdx? p = none) : l.filter p = [] := by
  rw [List.filter_eq_nil_iff]
  intro a ha
  simp [(List.findIdx?_eq_none_iff.mp h) a ha]

theorem filter_set_of_not {α : Type} (p : α → Bool) :
    ∀ (l : List α) (k : Nat) (v : α),
      (∀ x, l[k]? = some x → p x = false) → p v = false →
      (l.set k v).filter p = l.filter p := by
  intro l
  induction l with
  | nil => intro k v _ _; rfl
  | cons x xs ih =>
    intro k v h1 h2
    cases k with
    | zero =>
      have hx : p x = false := h1 x (by rw [List.getElem?_cons_zero])
      rw [List.set_cons_zero, List.filter_cons, List.filter_cons, hx, h2]
      simp
    | succ k =>
      rw [List.set_cons_succ, List.filter_cons, List.filter_cons,
        ih k v (fun y hy => h1 y (by rwa [List.getElem?_cons_succ])) h2]

theorem filter_eraseIdx_of_not {α : Type} (p : α → Bool) :
    ∀ (l : List α) (k : Nat),
      (∀ x, l[k]? = some x → p x = false) →
      (l.eraseIdx k).filter p = l.filter p := by
  intro l
  induction l with
  | nil => intro k _; rfl
  | cons x xs ih =>
    intro k h1
    cases k with
    | zero =>
      have hx : p x = false := h1 x (by rw [List.getElem?_cons_zero])
      rw [List.eraseIdx_cons_zero, List.filter_cons, hx]
      simp
    | succ k =>
      rw [List.eraseIdx_cons_succ, List.filter_cons, List.filter_cons,
        ih k (fun y hy => h1 y (by rwa [List.getElem?_cons_succ]))]

theorem filter_set_first {α : Type} (p : α → Bool) :
    ∀ (l : List α) (k : Nat) (v a : α),
      l[k]? = some a → p a = true →
      (∀ j, j < k → ∀ b, l[j]? = some b → p b = false) →
      (l.filter p).length ≤ 1 → p v = true →
      (l.set k v).filter p = [v] := by
  intro l
  induction l with
  | nil =>
    intro k v a ha _ _ _ _
    rw [List.getElem?_nil] at ha
    exact Option.noConfusion ha
  | cons x xs ih =>
    intro k v a ha hpa hprev hlen hv
    cases k with
    | zero =>
      rw [List.getElem?_cons_zero, Option.some.injEq] at ha
      rw [List.set_cons_zero, List.filter_cons, if_pos hv]
      rw [List.filter_cons, ha, if_pos hpa, List.length_cons] at hlen
      have hnil : xs.filter p = [] := by
        cases hfx : xs.filter p with
        | nil => rfl
        | cons y ys =>
          rw [hfx] at hlen
          simp at hlen
      rw [hnil]
    | succ k =>
      have hx : p x = false := hprev 0 (Nat.succ_pos k) x (by rw [List.getElem?_cons_zero])
      rw [List.getElem?_cons_succ] at ha
      rw [List.set_cons_succ, List.filter_cons, hx]
      simp only [Bool.false_eq_true, if_false]
      rw [List.filter_cons, hx] at hlen
      simp only [Bool.false_eq_true, if_false] at hlen
      exact ih k v a ha hpa
        (fun j hj b hb => hprev (j + 1) (Nat.succ_lt_succ hj) b
          (by rwa [List.getElem?_cons_succ]))
        hlen hv

theorem filter_erase_first {α : Type} (p : α → Bool) :
    ∀ (l : List α) (k : Nat) (a : α),
      l[k]? = some a → p a = true →
      (∀ j, j < k → ∀ b, l[j]? = some b → p b = false) →
      (l.filter p).length ≤ 1 →
      (l.eraseIdx k).filter p = [] := by
  intro l
  induction l with
  | nil =>
    intro k a ha _ _ _
    rw [List.getElem?_nil] at ha
    exact Option.noConfusion ha
  | cons x xs ih =>
    intro k a ha hpa hprev hlen
    cases k with
    | zero =>
      rw [List.getElem?_cons_zero, Option.some.injEq] at ha
      rw [List.filter_cons, ha, if_pos hpa, List.length_cons] at hlen
      rw [List.eraseIdx_cons_zero]
      cases hfx : xs.filter p with
      | nil => rfl
      | cons y ys =>
        rw [hfx] at hlen
        simp at hlen
    | succ k =>
      have hx : p x = false := hprev 0 (Nat.succ_pos k) x (by rw [List.getElem?_cons_zero])
      rw [List.getElem?_cons_succ] at ha
      rw [List.filter_cons, hx] at hlen
      simp only [Bool.false_eq_true, if_false] at hlen
      rw [List.eraseIdx_cons_succ, List.filter_cons, hx]
      simp only [Bool.false_eq_true, if_false]
      exact ih k a ha hpa
        (fun j hj b hb => hprev (j + 1) (Nat.succ_lt_succ hj) b
          (by rwa [List.getElem?_cons_succ]))
        hlen

theorem cloneResume_skills (o : JSValue) :
    getProp (cloneResume o) "skills" = .varr (toArrD (getProp o "skills")) := by
  simp only [cloneResume]
  rw [getProp_objSet_ne _ _ _ _ (by decide), getProp_objSet_ne _ _ _ _ (by decide),
    getProp_objSet_ne _ _ _ _ (by decide), getProp_objSet_ne _ _ _ _ (by decide),
    getProp_objSet_self]
  cases getProp o "skills" <;> rfl

theorem cloneResume_experience (o : JSValue) :
    getProp (cloneResume o) "experience" = .varr (cloneJobs (getProp o "experience")) := by
  simp only [cloneResume]
  rw [getProp_objSet_ne _ _ _ _ (by decide), getProp_objSet_ne _ _ _ _ (by decide),
    getProp_objSet_ne _ _ _ _ (by decide), getProp_objSet_self]

theorem cloneResume_projects (o : JSValue) :
    getProp (cloneResume o) "projects" = .varr (cloneJobs (getProp o "projects")) := by
  simp only [cloneResume]
  rw [getProp_objSet_ne _ _ _ _ (by decide), getProp_objSet_ne _ _ _ _ (by decide),
    getProp_objSet_self]

theorem cloneJobs_vobj (v : JSValue) :
    ∀ job ∈ cloneJobs v, ∃ kvs, job = .vobj kvs := by
  intro job hj
  cases v with
  | varr xs =>
    rcases List.mem_map.mp hj with ⟨x, -, hx⟩
    exact ⟨_, hx.symm⟩
  | vundef => cases hj
  | vnull => cases hj
  | vbool b => cases hj
  | vnum n => cases hj
  | vstr s => cases hj
  | vobj kvs => cases hj

/-- The removal path of the skill branch: with at most one entry at the id,
the spliced (or untouched) skills list has no entry with that id. -/
theorem skills_erase_filter_nil (kvs : List (String × JSValue)) (X : JSValue)
    (hK : ((toArrD (getProp (JSValue.vobj kvs) "skills")).filter
      (fun v => skillIdExpr v = X)).length ≤ 1) :
    ((toArrD (getProp (match (toArrD (getProp (JSValue.vobj kvs) "skills")).findIdx?
        (fun v => skillIdExpr v = X) with
      | some k => setProp (JSValue.vobj kvs) "skills"
          (JSValue.varr ((toArrD (getProp (JSValue.vobj kvs) "skills")).eraseIdx k))
      | none => JSValue.vobj kvs) "skills")).filter
      (fun v => skillIdExpr v = X)) = [] := by
  rcases hI : (toArrD (getProp (JSValue.vobj kvs) "skills")).findIdx?
      (fun v => skillIdExpr v = X) with _ | k
  · dsimp only
    exact findIdx?_none_filter_nil _ _ hI
  · dsimp only
    rw [setProp_vobj, getProp_objSet_self]
    obtain ⟨hk, hpk, hprev⟩ := List.findIdx?_eq_some_iff_getElem.mp hI
    refine filter_erase_first _ _ k _ (List.getElem?_eq_getElem hk) hpk ?_ hK
    intro j hj b hb
    have hjl : j < (toArrD (getProp (JSValue.vobj kvs) "skills")).length :=
      Nat.lt_trans hj hk
    rw [List.getElem?_eq_getElem hjl, Option.some.injEq] at hb
    have hnp := hprev j hj
    rw [Bool.not_eq_true] at hnp
    rw [← hb]
    exact hnp

/-- One accepted skill item for id `X` sets the entries at that id to the
candidate's lookup outcome: the candidate entry when it is a non-empty
object, none otherwise (removal), provided at most one entry held the id. -/
theorem applyChange_skill_target (c : JSValue) (kvs : List (String × JSValue))
    (it : ChangeItem) (X : JSValue)
    (hct : it.ctype = ChangeType.skill) (hX : it.skillId = X)
    (hK : ((toArrD (getProp (JSValue.vobj kvs) "skills")).filter
      (fun v => skillIdExpr v = X)).length ≤ 1) :
    ((toArrD (getProp (applyChange c (fun _ => true) (.vobj kvs) it) "skills")).filter
      (fun v => skillIdExpr v = X)) =
    (match analysisSkillAt c X with
      | some e => if isObjLike e ∧ (objKeys e).isEmpty = false then [e] else []
      | none => []) := by
  rw [applyChange, if_neg (fun hc => hc rfl), hct]
  dsimp only
  rw [hX]
  simp only [analysisSkillAt]
  rcases hcs : getProp c "skills" with _ | _ | b | n | str | xs | kvs2
  · dsimp only
    exact skills_erase_filter_nil kvs X hK
  · dsimp only
    exact skills_erase_filter_nil kvs X hK
  · dsimp only
    exact skills_erase_filter_nil kvs X hK
  · dsimp only
    exact skills_erase_filter_nil kvs X hK
  · dsimp only
    exact skills_erase_filter_nil kvs X hK
  · dsimp only
    rcases hA : xs.find? (fun v => skillIdExpr v = X) with _ | e
    · dsimp only
      exact skills_erase_filter_nil kvs X hK
    · dsimp only
      have hQe : skillIdExpr e = X := by
        have hp := List.find?_some hA
        rwa [decide_eq_true_eq] at hp
      by_cases hgood : isObjLike e = true ∧ (objKeys e).isEmpty = false
      · rw [if_pos hgood, if_pos hgood]
        rcases hI : (toArrD (getProp (JSValue.vobj kvs) "skills")).findIdx?
            (fun v => skillIdExpr v = X) with _ | k
        · dsimp only
          rw [setProp_vobj, getProp_objSet_self]
          have hnil := findIdx?_none_filter_nil _ _ hI
          simp only [toArrD] at hnil ⊢
          rw [List.filter_append, hnil, List.nil_append]
          simp [List.filter_cons, hQe]
        · dsimp only
          rw [setProp_vobj, getProp_objSet_self]
          obtain ⟨hk, hpk, hprev⟩ := List.findIdx?_eq_some_iff_getElem.mp hI
          refine filter_set_first _ _ k e _ (List.getElem?_eq_getElem hk) hpk ?_ hK
            (decide_eq_true hQe)
          intro j hj b hb
          have hjl : j < (toArrD (getProp (JSValue.vobj kvs) "skills")).length :=
            Nat.lt_trans hj hk
          rw [List.getElem?_eq_getElem hjl, Option.some.injEq] at hb
          have hnp := hprev j hj
          rw [Bool.not_eq_true] at hnp
          rw [← hb]
          exact hnp
      · rw [if_neg hgood, if_neg hgood]
        exact skills_erase_filter_nil kvs X hK
  · dsimp only
    exact skills_erase_filter_nil kvs X hK

/-- The id-`Y` removal/untouched path leaves the entries at a different id
`X` unchanged. -/
theorem skills_erase_filter_frame (kvs : List (String × JSValue)) (X Y : JSValue)
    (hXY : Y ≠ X) :
    ((toArrD (getProp (match (toArrD (getProp (JSValue.vobj kvs) "skills")).findIdx?
        (fun v => skillIdExpr v = Y) with
      | some k => setProp (JSValue.vobj kvs) "skills"
          (JSValue.varr ((toArrD (getProp (JSValue.vobj kvs) "skills")).eraseIdx k))
      | none => JSValue.vobj kvs) "skills")).filter
      (fun v => skillIdExpr v = X)) =
    (toArrD (getProp (JSValue.vobj kvs) "skills")).filter
      (fun v => skillIdExpr v = X) := by
  rcases hI : (toArrD (getProp (JSValue.vobj kvs) "skills")).findIdx?
      (fun v => skillIdExpr v = Y) with _ | k
  · dsimp only
  · dsimp only
    rw [setProp_vobj, getProp_objSet_self]
    obtain ⟨hk, hpk, -⟩ := List.findIdx?_eq_some_iff_getElem.mp hI
    refine filter_eraseIdx_of_not _ _ k ?_
    intro x hx
    rw [List.getElem?_eq_getElem hk, Option.some.injEq] at hx
    rw [decide_eq_true_eq] at hpk
    refine decide_eq_false (fun hc => hXY ?_)
    rw [← hpk, hx, hc]

/-- A non-covering item leaves the entries at id `X` unchanged. -/
theorem applyChange_skill_filter_frame (c : JSValue) (kvs : List (String × JSValue))
    (it : ChangeItem) (X : JSValue)
    (hnc : ¬ (it.ctype = ChangeType.skill ∧ it.skillId = X)) :
    ((toArrD (getProp (applyChange c (fun _ => true) (.vobj kvs) it) "skills")).filter
      (fun v => skillIdExpr v = X)) =
    (toArrD (getProp (JSValue.vobj kvs) "skills")).filter
      (fun v => skillIdExpr v = X) := by
  rw [applyChange, if_neg (fun hc => hc rfl)]
  cases hct : it.ctype
  · dsimp only
    rw [getProp_setProp_ne _ _ _ _ (by decide)]
  · dsimp only
    have hXY : it.skillId ≠ X := fun hc => hnc ⟨hct, hc⟩
    rcases hcs : getProp c "skills" with _ | _ | b | n | str | xs | kvs2
    · dsimp only
      exact skills_erase_filter_frame kvs X it.skillId hXY
    · dsimp only
      exact skills_erase_filter_frame kvs X it.skillId hXY
    · dsimp only
      exact skills_erase_filter_frame kvs X it.skillId hXY
    · dsimp only
      exact skills_erase_filter_frame kvs X it.skillId hXY
    · dsimp only
      exact skills_erase_filter_frame kvs X it.skillId hXY
    · dsimp only
      rcases hA : xs.find? (fun v => skillIdExpr v = it.skillId) with _ | e
      · dsimp only
        exact skills_erase_filter_frame kvs X it.skillId hXY
      · dsimp only
        have hQe : skillIdExpr e = it.skillId := by
          have hp := List.find?_some hA
          rwa [decide_eq_true_eq] at hp
        have hQeX : (fun v => decide (skillIdExpr v = X)) e = false := by
          refine decide_eq_false (fun hc => hXY ?_)
          rw [← hQe, hc]
        by_cases hgood : isObjLike e = true ∧ (objKeys e).isEmpty = false
        · rw [if_pos hgood]
          rcases hI : (toArrD (getProp (JSValue.vobj kvs) "skills")).findIdx?
              (fun v => skillIdExpr v = it.skillId) with _ | k
          · dsimp only
            rw [setProp_vobj, getProp_objSet_self]
            simp only [toArrD]
            rw [List.filter_append]
            simp only [List.filter_cons, List.filter_nil, hQeX]
            simp
          · dsimp only
            rw [setProp_vobj, getProp_objSet_self]
            obtain ⟨hk, hpk, -⟩ := List.findIdx?_eq_some_iff_getElem.mp hI
            refine filter_set_of_not _ _ k e ?_ hQeX
            intro x hx
            rw [List.getElem?_eq_getElem hk, Option.some.injEq] at hx
            rw [decide_eq_true_eq] at hpk
            refine decide_eq_false (fun hc => hXY ?_)
            rw [← hpk, hx, hc]
        · rw [if_neg hgood]
          exact skills_erase_filter_frame kvs X it.skillId hXY
    · dsimp only
      exact skills_erase_filter_frame kvs X it.skillId hXY
  · dsimp only
    rw [applyPointChange_frame c "experience" _ it _ (by decide)]
  · dsimp only
    rw [applyPointChange_frame c "projects" _ it _ (by decide)]

theorem skill_target_length (c X : JSValue) :
    (match analysisSkillAt c X with
      | some e => if isObjLike e ∧ (objKeys e).isEmpty = false then [e] else []
      | none => ([] : List JSValue)).length ≤ 1 := by
  rcases analysisSkillAt c X with _ | e
  · exact Nat.zero_le 1
  · dsimp only
    split
    · exact Nat.le_refl 1
    · exact Nat.zero_le 1

theorem foldl_skill_filter_frame (c : JSValue) (items : List ChangeItem) (X : JSValue)
    (h : ∀ u ∈ items, ¬ (u.ctype = ChangeType.skill ∧ u.skillId = X)) :
    ∀ kvs : List (String × JSValue),
      ((toArrD (getProp (items.foldl (applyChange c (fun _ => true)) (.vobj kvs))
        "skills")).filter (fun v => skillIdExpr v = X)) =
      (toArrD (getProp (JSValue.vobj kvs) "skills")).filter
        (fun v => skillIdExpr v = X) := by
  induction items with
  | nil => exact fun kvs => rfl
  | cons it rest ih =>
    intro kvs
    obtain ⟨kvs1, h1⟩ := applyChange_vobj c (fun _ => true) kvs it
    rw [List.foldl_cons, h1, ih (fun u hu => h u (List.mem_cons_of_mem _ hu)) kvs1,
      ← h1, applyChange_skill_filter_frame c kvs it X (h it (List.mem_cons_self _ _))]

theorem foldl_skill_exact (c : JSValue) (items : List ChangeItem) (X : JSValue) :
    ∀ kvs : List (String × JSValue),
      (∃ it ∈ items, it.ctype = ChangeType.skill ∧ it.skillId = X) →
      ((toArrD (getProp (JSValue.vobj kvs) "skills")).filter
        (fun v => skillIdExpr v = X)).length ≤ 1 →
      ((toArrD (getProp (items.foldl (applyChange c (fun _ => true)) (.vobj kvs))
        "skills")).filter (fun v => skillIdExpr v = X)) =
      (match analysisSkillAt c X with
        | some e => if isObjLike e ∧ (objKeys e).isEmpty = false then [e] else []
        | none => []) := by
  induction items with
  | nil =>
    rintro kvs ⟨it, hmem, -⟩
    cases hmem
  | cons it rest ih =>
    rintro kvs ⟨it', hmem, hsk, hX⟩ hK
    rw [List.foldl_cons]
    obtain ⟨kvs1, h1⟩ := applyChange_vobj c (fun _ => true) kvs it
    by_cases hrest : ∃ u ∈ rest, u.ctype = ChangeType.skill ∧ u.skillId = X
    · rw [h1]
      refine ih kvs1 hrest ?_
      rw [← h1]
      by_cases hcov : it.ctype = ChangeType.skill ∧ it.skillId = X
      · rw [applyChange_skill_target c kvs it X hcov.1 hcov.2 hK]
        exact skill_target_length c X
      · rw [applyChange_skill_filter_frame c kvs it X hcov]
        exact hK
    · have hit : it.ctype = ChangeType.skill ∧ it.skillId = X := by
        rcases List.mem_cons.mp hmem with he | hm
        · rw [← he]
          exact ⟨hsk, hX⟩
        · exact absurd ⟨it', hm, hsk, hX⟩ hrest
      rw [h1, foldl_skill_filter_frame c rest X
        (fun u hu hc => hrest ⟨u, hu, hc⟩) kvs1, ← h1,
        applyChange_skill_target c kvs it X hit.1 hit.2 hK]

theorem getD_pad_cases {α : Type} (cur : List α) (n : Nat) (x : α) (i : Nat) (d : α) :
    (cur ++ List.replicate n x).getD i d = cur.getD i d ∨
    (cur ++ List.replicate n x).getD i d = x ∨
    ((cur ++ List.replicate n x).getD i d = d ∧ cur.getD i d = d) := by
  by_cases h1 : i < cur.length
  · exact Or.inl (List.getD_append cur _ d i h1)
  · rw [not_lt] at h1
    by_cases h2 : i < cur.length + n
    · refine Or.inr (Or.inl ?_)
      rw [List.getD_eq_getElem?_getD, List.getElem?_append_right h1,
        List.getElem?_replicate, if_pos (by omega)]
      rfl
    · refine Or.inr (Or.inr ⟨?_, List.getD_eq_default _ _ h1⟩)
      exact List.getD_eq_default _ _ (by rw [List.length_append, List.length_replicate]; omega)

theorem synth_points (AJ : JSValue) :
    toArrD (getProp (JSValue.vobj (objSet (spreadIntoObj AJ) "points"
      (.varr []))) "points") = [] := by
  rw [getProp_objSet_self]
  rfl

theorem getPointId_self (ap : JSValue) (pid : String) (h : getPointId ap "" = pid) :
    getPointId ap pid = pid := by
  by_cases ho : isObjLike ap = true
  · rw [getPointId, if_pos ho] at h ⊢
    rcases hid : getProp ap "id" with _ | _ | b | n | s | xs | kv
    · rw [hid] at h
    · rw [hid] at h
    · rw [hid] at h
    · rw [hid] at h
    · rw [hid] at h
      dsimp only at h ⊢
      by_cases hs : s ≠ ""
      · rw [if_pos hs] at h ⊢
        exact h
      · rw [if_neg hs]
    · rw [hid] at h
    · rw [hid] at h
  · rw [getPointId, if_neg ho]

theorem nextPointOf_id (ap : JSValue) (pid : String) (h : getPointId ap "" = pid) :
    getPointId (nextPointOf ap pid) "" = pid := by
  rw [nextPointOf, getPointId_self ap pid h]
  show (if pid ≠ "" then pid else "") = pid
  by_cases hp : pid ≠ ""
  · rw [if_pos hp]
  · rw [if_neg hp]
    rw [not_not] at hp
    rw [hp]

theorem toArrD_varr (l : List JSValue) : toArrD (.varr l) = l := rfl

theorem applyPointChange_skip (c : JSValue) (sk : String) (d : JSValue) (it : ChangeItem)
    (hTJ : truthy (getProp (getProp c sk) (toString it.idx)) = false) :
    applyPointChange c sk d it = d := by
  rw [applyPointChange, if_pos (show ¬ truthy (getProp (getProp c sk)
    (toString it.idx)) = true by rw [hTJ]; exact fun hc => Bool.noConfusion hc)]

theorem applyPointChange_noneF_eq (c : JSValue) (sk : String)
    (kvs : List (String × JSValue)) (it : ChangeItem)
    (hTJ : truthy (getProp (getProp c sk) (toString it.idx)) = true)
    (hF : ((toArrD (getProp (getProp (getProp c sk) (toString it.idx)) "points")).find? (fun p => getPointId p "" = it.pointId)) = none) :
    applyPointChange c sk (.vobj kvs) it =
      setProp (.vobj kvs) sk (.varr (((toArrD (getProp (JSValue.vobj kvs) sk)) ++ List.replicate (it.idx + 1 - (toArrD (getProp (JSValue.vobj kvs) sk)).length) (JSValue.vobj (objSet (spreadIntoObj (getProp (getProp c sk) (toString it.idx))) "points" (.varr [])))).set it.idx (setProp (((toArrD (getProp (JSValue.vobj kvs) sk)) ++ List.replicate (it.idx + 1 - (toArrD (getProp (JSValue.vobj kvs) sk)).length) (JSValue.vobj (objSet (spreadIntoObj (getProp (getProp c sk) (toString it.idx))) "points" (.varr [])))).getD it.idx .vundef) "points" (.varr (toArrD (getProp (((toArrD (getProp (JSValue.vobj kvs) sk)) ++ List.replicate (it.idx + 1 - (toArrD (getProp (JSValue.vobj kvs) sk)).length) (JSValue.vobj (objSet (spreadIntoObj (getProp (getProp c sk) (toString it.idx))) "points" (.varr [])))).getD it.idx .vundef) "points")))))) := by
  simp only [applyPointChange]
  rw [if_neg (fun hc => hc hTJ), hF]

theorem applyPointChange_someF_someI_eq (c : JSValue) (sk : String)
    (kvs : List (String × JSValue)) (it : ChangeItem) (ap : JSValue) (k : Nat)
    (hTJ : truthy (getProp (getProp c sk) (toString it.idx)) = true)
    (hF : ((toArrD (getProp (getProp (getProp c sk) (toString it.idx)) "points")).find? (fun p => getPointId p "" = it.pointId)) = some ap)
    (hI : ((toArrD (getProp (((toArrD (getProp (JSValue.vobj kvs) sk)) ++ List.replicate (it.idx + 1 - (toArrD (getProp (JSValue.vobj kvs) sk)).length) (JSValue.vobj (objSet (spreadIntoObj (getProp (getProp c sk) (toString it.idx))) "points" (.varr [])))).getD it.idx .vundef) "points")).findIdx? (fun p => getPointId p "" = it.pointId)) = some k) :
    applyPointChange c sk (.vobj kvs) it =
      setProp (.vobj kvs) sk (.varr ((((toArrD (getProp (JSValue.vobj kvs) sk)) ++ List.replicate (it.idx + 1 - (toArrD (getProp (JSValue.vobj kvs) sk)).length) (JSValue.vobj (objSet (spreadIntoObj (getProp (getProp c sk) (toString it.idx))) "points" (.varr [])))).set it.idx (setProp (((toArrD (getProp (JSValue.vobj kvs) sk)) ++ List.replicate (it.idx + 1 - (toArrD (getProp (JSValue.vobj kvs) sk)).length) (JSValue.vobj (objSet (spreadIntoObj (getProp (getProp c sk) (toString it.idx))) "points" (.varr [])))).getD it.idx .vundef) "points" (.varr (toArrD (getProp (((toArrD (getProp (JSValue.vobj kvs) sk)) ++ List.replicate (it.idx + 1 - (toArrD (getProp (JSValue.vobj kvs) sk)).length) (JSValue.vobj (objSet (spreadIntoObj (getProp (getProp c sk) (toString it.idx))) "points" (.varr [])))).getD it.idx .vundef) "points"))))).set it.idx
        (setProp (setProp (((toArrD (getProp (JSValue.vobj kvs) sk)) ++ List.replicate (it.idx + 1 - (toArrD (getProp (JSValue.vobj kvs) sk)).length) (JSValue.vobj (objSet (spreadIntoObj (getProp (getProp c sk) (toString it.idx))) "points" (.varr [])))).getD it.idx .vundef) "points" (.varr (toArrD (getProp (((toArrD (getProp (JSValue.vobj kvs) sk)) ++ List.replicate (it.idx + 1 - (toArrD (getProp (JSValue.vobj kvs) sk)).length) (JSValue.vobj (objSet (spreadIntoObj (getProp (getProp c sk) (toString it.idx))) "points" (.varr [])))).getD it.idx .vundef) "points")))) "points" (.varr ((toArrD (getProp (((toArrD (getProp (JSValue.vobj kvs) sk)) ++ List.replicate (it.idx + 1 - (toArrD (getProp (JSValue.vobj kvs) sk)).length) (JSValue.vobj (objSet (spreadIntoObj (getProp (getProp c sk) (toString it.idx))) "points" (.varr [])))).getD it.idx .vundef) "points")).set k (nextPointOf ap it.pointId)))))) := by
  simp only [applyPointChange]
  rw [if_neg (fun hc => hc hTJ), hF]
  dsimp only
  rw [hI]
  rfl

theorem applyPointChange_someF_noneI_eq (c : JSValue) (sk : String)
    (kvs : List (String × JSValue)) (it : ChangeItem) (ap : JSValue)
    (hTJ : truthy (getProp (getProp c sk) (toString it.idx)) = true)
    (hF : ((toArrD (getProp (getProp (getProp c sk) (toString it.idx)) "points")).find? (fun p => getPointId p "" = it.pointId)) = some ap)
    (hI : ((toArrD (getProp (((toArrD (getProp (JSValue.vobj kvs) sk)) ++ List.replicate (it.idx + 1 - (toArrD (getProp (JSValue.vobj kvs) sk)).length) (JSValue.vobj (objSet (spreadIntoObj (getProp (getProp c sk) (toString it.idx))) "points" (.varr [])))).getD it.idx .vundef) "points")).findIdx? (fun p => getPointId p "" = it.pointId)) = none) :
    applyPointChange c sk (.vobj kvs) it =
      setProp (.vobj kvs) sk (.varr ((((toArrD (getProp (JSValue.vobj kvs) sk)) ++ List.replicate (it.idx + 1 - (toArrD (getProp (JSValue.vobj kvs) sk)).length) (JSValue.vobj (objSet (spreadIntoObj (getProp (getProp c sk) (toString it.idx))) "points" (.varr [])))).set it.idx (setProp (((toArrD (getProp (JSValue.vobj kvs) sk)) ++ List.replicate (it.idx + 1 - (toArrD (getProp (JSValue.vobj kvs) sk)).length) (JSValue.vobj (objSet (spreadIntoObj (getProp (getProp c sk) (toString it.idx))) "points" (.varr [])))).getD it.idx .vundef) "points" (.varr (toArrD (getProp (((toArrD (getProp (JSValue.vobj kvs) sk)) ++ List.replicate (it.idx + 1 - (toArrD (getProp (JSValue.vobj kvs) sk)).length) (JSValue.vobj (objSet (spreadIntoObj (getProp (getProp c sk) (toString it.idx))) "points" (.varr [])))).getD it.idx .vundef) "points"))))).set it.idx
        (setProp (setProp (((toArrD (getProp (JSValue.vobj kvs) sk)) ++ List.replicate (it.idx + 1 - (toArrD (getProp (JSValue.vobj kvs) sk)).length) (JSValue.vobj (objSet (spreadIntoObj (getProp (getProp c sk) (toString it.idx))) "points" (.varr [])))).getD it.idx .vundef) "points" (.varr (toArrD (getProp (((toArrD (getProp (JSValue.vobj kvs) sk)) ++ List.replicate (it.idx + 1 - (toArrD (getProp (JSValue.vobj kvs) sk)).length) (JSValue.vobj (objSet (spreadIntoObj (getProp (getProp c sk) (toString it.idx))) "points" (.varr [])))).getD it.idx .vundef) "points")))) "points" (.varr ((toArrD (getProp (((toArrD (getProp (JSValue.vobj kvs) sk)) ++ List.replicate (it.idx + 1 - (toArrD (getProp (JSValue.vobj kvs) sk)).length) (JSValue.vobj (objSet (spreadIntoObj (getProp (getProp c sk) (toString it.idx))) "points" (.varr [])))).getD it.idx .vundef) "points")) ++ [nextPointOf ap it.pointId]))))) := by
  simp only [applyPointChange]
  rw [if_neg (fun hc => hc hTJ), hF]
  dsimp only
  rw [hI]
  rfl

theorem pad_all_vobj (c : JSValue) (sk : String) (kvs : List (String × JSValue))
    (it : ChangeItem)
    (hall : ∀ job ∈ toArrD (getProp (JSValue.vobj kvs) sk), ∃ kv, job = JSValue.vobj kv) :
    ∀ job ∈ ((toArrD (getProp (JSValue.vobj kvs) sk)) ++ List.replicate (it.idx + 1 - (toArrD (getProp (JSValue.vobj kvs) sk)).length) (JSValue.vobj (objSet (spreadIntoObj (getProp (getProp c sk) (toString it.idx))) "points" (.varr [])))), ∃ kv, job = JSValue.vobj kv := by
  intro job hj
  rcases List.mem_append.mp hj with hc | hr
  · exact hall job hc
  · rw [List.eq_of_mem_replicate hr]
    exact ⟨_, rfl⟩

theorem pad_getD_vobj (c : JSValue) (sk : String) (kvs : List (String × JSValue))
    (it : ChangeItem)
    (hall : ∀ job ∈ toArrD (getProp (JSValue.vobj kvs) sk), ∃ kv, job = JSValue.vobj kv) :
    ∃ kv, ((toArrD (getProp (JSValue.vobj kvs) sk)) ++ List.replicate (it.idx + 1 - (toArrD (getProp (JSValue.vobj kvs) sk)).length) (JSValue.vobj (objSet (spreadIntoObj (getProp (getProp c sk) (toString it.idx))) "points" (.varr [])))).getD it.idx .vundef = JSValue.vobj kv :=
  pad_all_vobj c sk kvs it hall _ (getD_mem _ _ _ (pad_length _ _ _))

theorem filter_singleton_le {α : Type} (p : α → Bool) (x : α) :
    (List.filter p [x]).length ≤ 1 := by
  rw [List.filter_cons]
  by_cases hx : p x = true
  · rw [if_pos hx]
    exact Nat.le_refl 1
  · rw [if_neg hx]
    exact Nat.zero_le 1

theorem filter_singleton_neg {α : Type} (p : α → Bool) (x : α) (h : p x = false) :
    List.filter p [x] = [] := by
  rw [List.filter_cons, h]
  rfl

theorem filter_singleton_pos {α : Type} (p : α → Bool) (x : α) (h : p x = true) :
    List.filter p [x] = [x] := by
  rw [List.filter_cons, if_pos h]
  rfl

theorem pad_points_filter_le (c : JSValue) (sk : String) (kvs : List (String × JSValue))
    (it : ChangeItem) (j : Nat) (pid : String)
    (hft : ((toArrD (getProp ((toArrD (getProp (JSValue.vobj kvs) sk)).getD j .vundef) "points")).filter
      (fun p => getPointId p "" = pid)).length ≤ 1) :
    ((toArrD (getProp (((toArrD (getProp (JSValue.vobj kvs) sk)) ++ List.replicate (it.idx + 1 - (toArrD (getProp (JSValue.vobj kvs) sk)).length) (JSValue.vobj (objSet (spreadIntoObj (getProp (getProp c sk) (toString it.idx))) "points" (.varr [])))).getD j .vundef) "points")).filter
      (fun p => getPointId p "" = pid)).length ≤ 1 := by
  rcases getD_pad_cases (toArrD (getProp (JSValue.vobj kvs) sk)) (it.idx + 1 - (toArrD (getProp (JSValue.vobj kvs) sk)).length) (JSValue.vobj (objSet (spreadIntoObj (getProp (getProp c sk) (toString it.idx))) "points" (.varr []))) j .vundef with hpc | hpc | ⟨hpc, -⟩
  · rw [hpc]
    exact hft
  · rw [hpc, synth_points]
    exact Nat.zero_le 1
  · rw [hpc]
    exact Nat.zero_le 1

/-- Any point change preserves the all-object shape of a section and the
at-most-one bound on entries at a fixed (job, point id) slot. -/
theorem applyPointChange_J (c : JSValue) (sk : String) (j : Nat) (pid : String)
    (kvs : List (String × JSValue)) (it : ChangeItem)
    (hall : ∀ job ∈ toArrD (getProp (JSValue.vobj kvs) sk), ∃ kv, job = JSValue.vobj kv)
    (hft : ((sectionPoints (JSValue.vobj kvs) sk j).filter
      (fun p => getPointId p "" = pid)).length ≤ 1) :
    (∀ job ∈ toArrD (getProp (applyPointChange c sk (JSValue.vobj kvs) it) sk),
      ∃ kv, job = JSValue.vobj kv) ∧
    ((sectionPoints (applyPointChange c sk (JSValue.vobj kvs) it) sk j).filter
      (fun p => getPointId p "" = pid)).length ≤ 1 := by
  rw [sectionPoints, sectionJob] at hft
  cases hTJ : truthy (getProp (getProp c sk) (toString it.idx)) with
  | false =>
    rw [applyPointChange_skip c sk _ it hTJ]
    refine ⟨hall, ?_⟩
    rw [sectionPoints, sectionJob]
    exact hft
  | true =>
    obtain ⟨kv0, hkv0⟩ := pad_getD_vobj c sk kvs it hall
    have hallP := pad_all_vobj c sk kvs it hall
    rcases hF : ((toArrD (getProp (getProp (getProp c sk) (toString it.idx)) "points")).find? (fun p => getPointId p "" = it.pointId)) with _ | ap2
    · rw [applyPointChange_noneF_eq c sk kvs it hTJ hF]
      constructor
      · intro job hj
        rw [setProp_vobj, getProp_objSet_self, toArrD_varr] at hj
        rcases List.mem_or_eq_of_mem_set hj with hm | he
        · exact hallP job hm
        · rw [he, hkv0, setProp_vobj]
          exact ⟨_, rfl⟩
      · rw [sectionPoints, sectionJob, setProp_vobj, getProp_objSet_self, toArrD_varr]
        by_cases hij : it.idx = j
        · subst hij
          have hbk : (((toArrD (getProp (JSValue.vobj kv0) "points"))).filter (fun p => getPointId p "" = pid)).length ≤ 1 := by
            rw [← hkv0]
            exact pad_points_filter_le c sk kvs it it.idx pid hft
          rw [getD_set_self _ _ _ _ (pad_length _ _ _), hkv0, setProp_vobj,
            getProp_objSet_self, toArrD_varr]
          exact hbk
        · rw [getD_set_ne _ _ _ _ _ hij]
          exact pad_points_filter_le c sk kvs it j pid hft
    · have hap2 : getPointId ap2 "" = it.pointId := by
        have hp := List.find?_some hF
        rwa [decide_eq_true_eq] at hp
      rcases hI2 : ((toArrD (getProp (((toArrD (getProp (JSValue.vobj kvs) sk)) ++ List.replicate (it.idx + 1 - (toArrD (getProp (JSValue.vobj kvs) sk)).length) (JSValue.vobj (objSet (spreadIntoObj (getProp (getProp c sk) (toString it.idx))) "points" (.varr [])))).getD it.idx .vundef) "points")).findIdx? (fun p => getPointId p "" = it.pointId)) with _ | k
      · rw [applyPointChange_someF_noneI_eq c sk kvs it ap2 hTJ hF hI2]
        constructor
        · intro job hj
          rw [setProp_vobj, getProp_objSet_self, toArrD_varr] at hj
          rcases List.mem_or_eq_of_mem_set hj with hm | he
          · rcases List.mem_or_eq_of_mem_set hm with hm2 | he2
            · exact hallP job hm2
            · rw [he2, hkv0, setProp_vobj]
              exact ⟨_, rfl⟩
          · rw [he, hkv0, setProp_vobj, setProp_vobj]
            exact ⟨_, rfl⟩
        · rw [sectionPoints, sectionJob, setProp_vobj, getProp_objSet_self, toArrD_varr]
          by_cases hij : it.idx = j
          · subst hij
            have hbk : (((toArrD (getProp (JSValue.vobj kv0) "points"))).filter (fun p => getPointId p "" = pid)).length ≤ 1 := by
              rw [← hkv0]
              exact pad_points_filter_le c sk kvs it it.idx pid hft
            rw [getD_set_self _ _ _ _ (by rw [List.length_set]; exact pad_length _ _ _),
              hkv0, setProp_vobj, setProp_vobj, getProp_objSet_self, toArrD_varr,
              List.filter_append]
            by_cases hpid : it.pointId = pid
            · have h2 := hI2
              rw [hpid, hkv0] at h2
              rw [findIdx?_none_filter_nil _ _ h2, List.nil_append]
              exact filter_singleton_le _ _
            · have hN : (fun p => decide (getPointId p "" = pid))
                  (nextPointOf ap2 it.pointId) = false := by
                refine decide_eq_false (fun hc => hpid ?_)
                rw [← nextPointOf_id ap2 it.pointId hap2, hc]
              rw [filter_singleton_neg (fun p => decide (getPointId p "" = pid)) _ hN,
                List.append_nil]
              exact hbk
          · rw [getD_set_ne _ _ _ _ _ hij, getD_set_ne _ _ _ _ _ hij]
            exact pad_points_filter_le c sk kvs it j pid hft
      · rw [applyPointChange_someF_someI_eq c sk kvs it ap2 k hTJ hF hI2]
        constructor
        · intro job hj
          rw [setProp_vobj, getProp_objSet_self, toArrD_varr] at hj
          rcases List.mem_or_eq_of_mem_set hj with hm | he
          · rcases List.mem_or_eq_of_mem_set hm with hm2 | he2
            · exact hallP job hm2
            · rw [he2, hkv0, setProp_vobj]
              exact ⟨_, rfl⟩
          · rw [he, hkv0, setProp_vobj, setProp_vobj]
            exact ⟨_, rfl⟩
        · rw [sectionPoints, sectionJob, setProp_vobj, getProp_objSet_self, toArrD_varr]
          by_cases hij : it.idx = j
          · subst hij
            have hbk : (((toArrD (getProp (JSValue.vobj kv0) "points"))).filter (fun p => getPointId p "" = pid)).length ≤ 1 := by
              rw [← hkv0]
              exact pad_points_filter_le c sk kvs it it.idx pid hft
            rw [getD_set_self _ _ _ _ (by rw [List.length_set]; exact pad_length _ _ _),
              hkv0, setProp_vobj, setProp_vobj, getProp_objSet_self, toArrD_varr]
            have h2 := hI2
            rw [hkv0] at h2
            by_cases hpid : it.pointId = pid
            · rw [hpid] at h2
              obtain ⟨hk, hpk, hprev⟩ := List.findIdx?_eq_some_iff_getElem.mp h2
              have hprevP : ∀ jj, jj < k → ∀ b, ((toArrD (getProp (JSValue.vobj kv0) "points")))[jj]? = some b →
                  (fun p => decide (getPointId p "" = pid)) b = false := by
                intro jj hjj b hb
                have hjl : jj < ((toArrD (getProp (JSValue.vobj kv0) "points"))).length := Nat.lt_trans hjj hk
                rw [List.getElem?_eq_getElem hjl, Option.some.injEq] at hb
                have hn := hprev jj hjj
                rw [Bool.not_eq_true] at hn
                rw [← hb]
                exact hn
              have hNP : (fun p => decide (getPointId p "" = pid))
                  (nextPointOf ap2 pid) = true :=
                decide_eq_true (nextPointOf_id ap2 pid (by rw [← hpid]; exact hap2))
              rw [hpid, filter_set_first (fun p => decide (getPointId p "" = pid)) _ k
                (nextPointOf ap2 pid) _ (List.getElem?_eq_getElem hk) hpk hprevP hbk hNP]
              exact Nat.le_refl 1
            · obtain ⟨hk, hpk, -⟩ := List.findIdx?_eq_some_iff_getElem.mp h2
              have hposk : ∀ x, ((toArrD (getProp (JSValue.vobj kv0) "points")))[k]? = some x →
                  (fun p => decide (getPointId p "" = pid)) x = false := by
                intro x hx
                rw [List.getElem?_eq_getElem hk, Option.some.injEq] at hx
                rw [decide_eq_true_eq] at hpk
                refine decide_eq_false (fun hc => hpid ?_)
                rw [← hpk, hx, hc]
              have hN : (fun p => decide (getPointId p "" = pid))
                  (nextPointOf ap2 it.pointId) = false := by
                refine decide_eq_false (fun hc => hpid ?_)
                rw [← nextPointOf_id ap2 it.pointId hap2, hc]
              rw [filter_set_of_not (fun p => decide (getPointId p "" = pid)) _ k _ hposk hN]
              exact hbk
          · rw [getD_set_ne _ _ _ _ _ hij, getD_set_ne _ _ _ _ _ hij]
            exact pad_points_filter_le c sk kvs it j pid hft

/-- Once a section slot holds exactly the candidate point for an id that the
candidate resolves, any further point change keeps it exactly there. -/
theorem applyPointChange_I (c : JSValue) (sk : String) (j : Nat) (pid : String)
    (ap : JSValue) (kvs : List (String × JSValue)) (it : ChangeItem)
    (hfind : analysisPointAt c sk j pid = some ap)
    (hall : ∀ job ∈ toArrD (getProp (JSValue.vobj kvs) sk), ∃ kv, job = JSValue.vobj kv)
    (hlen : j < (toArrD (getProp (JSValue.vobj kvs) sk)).length)
    (hpts : (sectionPoints (JSValue.vobj kvs) sk j).filter
      (fun p => getPointId p "" = pid) = [nextPointOf ap pid]) :
    (∀ job ∈ toArrD (getProp (applyPointChange c sk (JSValue.vobj kvs) it) sk),
      ∃ kv, job = JSValue.vobj kv) ∧
    j < (toArrD (getProp (applyPointChange c sk (JSValue.vobj kvs) it) sk)).length ∧
    (sectionPoints (applyPointChange c sk (JSValue.vobj kvs) it) sk j).filter
      (fun p => getPointId p "" = pid) = [nextPointOf ap pid] := by
  rw [sectionPoints, sectionJob] at hpts
  cases hTJ : truthy (getProp (getProp c sk) (toString it.idx)) with
  | false =>
    rw [applyPointChange_skip c sk _ it hTJ]
    refine ⟨hall, hlen, ?_⟩
    rw [sectionPoints, sectionJob]
    exact hpts
  | true =>
    obtain ⟨kv0, hkv0⟩ := pad_getD_vobj c sk kvs it hall
    have hallP := pad_all_vobj c sk kvs it hall
    rcases hF : ((toArrD (getProp (getProp (getProp c sk) (toString it.idx)) "points")).find? (fun p => getPointId p "" = it.pointId)) with _ | ap2
    · rw [applyPointChange_noneF_eq c sk kvs it hTJ hF]
      refine ⟨?_, ?_, ?_⟩
      · intro job hj
        rw [setProp_vobj, getProp_objSet_self, toArrD_varr] at hj
        rcases List.mem_or_eq_of_mem_set hj with hm | he
        · exact hallP job hm
        · rw [he, hkv0, setProp_vobj]
          exact ⟨_, rfl⟩
      · rw [setProp_vobj, getProp_objSet_self, toArrD_varr, List.length_set,
          List.length_append, List.length_replicate]
        omega
      · rw [sectionPoints, sectionJob, setProp_vobj, getProp_objSet_self, toArrD_varr]
        by_cases hij : it.idx = j
        · subst hij
          have hcur0 := (List.getD_append _ _ _ _ hlen).symm.trans hkv0
          have hpts2 : (((toArrD (getProp (JSValue.vobj kv0) "points"))).filter (fun p => getPointId p "" = pid))
              = [nextPointOf ap pid] := by
            rw [← hcur0]
            exact hpts
          rw [getD_set_self _ _ _ _ (pad_length _ _ _), hkv0, setProp_vobj,
            getProp_objSet_self, toArrD_varr]
          exact hpts2
        · rw [getD_set_ne _ _ _ _ _ hij, List.getD_append _ _ _ _ hlen]
          exact hpts
    · have hap2 : getPointId ap2 "" = it.pointId := by
        have hp := List.find?_some hF
        rwa [decide_eq_true_eq] at hp
      rcases hI2 : ((toArrD (getProp (((toArrD (getProp (JSValue.vobj kvs) sk)) ++ List.replicate (it.idx + 1 - (toArrD (getProp (JSValue.vobj kvs) sk)).length) (JSValue.vobj (objSet (spreadIntoObj (getProp (getProp c sk) (toString it.idx))) "points" (.varr [])))).getD it.idx .vundef) "points")).findIdx? (fun p => getPointId p "" = it.pointId)) with _ | k
      · rw [applyPointChange_someF_noneI_eq c sk kvs it ap2 hTJ hF hI2]
        refine ⟨?_, ?_, ?_⟩
        · intro job hj
          rw [setProp_vobj, getProp_objSet_self, toArrD_varr] at hj
          rcases List.mem_or_eq_of_mem_set hj with hm | he
          · rcases List.mem_or_eq_of_mem_set hm with hm2 | he2
            · exact hallP job hm2
            · rw [he2, hkv0, setProp_vobj]
              exact ⟨_, rfl⟩
          · rw [he, hkv0, setProp_vobj, setProp_vobj]
            exact ⟨_, rfl⟩
        · rw [setProp_vobj, getProp_objSet_self, toArrD_varr, List.length_set,
            List.length_set, List.length_append, List.length_replicate]
          omega
        · rw [sectionPoints, sectionJob, setProp_vobj, getProp_objSet_self, toArrD_varr]
          by_cases hij : it.idx = j
          · subst hij
            have hcur0 := (List.getD_append _ _ _ _ hlen).symm.trans hkv0
            have hpts2 : (((toArrD (getProp (JSValue.vobj kv0) "points"))).filter (fun p => getPointId p "" = pid))
                = [nextPointOf ap pid] := by
              rw [← hcur0]
              exact hpts
            rw [getD_set_self _ _ _ _ (by rw [List.length_set]; exact pad_length _ _ _),
              hkv0, setProp_vobj, setProp_vobj, getProp_objSet_self, toArrD_varr,
              List.filter_append]
            by_cases hpid : it.pointId = pid
            · have h2 := hI2
              rw [hpid, hkv0] at h2
              rw [findIdx?_none_filter_nil _ _ h2] at hpts2
              exact absurd hpts2.symm (List.cons_ne_nil _ _)
            · have hN : (fun p => decide (getPointId p "" = pid))
                  (nextPointOf ap2 it.pointId) = false := by
                refine decide_eq_false (fun hc => hpid ?_)
                rw [← nextPointOf_id ap2 it.pointId hap2, hc]
              rw [filter_singleton_neg (fun p => decide (getPointId p "" = pid)) _ hN,
                List.append_nil]
              exact hpts2
          · rw [getD_set_ne _ _ _ _ _ hij, getD_set_ne _ _ _ _ _ hij,
              List.getD_append _ _ _ _ hlen]
            exact hpts
      · rw [applyPointChange_someF_someI_eq c sk kvs it ap2 k hTJ hF hI2]
        refine ⟨?_, ?_, ?_⟩
        · intro job hj
          rw [setProp_vobj, getProp_objSet_self, toArrD_varr] at hj
          rcases List.mem_or_eq_of_mem_set hj with hm | he
          · rcases List.mem_or_eq_of_mem_set hm with hm2 | he2
            · exact hallP job hm2
            · rw [he2, hkv0, setProp_vobj]
              exact ⟨_, rfl⟩
          · rw [he, hkv0, setProp_vobj, setProp_vobj]
            exact ⟨_, rfl⟩
        · rw [setProp_vobj, getProp_objSet_self, toArrD_varr, List.length_set,
            List.length_set, List.length_append, List.length_replicate]
          omega
        · rw [sectionPoints, sectionJob, setProp_vobj, getProp_objSet_self, toArrD_varr]
          by_cases hij : it.idx = j
          · subst hij
            have hcur0 := (List.getD_append _ _ _ _ hlen).symm.trans hkv0
            have hpts2 : (((toArrD (getProp (JSValue.vobj kv0) "points"))).filter (fun p => getPointId p "" = pid))
                = [nextPointOf ap pid] := by
              rw [← hcur0]
              exact hpts
            have hbk : (((toArrD (getProp (JSValue.vobj kv0) "points"))).filter (fun p => getPointId p "" = pid)).length ≤ 1 := by
              rw [hpts2]
              exact Nat.le_refl 1
            rw [getD_set_self _ _ _ _ (by rw [List.length_set]; exact pad_length _ _ _),
              hkv0, setProp_vobj, setProp_vobj, getProp_objSet_self, toArrD_varr]
            have h2 := hI2
            rw [hkv0] at h2
            by_cases hpid : it.pointId = pid
            · have hfind2 := hfind
              simp only [analysisPointAt] at hfind2
              have hF2 := hF
              rw [hpid] at hF2
              have hap : ap = ap2 := by
                have := hfind2.symm.trans hF2
                exact Option.some.injEq _ _ ▸ this
              rw [hpid] at h2
              obtain ⟨hk, hpk, hprev⟩ := List.findIdx?_eq_some_iff_getElem.mp h2
              have hprevP : ∀ jj, jj < k → ∀ b, ((toArrD (getProp (JSValue.vobj kv0) "points")))[jj]? = some b →
                  (fun p => decide (getPointId p "" = pid)) b = false := by
                intro jj hjj b hb
                have hjl : jj < ((toArrD (getProp (JSValue.vobj kv0) "points"))).length := Nat.lt_trans hjj hk
                rw [List.getElem?_eq_getElem hjl, Option.some.injEq] at hb
                have hn := hprev jj hjj
                rw [Bool.not_eq_true] at hn
                rw [← hb]
                exact hn
              have hNP : (fun p => decide (getPointId p "" = pid))
                  (nextPointOf ap2 pid) = true :=
                decide_eq_true (nextPointOf_id ap2 pid (by rw [← hpid]; exact hap2))
              rw [hpid, filter_set_first (fun p => decide (getPointId p "" = pid)) _ k
                (nextPointOf ap2 pid) _ (List.getElem?_eq_getElem hk) hpk hprevP hbk hNP,
                ← hap]
            · obtain ⟨hk, hpk, -⟩ := List.findIdx?_eq_some_iff_getElem.mp h2
              have hposk : ∀ x, ((toArrD (getProp (JSValue.vobj kv0) "points")))[k]? = some x →
                  (fun p => decide (getPointId p "" = pid)) x = false := by
                intro x hx
                rw [List.getElem?_eq_getElem hk, Option.some.injEq] at hx
                rw [decide_eq_true_eq] at hpk
                refine decide_eq_false (fun hc => hpid ?_)
                rw [← hpk, hx, hc]
              have hN : (fun p => decide (getPointId p "" = pid))
                  (nextPointOf ap2 it.pointId) = false := by
                refine decide_eq_false (fun hc => hpid ?_)
                rw [← nextPointOf_id ap2 it.pointId hap2, hc]
              rw [filter_set_of_not (fun p => decide (getPointId p "" = pid)) _ k _ hposk hN]
              exact hpts2
          · rw [getD_set_ne _ _ _ _ _ hij, getD_set_ne _ _ _ _ _ hij,
              List.getD_append _ _ _ _ hlen]
            exact hpts

/-- A point change targeting (job, point id) whose candidate job is truthy and
whose candidate point resolves installs exactly the candidate-derived point. -/
theorem applyPointChange_establish (c : JSValue) (sk : String) (j : Nat) (pid : String)
    (ap : JSValue) (kvs : List (String × JSValue)) (it : ChangeItem)
    (hfind : analysisPointAt c sk j pid = some ap)
    (hTJ : truthy (getProp (getProp c sk) (toString j)) = true)
    (hall : ∀ job ∈ toArrD (getProp (JSValue.vobj kvs) sk), ∃ kv, job = JSValue.vobj kv)
    (hft : ((sectionPoints (JSValue.vobj kvs) sk j).filter
      (fun p => getPointId p "" = pid)).length ≤ 1)
    (hidx : it.idx = j) (hpid : it.pointId = pid) :
    (∀ job ∈ toArrD (getProp (applyPointChange c sk (JSValue.vobj kvs) it) sk),
      ∃ kv, job = JSValue.vobj kv) ∧
    j < (toArrD (getProp (applyPointChange c sk (JSValue.vobj kvs) it) sk)).length ∧
    (sectionPoints (applyPointChange c sk (JSValue.vobj kvs) it) sk j).filter
      (fun p => getPointId p "" = pid) = [nextPointOf ap pid] := by
  subst hidx
  subst hpid
  rw [sectionPoints, sectionJob] at hft
  simp only [analysisPointAt] at hfind
  have hap : getPointId ap "" = it.pointId := by
    have hp := List.find?_some hfind
    rwa [decide_eq_true_eq] at hp
  obtain ⟨kv0, hkv0⟩ := pad_getD_vobj c sk kvs it hall
  have hallP := pad_all_vobj c sk kvs it hall
  have hNP : (fun p => decide (getPointId p "" = it.pointId))
      (nextPointOf ap it.pointId) = true :=
    decide_eq_true (nextPointOf_id ap it.pointId hap)
  rcases hI : ((toArrD (getProp (((toArrD (getProp (JSValue.vobj kvs) sk)) ++ List.replicate (it.idx + 1 - (toArrD (getProp (JSValue.vobj kvs) sk)).length) (JSValue.vobj (objSet (spreadIntoObj (getProp (getProp c sk) (toString it.idx))) "points" (.varr [])))).getD it.idx .vundef) "points")).findIdx? (fun p => getPointId p "" = it.pointId)) with _ | k
  · rw [applyPointChange_someF_noneI_eq c sk kvs it ap hTJ hfind hI]
    refine ⟨?_, ?_, ?_⟩
    · intro job hj
      rw [setProp_vobj, getProp_objSet_self, toArrD_varr] at hj
      rcases List.mem_or_eq_of_mem_set hj with hm | he
      · rcases List.mem_or_eq_of_mem_set hm with hm2 | he2
        · exact hallP job hm2
        · rw [he2, hkv0, setProp_vobj]
          exact ⟨_, rfl⟩
      · rw [he, hkv0, setProp_vobj, setProp_vobj]
        exact ⟨_, rfl⟩
    · rw [setProp_vobj, getProp_objSet_self, toArrD_varr, List.length_set,
        List.length_set, List.length_append, List.length_replicate]
      omega
    · rw [sectionPoints, sectionJob, setProp_vobj, getProp_objSet_self, toArrD_varr]
      have h2 := hI
      rw [hkv0] at h2
      rw [getD_set_self _ _ _ _ (by rw [List.length_set]; exact pad_length _ _ _),
        hkv0, setProp_vobj, setProp_vobj, getProp_objSet_self, toArrD_varr,
        List.filter_append, findIdx?_none_filter_nil _ _ h2, List.nil_append,
        filter_singleton_pos (fun p => decide (getPointId p "" = it.pointId)) _ hNP]
  · rw [applyPointChange_someF_someI_eq c sk kvs it ap k hTJ hfind hI]
    refine ⟨?_, ?_, ?_⟩
    · intro job hj
      rw [setProp_vobj, getProp_objSet_self, toArrD_varr] at hj
      rcases List.mem_or_eq_of_mem_set hj with hm | he
      · rcases List.mem_or_eq_of_mem_set hm with hm2 | he2
        · exact hallP job hm2
        · rw [he2, hkv0, setProp_vobj]
          exact ⟨_, rfl⟩
      · rw [he, hkv0, setProp_vobj, setProp_vobj]
        exact ⟨_, rfl⟩
    · rw [setProp_vobj, getProp_objSet_self, toArrD_varr, List.length_set,
        List.length_set, List.length_append, List.length_replicate]
      omega
    · rw [sectionPoints, sectionJob, setProp_vobj, getProp_objSet_self, toArrD_varr]
      have hbk : (((toArrD (getProp (JSValue.vobj kv0) "points"))).filter (fun p => getPointId p "" = it.pointId)).length ≤ 1 := by
        rw [← hkv0]
        exact pad_points_filter_le c sk kvs it it.idx it.pointId hft
      have h2 := hI
      rw [hkv0] at h2
      obtain ⟨hk, hpk, hprev⟩ := List.findIdx?_eq_some_iff_getElem.mp h2
      have hprevP : ∀ jj, jj < k → ∀ b, ((toArrD (getProp (JSValue.vobj kv0) "points")))[jj]? = some b →
          (fun p => decide (getPointId p "" = it.pointId)) b = false := by
        intro jj hjj b hb
        have hjl : jj < ((toArrD (getProp (JSValue.vobj kv0) "points"))).length := Nat.lt_trans hjj hk
        rw [List.getElem?_eq_getElem hjl, Option.some.injEq] at hb
        have hn := hprev jj hjj
        rw [Bool.not_eq_true] at hn
        rw [← hb]
        exact hn
      rw [getD_set_self _ _ _ _ (by rw [List.length_set]; exact pad_length _ _ _),
        hkv0, setProp_vobj, setProp_vobj, getProp_objSet_self, toArrD_varr,
        filter_set_first (fun p => decide (getPointId p "" = it.pointId)) _ k
          (nextPointOf ap it.pointId) _ (List.getElem?_eq_getElem hk) hpk hprevP hbk hNP]

/-- For an accepted experience / project item, `applyChange` is the point
change on the matching section key. -/
theorem applyChange_ct_point (a : JSValue) (st : String → Bool) (d : JSValue)
    (it : ChangeItem) (sk : String) (hst : st it.cid = true)
    (h : it.ctype = ChangeType.experience ∧ sk = "experience" ∨
      it.ctype = ChangeType.project ∧ sk = "projects") :
    applyChange a st d it = applyPointChange a sk d it := by
  rcases h with ⟨hct, hsk⟩ | ⟨hct, hsk⟩
  · subst hsk
    rw [applyChange, if_neg (fun hc => hc hst), hct]
  · subst hsk
    rw [applyChange, if_neg (fun hc => hc hst), hct]

/-- One accepted step preserves the section shape and the at-most-one bound. -/
theorem applyChange_J_step (a : JSValue) (sk : String)
    (hsk : sk = "experience" ∨ sk = "projects") (j : Nat) (pid : String)
    (kvs : List (String × JSValue)) (it : ChangeItem)
    (hall : ∀ job ∈ toArrD (getProp (JSValue.vobj kvs) sk), ∃ kv, job = JSValue.vobj kv)
    (hft : ((sectionPoints (JSValue.vobj kvs) sk j).filter
      (fun p => getPointId p "" = pid)).length ≤ 1) :
    (∀ job ∈ toArrD (getProp (applyChange a (fun _ => true) (JSValue.vobj kvs) it) sk),
      ∃ kv, job = JSValue.vobj kv) ∧
    ((sectionPoints (applyChange a (fun _ => true) (JSValue.vobj kvs) it) sk j).filter
      (fun p => getPointId p "" = pid)).length ≤ 1 := by
  by_cases hmatch : it.ctype = ChangeType.experience ∧ sk = "experience" ∨
      it.ctype = ChangeType.project ∧ sk = "projects"
  · rw [applyChange_ct_point a (fun _ => true) (JSValue.vobj kvs) it sk rfl hmatch]
    exact applyPointChange_J a sk j pid kvs it hall hft
  · have hframe : getProp (applyChange a (fun _ => true) (JSValue.vobj kvs) it) sk =
        getProp (JSValue.vobj kvs) sk := by
      refine applyChange_frame a (fun _ => true) _ it sk ?_ ?_ ?_ ?_
      · intro _
        rcases hsk with h | h <;> subst h <;> decide
      · intro _
        rcases hsk with h | h <;> subst h <;> decide
      · intro hct hske
        exact hmatch (Or.inl ⟨hct, hske⟩)
      · intro hct hskp
        exact hmatch (Or.inr ⟨hct, hskp⟩)
    constructor
    · rw [hframe]
      exact hall
    · rw [sectionPoints, sectionJob] at hft ⊢
      rw [hframe]
      exact hft

/-- One accepted step keeps a slot that already holds exactly the
candidate-derived point. -/
theorem applyChange_I_step (a : JSValue) (sk : String)
    (hsk : sk = "experience" ∨ sk = "projects") (j : Nat) (pid : String)
    (ap : JSValue) (kvs : List (String × JSValue)) (it : ChangeItem)
    (hfind : analysisPointAt a sk j pid = some ap)
    (hall : ∀ job ∈ toArrD (getProp (JSValue.vobj kvs) sk), ∃ kv, job = JSValue.vobj kv)
    (hlen : j < (toArrD (getProp (JSValue.vobj kvs) sk)).length)
    (hpts : (sectionPoints (JSValue.vobj kvs) sk j).filter
      (fun p => getPointId p "" = pid) = [nextPointOf ap pid]) :
    (∀ job ∈ toArrD (getProp (applyChange a (fun _ => true) (JSValue.vobj kvs) it) sk),
      ∃ kv, job = JSValue.vobj kv) ∧
    j < (toArrD (getProp (applyChange a (fun _ => true) (JSValue.vobj kvs) it) sk)).length ∧
    (sectionPoints (applyChange a (fun _ => true) (JSValue.vobj kvs) it) sk j).filter
      (fun p => getPointId p "" = pid) = [nextPointOf ap pid] := by
  by_cases hmatch : it.ctype = ChangeType.experience ∧ sk = "experience" ∨
      it.ctype = ChangeType.project ∧ sk = "projects"
  · rw [applyChange_ct_point a (fun _ => true) (JSValue.vobj kvs) it sk rfl hmatch]
    exact applyPointChange_I a sk j pid ap kvs it hfind hall hlen hpts
  · have hframe : getProp (applyChange a (fun _ => true) (JSValue.vobj kvs) it) sk =
        getProp (JSValue.vobj kvs) sk := by
      refine applyChange_frame a (fun _ => true) _ it sk ?_ ?_ ?_ ?_
      · intro _
        rcases hsk with h | h <;> subst h <;> decide
      · intro _
        rcases hsk with h | h <;> subst h <;> decide
      · intro hct hske
        exact hmatch (Or.inl ⟨hct, hske⟩)
      · intro hct hskp
        exact hmatch (Or.inr ⟨hct, hskp⟩)
    refine ⟨?_, ?_, ?_⟩
    · rw [hframe]
      exact hall
    · rw [hframe]
      exact hlen
    · rw [sectionPoints, sectionJob] at hpts ⊢
      rw [hframe]
      exact hpts

/-- The exact-point state survives the rest of the decision loop. -/
theorem foldl_point_I (a : JSValue) (sk : String)
    (hsk : sk = "experience" ∨ sk = "projects") (j : Nat) (pid : String)
    (ap : JSValue) (hfind : analysisPointAt a sk j pid = some ap)
    (items : List ChangeItem) :
    ∀ kvs : List (String × JSValue),
    (∀ job ∈ toArrD (getProp (JSValue.vobj kvs) sk), ∃ kv, job = JSValue.vobj kv) →
    j < (toArrD (getProp (JSValue.vobj kvs) sk)).length →
    (sectionPoints (JSValue.vobj kvs) sk j).filter
      (fun p => getPointId p "" = pid) = [nextPointOf ap pid] →
    (sectionPoints (items.foldl (applyChange a (fun _ => true)) (JSValue.vobj kvs)) sk
      j).filter (fun p => getPointId p "" = pid) = [nextPointOf ap pid] := by
  induction items with
  | nil =>
    intro kvs _ _ hpts
    exact hpts
  | cons it rest ih =>
    intro kvs hall hlen hpts
    rw [List.foldl_cons]
    obtain ⟨h1, h2, h3⟩ := applyChange_I_step a sk hsk j pid ap kvs it hfind hall hlen hpts
    obtain ⟨kvs2, heq⟩ := applyChange_vobj a (fun _ => true) kvs it
    rw [heq] at h1 h2 h3 ⊢
    exact ih kvs2 h1 h2 h3

/-- When the decision loop contains an accepted item for (section, job,
point id) and the candidate resolves that point, the final slot filter is
exactly the candidate-derived point. -/
theorem foldl_point_exact (a : JSValue) (sk : String) (ct : ChangeType)
    (hsk : ct = ChangeType.experience ∧ sk = "experience" ∨
      ct = ChangeType.project ∧ sk = "projects")
    (j : Nat) (pid : String) (ap : JSValue)
    (hfind : analysisPointAt a sk j pid = some ap)
    (hTJ : truthy (getProp (getProp a sk) (toString j)) = true)
    (items : List ChangeItem) :
    ∀ kvs : List (String × JSValue),
    (∀ job ∈ toArrD (getProp (JSValue.vobj kvs) sk), ∃ kv, job = JSValue.vobj kv) →
    ((sectionPoints (JSValue.vobj kvs) sk j).filter
      (fun p => getPointId p "" = pid)).length ≤ 1 →
    (∃ it ∈ items, it.ctype = ct ∧ it.idx = j ∧ it.pointId = pid) →
    (sectionPoints (items.foldl (applyChange a (fun _ => true)) (JSValue.vobj kvs)) sk
      j).filter (fun p => getPointId p "" = pid) = [nextPointOf ap pid] := by
  have hsk2 : sk = "experience" ∨ sk = "projects" := by
    rcases hsk with ⟨-, h⟩ | ⟨-, h⟩
    · exact Or.inl h
    · exact Or.inr h
  induction items with
  | nil =>
    rintro kvs - - ⟨it, hmem, -⟩
    cases hmem
  | cons it rest ih =>
    rintro kvs hall hft hcov
    rw [List.foldl_cons]
    by_cases hrest : ∃ it2 ∈ rest, it2.ctype = ct ∧ it2.idx = j ∧ it2.pointId = pid
    · obtain ⟨h1, h2⟩ := applyChange_J_step a sk hsk2 j pid kvs it hall hft
      obtain ⟨kvs2, heq⟩ := applyChange_vobj a (fun _ => true) kvs it
      rw [heq] at h1 h2 ⊢
      exact ih kvs2 h1 h2 hrest
    · obtain ⟨it0, hmem, hprops⟩ := hcov
      rcases List.mem_cons.mp hmem with hhd | htl
      · subst hhd
        obtain ⟨hct, hidx, hpid2⟩ := hprops
        have hmatch : it0.ctype = ChangeType.experience ∧ sk = "experience" ∨
            it0.ctype = ChangeType.project ∧ sk = "projects" := by
          rcases hsk with ⟨hc, hs⟩ | ⟨hc, hs⟩
          · exact Or.inl ⟨hct.trans hc, hs⟩
          · exact Or.inr ⟨hct.trans hc, hs⟩
        rw [applyChange_ct_point a (fun _ => true) (JSValue.vobj kvs) it0 sk rfl hmatch]
        obtain ⟨e1, e2, e3⟩ :=
          applyPointChange_establish a sk j pid ap kvs it0 hfind hTJ hall hft hidx hpid2
        obtain ⟨kvs1, heq1⟩ := applyPointChange_vobj a sk kvs it0
        rw [heq1] at e1 e2 e3 ⊢
        exact foldl_point_I a sk hsk2 j pid ap hfind rest kvs1 e1 e2 e3
      · exact absurd ⟨it0, htl, hprops⟩ hrest

/-- C2 (amended).  The two decision extremes of the merge engine, for truthy
original and candidate documents.  (1) With every change rejected, the merge
returns the skills-filtered structural clone of the original — not the
normalized original (see the counterexample).  With every change accepted:
(2) a summary item writes the candidate summary exactly — a clone of it when
it is object-like, the raw value when it is merely truthy, the clone's own
summary otherwise; (3) a skill item makes the merged skill list at its id
exactly the candidate entry when that entry is a non-empty object, and
removes the id otherwise, provided the original holds at most one entry at
that id; (4)/(5) an experience / project item whose candidate job is truthy
and whose candidate point resolves by id leaves the job's point list holding
exactly the candidate-derived two-field point at that id, provided the clone
held at most one.  An accepted deletion is a no-op (counterexample, second
half). -/
theorem merge_decision_extremes (o c : JSValue) (items : List ChangeItem)
    (hto : truthy o = true) (htc : truthy c = true) :
    (buildUpdatedResumeData o c items (fun _ => false) =
      setProp (cloneResume o) "skills"
        (.varr ((toArrD (getProp (cloneResume o) "skills")).filter skillKeep))) ∧
    ((∃ it ∈ items, it.ctype = ChangeType.summary) →
      getProp (buildUpdatedResumeData o c items (fun _ => true)) "summary" =
        (if isObjLike (getProp c "summary") then
          JSValue.vobj (spreadIntoObj (getProp c "summary"))
         else if truthy (getProp c "summary") then getProp c "summary"
         else getProp (cloneResume o) "summary")) ∧
    (∀ X : JSValue, (∃ it ∈ items, it.ctype = ChangeType.skill ∧ it.skillId = X) →
      ((toArrD (getProp o "skills")).filter (fun v => skillIdExpr v = X)).length ≤ 1 →
      (toArrD (getProp (buildUpdatedResumeData o c items (fun _ => true)) "skills")).filter
        (fun v => skillIdExpr v = X) =
        (match analysisSkillAt c X with
          | some e => if isObjLike e ∧ (objKeys e).isEmpty = false then [e] else []
          | none => [])) ∧
    (∀ (j : Nat) (pid : String) (ap : JSValue),
      (∃ it ∈ items, it.ctype = ChangeType.experience ∧ it.idx = j ∧ it.pointId = pid) →
      truthy (getProp (getProp c "experience") (toString j)) = true →
      analysisPointAt c "experience" j pid = some ap →
      ((sectionPoints (cloneResume o) "experience" j).filter
        (fun p => getPointId p "" = pid)).length ≤ 1 →
      (sectionPoints (buildUpdatedResumeData o c items (fun _ => true)) "experience"
        j).filter (fun p => getPointId p "" = pid) = [nextPointOf ap pid]) ∧
    (∀ (j : Nat) (pid : String) (ap : JSValue),
      (∃ it ∈ items, it.ctype = ChangeType.project ∧ it.idx = j ∧ it.pointId = pid) →
      truthy (getProp (getProp c "projects") (toString j)) = true →
      analysisPointAt c "projects" j pid = some ap →
      ((sectionPoints (cloneResume o) "projects" j).filter
        (fun p => getPointId p "" = pid)).length ≤ 1 →
      (sectionPoints (buildUpdatedResumeData o c items (fun _ => true)) "projects"
        j).filter (fun p => getPointId p "" = pid) = [nextPointOf ap pid]) := by
  obtain ⟨kvs0, hclone⟩ : ∃ kvs, cloneResume o = JSValue.vobj kvs := ⟨_, rfl⟩
  refine ⟨?_, ?_, ?_, ?_, ?_⟩
  · rw [buildUpdatedResumeData_eq o c items (fun _ => false) hto htc,
      foldl_applyChange_false c items (cloneResume o)]
  · intro hsum
    rw [buildUpdatedResumeData_eq o c items (fun _ => true) hto htc,
      getProp_setProp_ne _ _ _ _ (by decide)]
    by_cases htr : truthy (getProp c "summary") = true
    · rw [hclone, foldl_sets_summary c items htr kvs0 hsum]
      by_cases hobj : isObjLike (getProp c "summary") = true
      · rw [if_pos hobj, if_pos hobj]
      · rw [if_neg hobj, if_neg hobj, if_pos htr]
    · have hfal : truthy (getProp c "summary") = false := Bool.eq_false_iff.mpr htr
      have hnobj : ¬ isObjLike (getProp c "summary") = true :=
        fun h => htr (isObjLike_truthy _ h)
      rw [hclone, foldl_summary_falsy c items hfal kvs0, ← hclone,
        if_neg hnobj, if_neg htr]
  · intro X hcov hdup
    rw [buildUpdatedResumeData_eq o c items (fun _ => true) hto htc]
    have hft0 : ((toArrD (getProp (JSValue.vobj kvs0) "skills")).filter
        (fun v => skillIdExpr v = X)).length ≤ 1 := by
      rw [← hclone, cloneResume_skills, toArrD_varr]
      exact hdup
    have hfold := foldl_skill_exact c items X kvs0 hcov hft0
    obtain ⟨kvsM, hM⟩ := foldl_applyChange_vobj c (fun _ => true) items kvs0
    rw [hM] at hfold
    rw [hclone, hM, setProp_vobj, getProp_objSet_self, toArrD_varr,
      List.filter_comm, hfold]
    rcases hA : analysisSkillAt c X with _ | e
    · rfl
    · dsimp only
      by_cases hgood : isObjLike e ∧ (objKeys e).isEmpty = false
      · rw [if_pos hgood]
        have hkeep : skillKeep e = true := by
          obtain ⟨h1, h2⟩ := hgood
          simp [skillKeep, h1, h2]
        exact filter_singleton_pos skillKeep e hkeep
      · rw [if_neg hgood]
        rfl
  · intro j pid ap hcov hTJ hfind hdup
    rw [buildUpdatedResumeData_eq o c items (fun _ => true) hto htc]
    have hall0 : ∀ job ∈ toArrD (getProp (JSValue.vobj kvs0) "experience"),
        ∃ kv, job = JSValue.vobj kv := by
      rw [← hclone, cloneResume_experience, toArrD_varr]
      exact cloneJobs_vobj _
    have hft0 : ((sectionPoints (JSValue.vobj kvs0) "experience" j).filter
        (fun p => getPointId p "" = pid)).length ≤ 1 := by
      rw [← hclone]
      exact hdup
    have hfold := foldl_point_exact c "experience" ChangeType.experience
      (Or.inl ⟨rfl, rfl⟩) j pid ap hfind hTJ items kvs0 hall0 hft0 hcov
    rw [sectionPoints, sectionJob, getProp_setProp_ne _ _ _ _ (by decide), hclone]
    rw [sectionPoints, sectionJob] at hfold
    exact hfold
  · intro j pid ap hcov hTJ hfind hdup
    rw [buildUpdatedResumeData_eq o c items (fun _ => true) hto htc]
    have hall0 : ∀ job ∈ toArrD (getProp (JSValue.vobj kvs0) "projects"),
        ∃ kv, job = JSValue.vobj kv := by
      rw [← hclone, cloneResume_projects, toArrD_varr]
      exact cloneJobs_vobj _
    have hft0 : ((sectionPoints (JSValue.vobj kvs0) "projects" j).filter
        (fun p => getPointId p "" = pid)).length ≤ 1 := by
      rw [← hclone]
      exact hdup
    have hfold := foldl_point_exact c "projects" ChangeType.project
      (Or.inr ⟨rfl, rfl⟩) j pid ap hfind hTJ items kvs0 hall0 hft0 hcov
    rw [sectionPoints, sectionJob, getProp_setProp_ne _ _ _ _ (by decide), hclone]
    rw [sectionPoints, sectionJob] at hfold
    exact hfold

/-- The C2 theorem applied to a concrete pair of documents with one accepted
experience change: the merged point list at the covered id holds exactly the
candidate-derived point. -/
theorem merge_decision_extremes_witness :
    truthy (JSValue.vobj [("summary", .vstr "old"), ("experience", .varr [.vobj [("points", .varr [.vobj [("id", .vstr "P1"), ("text", .vstr "old")]])]])]) = true ∧ truthy (JSValue.vobj [("summary", .vobj [("id", .vstr "summary-1"), ("text", .vstr "new")]), ("experience", .varr [.vobj [("points", .varr [.vobj [("id", .vstr "P1"), ("text", .vstr "new")]])]])]) = true ∧
    (sectionPoints (buildUpdatedResumeData (JSValue.vobj [("summary", .vstr "old"), ("experience", .varr [.vobj [("points", .varr [.vobj [("id", .vstr "P1"), ("text", .vstr "old")]])]])]) (JSValue.vobj [("summary", .vobj [("id", .vstr "summary-1"), ("text", .vstr "new")]), ("experience", .varr [.vobj [("points", .varr [.vobj [("id", .vstr "P1"), ("text", .vstr "new")]])]])]) [({ cid := "exp:0:P1", ctype := ChangeType.experience, pointId := "P1" } : ChangeItem)] (fun _ => true))
      "experience" 0).filter (fun p => getPointId p "" = "P1") =
      [nextPointOf (JSValue.vobj [("id", .vstr "P1"), ("text", .vstr "new")]) "P1"] :=
  ⟨by decide, by decide,
    (merge_decision_extremes (JSValue.vobj [("summary", .vstr "old"), ("experience", .varr [.vobj [("points", .varr [.vobj [("id", .vstr "P1"), ("text", .vstr "old")]])]])]) (JSValue.vobj [("summary", .vobj [("id", .vstr "summary-1"), ("text", .vstr "new")]), ("experience", .varr [.vobj [("points", .varr [.vobj [("id", .vstr "P1"), ("text", .vstr "new")]])]])]) [({ cid := "exp:0:P1", ctype := ChangeType.experience, pointId := "P1" } : ChangeItem)] (by decide) (by decide)).2.2.2.1 0 "P1"
      (JSValue.vobj [("id", .vstr "P1"), ("text", .vstr "new")]) ⟨({ cid := "exp:0:P1", ctype := ChangeType.experience, pointId := "P1" } : ChangeItem), List.mem_cons_self _ _, rfl, rfl, rfl⟩
      (by decide) (by decide) (by decide)⟩
